import Mathlib

/-!
# rel_track: header and section parser, address allocator, relocation engine

A shallow embedding of `src/rel/rel_track.cpp`.

* The input file is a list of bytes (`List Nat`, every element read modulo 256).
* `uint32_t` and `uint16_t` values are naturals; every operation that can overflow in the
  source carries an explicit `% 2 ^ 32`.
* The class `rel_track` becomes a record that is passed from step to step.
* Host services (`add_segm`, `file2base`, `get_original_dword`, the directory scan) are
  fields of `Host`; image writes (`patch_dword`, `patch_word`, `put_dword`) are collected in
  an event list, oldest first.
* Calls that only annotate the database (`msg`, `add_extra_cmt`, `force_name`,
  `add_pgm_cmt`, `add_entry`, `set_libitem`, `set_segm_addressing`) have no effect on the
  modelled state and are left out.
-/

namespace RelTrack

/-! ## Declarations taken from headers that are not part of the source tree -/

/-- The declarations `rel_track.cpp` uses from `rel_track.h` and `rel.h`, which are not under
`src/`: the size of `relhdr` and the byte offsets of the members read by `read_header`, the
load base `START`, the map key `SECTION_IMPORTS`, the name `BASENAME` and the numeric values
of the relocation kinds. They are parameters of the whole development. -/
structure Decls where
  sizeof_relhdr : Nat
  off_id : Nat
  off_num_sections : Nat
  off_section_offset : Nat
  off_version : Nat
  off_rel_offset : Nat
  off_import_offset : Nat
  off_import_size : Nat
  off_bss_size : Nat
  START : Nat
  SECTION_IMPORTS : Nat
  BASENAME : String
  R_DOLPHIN_SECTION : Nat
  R_DOLPHIN_NOP : Nat
  R_DOLPHIN_END : Nat
  R_PPC_ADDR32 : Nat
  R_PPC_ADDR16_LO : Nat
  R_PPC_ADDR16_HA : Nat
  R_PPC_REL24 : Nat

/-- The case labels of the relocation `switch` together with the end marker are pairwise
different (C++ rejects a `switch` with a repeated label). -/
def Decls.kinds_distinct (d : Decls) : Prop :=
  [d.R_DOLPHIN_END, d.R_DOLPHIN_SECTION, d.R_DOLPHIN_NOP, d.R_PPC_ADDR32,
    d.R_PPC_ADDR16_LO, d.R_PPC_ADDR16_HA, d.R_PPC_REL24].Nodup

instance (d : Decls) : Decidable d.kinds_distinct := by
  unfold Decls.kinds_distinct; infer_instance

/-- A concrete instance used for evaluation: the header layout of the container format as it
is commonly documented (0x4C bytes), the ELF numbering of the PowerPC relocation kinds and
the format's three own kinds. -/
def stdDecls : Decls where
  sizeof_relhdr := 0x4C
  off_id := 0x00
  off_num_sections := 0x0C
  off_section_offset := 0x10
  off_version := 0x1C
  off_rel_offset := 0x24
  off_import_offset := 0x28
  off_import_size := 0x2C
  off_bss_size := 0x20
  START := 0x80500000
  SECTION_IMPORTS := 0xFF
  BASENAME := "base"
  R_DOLPHIN_SECTION := 202
  R_DOLPHIN_NOP := 201
  R_DOLPHIN_END := 203
  R_PPC_ADDR32 := 1
  R_PPC_ADDR16_LO := 4
  R_PPC_ADDR16_HA := 6
  R_PPC_REL24 := 10

/-- Modelled from the spec: the macro `SECTION_EXEC` (from `rel.h`, not under `src/`) is the
1-bit "executable" flag packed into the low bit of a section's file-offset word (§3, §6). -/
def SECTION_EXEC : Nat := 1

/-- Modelled from the spec: the macro `SECTION_OFF` (from `rel.h`, not under `src/`) strips
the executable flag bit from a file-offset word (§4.1 "strip the executable flag bit before
using offset arithmetic"; §6 "file-offset-with-low-bit-as-executable-flag"). -/
def SECTION_OFF (off : Nat) : Nat := off - off % 2

/-- Modelled from the spec: the host address type `ea_t` (declared by the host SDK, not
under `src/`) is 32 bits wide (§4.3 "the full 32-bit resolved target address"; the source
keeps addresses in `uint32_t` variables: `where`, `value`, `imp_offset`); `BADADDR` is its
all-ones value. -/
def BADADDR : Nat := 2 ^ 32 - 1

/-! ## Binary reader -/

/-- The byte at position `i` of `bs`; positions past the end read as 0. -/
def byteAt (bs : List Nat) (i : Nat) : Nat := bs.getD i 0 % 256

/-- Modelled from the spec: `swap16` (not under `src/`) turns a big-endian 16-bit field into
a host value (§6 "all multi-byte integers big-endian"). -/
def be16 (bs : List Nat) (i : Nat) : Nat := byteAt bs i * 2 ^ 8 + byteAt bs (i + 1)

/-- Modelled from the spec: `swap32` (not under `src/`) turns a big-endian 32-bit field into
a host value (§6 "all multi-byte integers big-endian"). -/
def be32 (bs : List Nat) (i : Nat) : Nat :=
  byteAt bs i * 2 ^ 24 + byteAt bs (i + 1) * 2 ^ 16 + byteAt bs (i + 2) * 2 ^ 8
    + byteAt bs (i + 3)

/-- Modelled from the spec: `qlseek` to `pos` followed by `qlread` of `n` bytes (host
services, §6 "byte-range read at offset"): the bytes when all `n` are available, `none`
when the read is short. -/
def qlread (file : List Nat) (pos n : Nat) : Option (List Nat) :=
  if pos + n ≤ file.length then some ((file.drop pos).take n) else none

/-! ## Records -/

/-- Modelled from the spec: `section_entry` (from `rel.h`, not under `src/`), 8 bytes:
file offset with the executable flag in the low bit (u32), size (u32) (§6). -/
structure section_entry where
  file_offset : Nat
  size : Nat
  deriving DecidableEq, Repr

/-- The size of one `section_entry` record (§6: 8 bytes). -/
def sizeof_section_entry : Nat := 8

/-- Modelled from the spec: `import_entry` (from `rel.h`, not under `src/`), 8 bytes:
source module id (u32), file offset of the opcode chain (u32) (§6). -/
structure import_entry where
  id : Nat
  offset : Nat
  deriving DecidableEq, Repr

/-- The size of one `import_entry` record (§6: 8 bytes). -/
def sizeof_import_entry : Nat := 8

/-- Modelled from the spec: `rel_entry` (from `rel.h`, not under `src/`), 8 bytes:
kind (u8), target section (u8), offset delta (u16), addend (u32) (§6). The member names are
the ones `rel_track.cpp` uses (`sect` stands for `section`, a reserved word). -/
structure rel_entry where
  type : Nat
  sect : Nat
  offset : Nat
  addend : Nat
  deriving DecidableEq, Repr

/-- The size of one `rel_entry` record (§6: 8 bytes). -/
def sizeof_rel_entry : Nat := 8

/-- Decode one section entry from its 8 bytes, with the byte swaps of `read_sections`. -/
def decode_section_entry (raw : List Nat) : section_entry :=
  { file_offset := be32 raw 0, size := be32 raw 4 }

/-- Decode one import descriptor from its 8 bytes, with the byte swaps of
`apply_relocations`. -/
def decode_import_entry (raw : List Nat) : import_entry :=
  { id := be32 raw 0, offset := be32 raw 4 }

/-- Decode one relocation opcode from its 8 bytes, with the byte swaps of
`apply_relocations`. -/
def decode_rel_entry (raw : List Nat) : rel_entry :=
  { type := byteAt raw 0, sect := byteAt raw 1, offset := be16 raw 2, addend := be32 raw 4 }

/-- An image write performed through the host. -/
inductive Event where
  | patch_dword (ea : Nat) (value : Nat)
  | patch_word (ea : Nat) (value : Nat)
  | put_dword (ea : Nat) (value : Nat)
  deriving DecidableEq, Repr

/-- The `find` member of a `std::map`, modelled as a key-sorted association list: the value
stored under `k`, if any. -/
def omap_find {κ α : Type} [DecidableEq κ] (m : List (κ × α)) (k : κ) : Option α :=
  match m with
  | [] => none
  | (k1, v) :: rest => if k1 = k then some v else omap_find rest k

/-- The assignment `m[k] = v` of a `std::map`: overwrite the value stored under `k`, or
insert the pair at the key's place in the order. -/
def omap_assign {κ α : Type} [DecidableEq κ] [LT κ] [DecidableRel (fun a b : κ => a < b)]
    (m : List (κ × α)) (k : κ) (v : α) : List (κ × α) :=
  match m with
  | [] => [(k, v)]
  | (k1, v1) :: rest =>
    if k1 = k then (k, v) :: rest
    else if k < k1 then (k, v) :: (k1, v1) :: rest
    else (k1, v1) :: omap_assign rest k v

/-- The member `insert` of a `std::map`: the pair is stored only when the key is absent. -/
def omap_insert {κ α : Type} [DecidableEq κ] [LT κ] [DecidableRel (fun a b : κ => a < b)]
    (m : List (κ × α)) (k : κ) (v : α) : List (κ × α) :=
  match omap_find m k with
  | some _ => m
  | none => omap_assign m k v

/-- The state of a `rel_track` object. Members that `rel_track.cpp` only reports
(`m_bss_section_ign`, the prolog, epilog and unresolved descriptors) are left out; members
that C++ leaves uninitialised start at 0. Of a sibling module stored in
`m_external_modules` only the section list is ever read, so only that is kept. -/
structure rel_track where
  m_valid : Bool
  m_max_filesize : Nat
  m_input_file : List Nat
  m_id : Nat
  m_num_sections : Nat
  m_section_offset : Nat
  m_version : Nat
  m_rel_offset : Nat
  m_import_offset : Nat
  m_import_size : Nat
  m_bss_size : Nat
  m_sections : List section_entry
  m_segment_address_map : List (Nat × Nat)
  m_next_seg_offset : Nat
  m_internal_bss_section : Nat
  m_import_section : Nat
  m_module_names : List (Nat × String)
  m_external_modules : List (String × List section_entry)
  m_imports : List (String × List rel_entry)
  deriving DecidableEq, Repr

/-! ## Header and section parser -/

/-- The object right after the member initialisers of `rel_track::rel_track(linput_t*)`:
`m_valid(false)`, `m_max_filesize(qlsize(p_input))`, `m_input_file(p_input)`. -/
def rel_track.init (file : List Nat) : rel_track where
  m_valid := false
  m_max_filesize := file.length
  m_input_file := file
  m_id := 0
  m_num_sections := 0
  m_section_offset := 0
  m_version := 0
  m_rel_offset := 0
  m_import_offset := 0
  m_import_size := 0
  m_bss_size := 0
  m_sections := []
  m_segment_address_map := []
  m_next_seg_offset := 0
  m_internal_bss_section := 0
  m_import_section := 0
  m_module_names := []
  m_external_modules := []
  m_imports := []

/-- The function `rel_track::read_header`: `none` when fewer than `sizeof(relhdr)` bytes can
be read at offset 0, otherwise the object with the header members filled in. -/
def read_header (d : Decls) (t : rel_track) : Option rel_track :=
  match qlread t.m_input_file 0 d.sizeof_relhdr with
  | none => none
  | some base_header =>
    some { t with
      m_id := be32 base_header d.off_id
      m_num_sections := be32 base_header d.off_num_sections
      m_section_offset := be32 base_header d.off_section_offset
      m_version := be32 base_header d.off_version
      m_rel_offset := be32 base_header d.off_rel_offset
      m_import_offset := be32 base_header d.off_import_offset
      m_import_size := be32 base_header d.off_import_size
      m_bss_size := be32 base_header d.off_bss_size }

/-- The function `rel_track::verify_section`; `offset + size` is a `uint32_t` sum. -/
def verify_section (d : Decls) (t : rel_track) (offset size : Nat) : Bool :=
  let offset := SECTION_OFF offset
  decide (d.sizeof_relhdr ≤ offset) && decide ((offset + size) % 2 ^ 32 ≤ t.m_max_filesize)

/-- The function `rel_track::validate_header`. -/
def validate_header (d : Decls) (t : rel_track) : Bool :=
  if t.m_num_sections > 32 ∨ t.m_num_sections ≤ 1 then false
  else if !verify_section d t t.m_section_offset
      (t.m_num_sections * sizeof_section_entry % 2 ^ 32) then false
  else if t.m_version ≤ 0 ∨ t.m_version > 3 then false
  else true

/-- The loop of `rel_track::read_sections`: `todo` entries are still to be read and the
file position is `pos`. The result is the return value and the object, which keeps the
entries appended before a failure. -/
def read_sections_loop (d : Decls) : Nat → Nat → rel_track → Bool × rel_track
  | 0, _, t => (true, t)
  | todo + 1, pos, t =>
    match qlread t.m_input_file pos sizeof_section_entry with
    | none => (false, t)
    | some raw =>
      let entry := decode_section_entry raw
      if entry.file_offset = 0 ∧ entry.size ≠ 0 then
        if entry.size ≠ t.m_bss_size then (false, t)
        else read_sections_loop d todo (pos + sizeof_section_entry)
          { t with m_sections := t.m_sections ++ [entry] }
      else if entry.file_offset ≠ 0 ∧ entry.size ≠ 0 then
        if !verify_section d t entry.file_offset entry.size then (false, t)
        else read_sections_loop d todo (pos + sizeof_section_entry)
          { t with m_sections := t.m_sections ++ [entry] }
      else read_sections_loop d todo (pos + sizeof_section_entry)
        { t with m_sections := t.m_sections ++ [entry] }

/-- The function `rel_track::read_sections`. -/
def read_sections (d : Decls) (t : rel_track) : Bool × rel_track :=
  read_sections_loop d t.m_num_sections t.m_section_offset t

/-- The constructor `rel_track::rel_track(linput_t*)`. -/
def rel_track.new (d : Decls) (file : List Nat) : rel_track :=
  match read_header d (rel_track.init file) with
  | none => rel_track.init file
  | some t1 =>
    if !validate_header d t1 then t1
    else
      match read_sections d t1 with
      | (false, t2) => t2
      | (true, t2) => { t2 with m_valid := true }

/-- The function `rel_track::is_good`. -/
def is_good (t : rel_track) : Bool := t.m_valid

/-! ## Host services -/

/-- The host services whose outcome the code depends on (§6: "opaque services with
success/failure outcomes only"): `add_segm` (start and end address), `file2base` (file
position, start and end address), `get_original_dword`, and the `*.rel` files that
`enumerate_files` finds next to the database, each with its module name (the base name
without extension) and its bytes. -/
structure Host where
  add_segm : Nat → Nat → Bool
  file2base : Nat → Nat → Nat → Bool
  get_original_dword : Nat → Nat
  rel_files : List (String × List Nat)

/-! ## Address allocator -/

/-- The function `rel_track::section_address`; the parameter `section` is a `uint8_t` and
the sum is an `ea_t` sum. -/
def section_address (t : rel_track) (sect offset : Nat) : Nat :=
  match omap_find t.m_segment_address_map (sect % 256) with
  | none => BADADDR
  | some base => (base + offset) % 2 ^ 32

/-- The loop of `rel_track::create_sections` over the entries from index `i` on. The result
is the return value and the object as the failing or final iteration leaves it. -/
def create_sections_loop (h : Host) : List section_entry → Nat → rel_track → Bool × rel_track
  | [], _, t => (true, t)
  | entry :: rest, i, t =>
    if entry.file_offset = 0 ∧ entry.size = 0 then create_sections_loop h rest (i + 1) t
    else
      let t1 := { t with
        m_segment_address_map := omap_assign t.m_segment_address_map i t.m_next_seg_offset }
      let foffset := SECTION_OFF entry.file_offset
      let seg_end := (t1.m_next_seg_offset + entry.size) % 2 ^ 32
      if foffset ≠ 0 then
        if !h.add_segm t1.m_next_seg_offset seg_end then (false, t1)
        else if !h.file2base foffset t1.m_next_seg_offset seg_end then (false, t1)
        else create_sections_loop h rest (i + 1) { t1 with m_next_seg_offset := seg_end }
      else
        let t2 := { t1 with m_internal_bss_section := i }
        if !h.add_segm t2.m_next_seg_offset seg_end then (false, t2)
        else create_sections_loop h rest (i + 1) { t2 with m_next_seg_offset := seg_end }

/-- The function `rel_track::create_sections`. -/
def create_sections (d : Decls) (h : Host) (t : rel_track) : Bool × rel_track :=
  create_sections_loop h t.m_sections 0 { t with m_next_seg_offset := d.START % 2 ^ 32 }

/-! ## Module resolver -/

/-- The callback `enum_modules_cb`: parse one sibling file and, when it is good, record its
name under its id and its sections under its name. -/
def enum_modules_cb (d : Decls) (owner : rel_track) (f : String × List Nat) : rel_track :=
  let rel := rel_track.new d f.2
  if is_good rel then
    { owner with
      m_module_names := omap_assign owner.m_module_names rel.m_id f.1
      m_external_modules := omap_assign owner.m_external_modules f.1 rel.m_sections }
  else owner

/-- The function `rel_track::init_resolvers`. -/
def init_resolvers (d : Decls) (h : Host) (t : rel_track) : rel_track :=
  h.rel_files.foldl (enum_modules_cb d) { t with m_module_names := [] }

/-- The loop of `get_external_offset` that finds `first_offset`: the flag-stripped file
offset of the first section, in table order, for which it is nonzero (0 when there is
none). -/
def first_offset (sections : List section_entry) : Nat :=
  match sections with
  | [] => 0
  | e :: rest => if SECTION_OFF e.file_offset ≠ 0 then SECTION_OFF e.file_offset
    else first_offset rest

/-- The function `rel_track::get_external_offset`. -/
def get_external_offset (d : Decls) (t : rel_track) (modulename : String)
    (offset sect : Nat) (virt : Bool) : Nat :=
  match omap_find t.m_external_modules modulename with
  | none => 0
  | some sections =>
    if sect ≥ sections.length then 0
    else
      let section_offset := SECTION_OFF (sections.getD sect ⟨0, 0⟩).file_offset
      if section_offset = 0 then 1
      else
        let section_offset :=
          if virt then
            ((section_offset + 2 ^ 32 - first_offset sections) % 2 ^ 32 + d.START) % 2 ^ 32
          else section_offset
        (section_offset + offset) % 2 ^ 32

/-! ## Relocation engine -/

/-- One pass through the body of the self-relocation loop after the end test:
`current_offset += rel.offset` and the `switch`. The result is the new current section, the
new current offset and the event list. -/
def self_reloc (d : Decls) (h : Host) (t : rel_track) (rel : rel_entry)
    (current_section current_offset : Nat) (ev : List Event) : Nat × Nat × List Event :=
  let current_offset := (current_offset + rel.offset) % 2 ^ 32
  if rel.type = d.R_DOLPHIN_SECTION then (rel.sect, 0, ev)
  else if rel.type = d.R_DOLPHIN_NOP then (current_section, current_offset, ev)
  else if rel.type = d.R_PPC_ADDR32 then
    (current_section, current_offset,
      ev ++ [Event.patch_dword (section_address t current_section current_offset)
        (section_address t rel.sect rel.addend)])
  else if rel.type = d.R_PPC_ADDR16_LO then
    (current_section, current_offset,
      ev ++ [Event.patch_word (section_address t current_section current_offset)
        (section_address t rel.sect rel.addend &&& 0xFFFF)])
  else if rel.type = d.R_PPC_ADDR16_HA then
    let value := section_address t rel.sect rel.addend
    let value := if value &&& 0x8000 = 0x8000 then (value + 0x00010000) % 2 ^ 32 else value
    (current_section, current_offset,
      ev ++ [Event.patch_word (section_address t current_section current_offset)
        ((value >>> 16) &&& 0xFFFF)])
  else if rel.type = d.R_PPC_REL24 then
    let where_ := section_address t current_section current_offset
    let value := section_address t rel.sect rel.addend
    let value := (value + 2 ^ 32 - where_) % 2 ^ 32
    let orig := h.get_original_dword where_ % 2 ^ 32
    let orig := orig &&& 0xFC000003
    let orig := orig ||| (value &&& 0x03FFFFFC)
    (current_section, current_offset, ev ++ [Event.patch_dword where_ orig])
  else (current_section, current_offset, ev)

/-- The self-relocation loop of `apply_relocations`, reading 8-byte opcodes from `bytes`
(the input from the file position on) until the end opcode. The result is `false` when a
read is short, together with the events so far. -/
def self_chain (d : Decls) (h : Host) (t : rel_track) :
    List Nat → Nat → Nat → List Event → Bool × List Event
  | b0 :: b1 :: b2 :: b3 :: b4 :: b5 :: b6 :: b7 :: rest, current_section, current_offset,
      ev =>
    let rel := decode_rel_entry [b0, b1, b2, b3, b4, b5, b6, b7]
    if rel.type = d.R_DOLPHIN_END then (true, ev)
    else
      match self_reloc d h t rel current_section current_offset ev with
      | (cs, co, ev1) => self_chain d h t rest cs co ev1
  | _, _, _, ev => (false, ev)

/-- The locals of `apply_relocations` that the first pass over the external chains fills. -/
structure ImportState where
  desired_import_size : Nat
  imports_map : List (String × List (Nat × Nat))
  imports_module_starts : List (String × Nat)
  deriving DecidableEq, Repr

/-- The key under which an external reference is stored: `get_external_offset` without
`virt`, replaced by `addend + 0x1000000 * section` when that is 0 or 1. -/
def import_key (d : Decls) (t : rel_track) (modulename : String) (rel : rel_entry) : Nat :=
  let offs := get_external_offset d t modulename rel.addend rel.sect false
  if offs = 0 ∨ offs = 1 then (rel.addend + 0x1000000 * rel.sect) % 2 ^ 32 else offs

/-- One pass through the body of the first external loop after the end test. -/
def ext_scan_step (d : Decls) (imp_module_name : String) (rel : rel_entry)
    (t : rel_track) (s : ImportState) : rel_track × ImportState :=
  let s1 :=
    if rel.type ≠ d.R_DOLPHIN_SECTION ∧ rel.type ≠ d.R_DOLPHIN_NOP then
      let target_offset := (t.m_next_seg_offset + s.desired_import_size) % 2 ^ 32
      let offs := import_key d t imp_module_name rel
      let inner := (omap_find s.imports_map imp_module_name).getD []
      match omap_find inner offs with
      | some _ => { s with imports_map := omap_assign s.imports_map imp_module_name inner }
      | none =>
        { desired_import_size := (s.desired_import_size + 4) % 2 ^ 32
          imports_map := omap_assign s.imports_map imp_module_name
            (omap_assign inner offs target_offset)
          imports_module_starts :=
            omap_insert s.imports_module_starts imp_module_name target_offset }
    else s
  let log := (omap_find t.m_imports imp_module_name).getD [] ++ [rel]
  ({ t with m_imports := omap_assign t.m_imports imp_module_name log }, s1)

/-- The first external loop of `apply_relocations` ("read all imports to get the desired
size"), reading 8-byte opcodes from `bytes` until the end opcode. -/
def ext_scan (d : Decls) (imp_module_name : String) :
    List Nat → rel_track → ImportState → Bool × rel_track × ImportState
  | b0 :: b1 :: b2 :: b3 :: b4 :: b5 :: b6 :: b7 :: rest, t, s =>
    let rel := decode_rel_entry [b0, b1, b2, b3, b4, b5, b6, b7]
    if rel.type = d.R_DOLPHIN_END then (true, t, s)
    else
      match ext_scan_step d imp_module_name rel t s with
      | (t1, s1) => ext_scan d imp_module_name rest t1 s1
  | _, t, s => (false, t, s)

/-- The name of the module an import descriptor refers to. -/
def module_name_of (d : Decls) (t : rel_track) (id : Nat) : String :=
  match omap_find t.m_module_names id with
  | some n => n
  | none => if id = 0 then d.BASENAME else "module" ++ toString id

/-- The loop of `apply_relocations` over the import descriptors: `todo` descriptors are
still to be read and `i` is the index of the next one. The position
`m_import_offset + i * sizeof(import_entry)` is computed in `size_t`, taken not to wrap. -/
def import_loop (d : Decls) (h : Host) :
    Nat → Nat → rel_track → ImportState → List Event →
      Bool × rel_track × ImportState × List Event
  | 0, _, t, s, ev => (true, t, s, ev)
  | todo + 1, i, t, s, ev =>
    match qlread t.m_input_file (t.m_import_offset + i * sizeof_import_entry)
        sizeof_import_entry with
    | none => (false, t, s, ev)
    | some raw =>
      let entry := decode_import_entry raw
      let bytes := t.m_input_file.drop entry.offset
      if entry.id = t.m_id then
        match self_chain d h t bytes 0 0 ev with
        | (false, ev1) => (false, t, s, ev1)
        | (true, ev1) => import_loop d h todo (i + 1) t s ev1
      else
        match ext_scan d (module_name_of d t entry.id) bytes t s with
        | (false, t1, s1) => (false, t1, s1, ev)
        | (true, t1, s1) => import_loop d h todo (i + 1) t1 s1 ev

/-- One pass through the body of the second external loop: the stub lookup for an
effect-producing opcode, `current_offset += e->offset` and the `switch`. The result is
`none` on "Import was not mapped correctly", otherwise the new current section, the new
current offset and the event list. -/
def ext_reloc (d : Decls) (h : Host) (t : rel_track) (s : ImportState) (modulename : String)
    (e : rel_entry) (current_section current_offset : Nat) (ev : List Event) :
    Option (Nat × Nat × List Event) :=
  let effect := e.type ≠ d.R_DOLPHIN_SECTION ∧ e.type ≠ d.R_DOLPHIN_NOP
  let targ_offset :=
    if effect then
      ((omap_find ((omap_find s.imports_map modulename).getD [])
        (import_key d t modulename e)).getD 0)
    else 0
  if effect ∧ targ_offset = 0 then none
  else
    let current_offset := (current_offset + e.offset) % 2 ^ 32
    if e.type = d.R_DOLPHIN_SECTION then some (e.sect, 0, ev)
    else if e.type = d.R_DOLPHIN_NOP then some (current_section, current_offset, ev)
    else if e.type = d.R_PPC_ADDR32 then
      some (current_section, current_offset,
        ev ++ [Event.patch_dword (section_address t current_section current_offset)
          targ_offset, Event.put_dword targ_offset e.addend])
    else if e.type = d.R_PPC_ADDR16_LO then
      some (current_section, current_offset,
        ev ++ [Event.patch_word (section_address t current_section current_offset)
          (targ_offset &&& 0xFFFF), Event.put_dword targ_offset e.addend])
    else if e.type = d.R_PPC_ADDR16_HA then
      let value := targ_offset
      let value := if value &&& 0x8000 = 0x8000 then (value + 0x00010000) % 2 ^ 32 else value
      some (current_section, current_offset,
        ev ++ [Event.patch_word (section_address t current_section current_offset)
          ((value >>> 16) &&& 0xFFFF), Event.put_dword targ_offset e.addend])
    else if e.type = d.R_PPC_REL24 then
      let where_ := section_address t current_section current_offset
      let value := targ_offset
      let value := (value + 2 ^ 32 - where_) % 2 ^ 32
      let orig := h.get_original_dword where_ % 2 ^ 32
      let orig := orig &&& 0xFC000003
      let orig := orig ||| (value &&& 0x03FFFFFC)
      some (current_section, current_offset, ev ++ [Event.patch_dword where_ orig])
    else some (current_section, current_offset, ev)

/-- The inner loop of the second pass over the logged opcodes of one module. -/
def ext_replay (d : Decls) (h : Host) (t : rel_track) (s : ImportState)
    (modulename : String) : List rel_entry → Nat → Nat → List Event → Bool × List Event
  | [], _, _, ev => (true, ev)
  | e :: rest, current_section, current_offset, ev =>
    match ext_reloc d h t s modulename e current_section current_offset ev with
    | none => (false, ev)
    | some (cs, co, ev1) => ext_replay d h t s modulename rest cs co ev1

/-- The outer loop of the second pass, over the entries of `m_imports` in key order. -/
def ext_pass2 (d : Decls) (h : Host) (t : rel_track) (s : ImportState) :
    List (String × List rel_entry) → List Event → Bool × List Event
  | [], ev => (true, ev)
  | (name, ops) :: rest, ev =>
    if (omap_find s.imports_module_starts name).getD 0 = 0 then (false, ev)
    else
      match ext_replay d h t s name ops 0 0 ev with
      | (false, ev1) => (false, ev1)
      | (true, ev1) => ext_pass2 d h t s rest ev1

/-- The function `rel_track::apply_relocations`. The result is the return value, the object
and the image writes in the order they were made. -/
def apply_relocations (d : Decls) (h : Host) (t : rel_track) :
    Bool × rel_track × List Event :=
  let t := init_resolvers d h t
  if t.m_import_offset > 0 then
    let count := t.m_import_size / sizeof_import_entry
    match import_loop d h count 0 t ⟨0, [], []⟩ [] with
    | (false, t1, _, ev) => (false, t1, ev)
    | (true, t1, s, ev) =>
      let imp_offset := t1.m_next_seg_offset
      let t2 := { t1 with
        m_segment_address_map :=
          omap_assign t1.m_segment_address_map d.SECTION_IMPORTS imp_offset
        m_next_seg_offset := (t1.m_next_seg_offset + s.desired_import_size) % 2 ^ 32 }
      if !h.add_segm imp_offset ((imp_offset + s.desired_import_size) % 2 ^ 32) then
        (false, t2, ev)
      else
        let t3 := { t2 with m_import_section := t2.m_sections.length % 256 }
        match ext_pass2 d h t3 s t3.m_imports ev with
        | (ok, ev1) => (ok, t3, ev1)
  else (true, t, [])

/-- The function `rel_track::apply_patches`; `apply_names` only reports and returns
`true`. -/
def apply_patches (d : Decls) (h : Host) (t : rel_track) : Bool × rel_track × List Event :=
  match create_sections d h t with
  | (false, t1) => (false, t1, [])
  | (true, t1) =>
    match apply_relocations d h t1 with
    | (false, t2, ev) => (false, t2, ev)
    | (true, t2, ev) => (true, t2, ev)

/-! ## Auxiliary definitions for the statements -/

/-- The section count that the header of `file` declares. -/
def declared_num_sections (d : Decls) (file : List Nat) : Nat :=
  be32 (file.take d.sizeof_relhdr) d.off_num_sections

/-- The section-table offset that the header of `file` declares. -/
def declared_section_offset (d : Decls) (file : List Nat) : Nat :=
  be32 (file.take d.sizeof_relhdr) d.off_section_offset

/-- The version that the header of `file` declares. -/
def declared_version (d : Decls) (file : List Nat) : Nat :=
  be32 (file.take d.sizeof_relhdr) d.off_version

/-- The uninitialized-section size that the header of `file` declares. -/
def declared_bss_size (d : Decls) (file : List Nat) : Nat :=
  be32 (file.take d.sizeof_relhdr) d.off_bss_size

/-- The test that one iteration of `read_sections` applies to an entry before appending
it. -/
def entry_accepted (d : Decls) (t : rel_track) (e : section_entry) : Bool :=
  if e.file_offset = 0 ∧ e.size ≠ 0 then decide (e.size = t.m_bss_size)
  else if e.file_offset ≠ 0 ∧ e.size ≠ 0 then verify_section d t e.file_offset e.size
  else true

/-- The four bytes of a big-endian 32-bit field. -/
def enc32 (n : Nat) : List Nat := [n / 2 ^ 24 % 256, n / 2 ^ 16 % 256, n / 2 ^ 8 % 256, n % 256]

/-- A header in the layout of `stdDecls` with the given id, section count, section-table
offset, version, uninitialized size, import-table offset and import-table size; every other
field is 0. -/
def std_header (id num_sections section_offset version bss_size import_offset
    import_size : Nat) : List Nat :=
  enc32 id ++ enc32 0 ++ enc32 0 ++ enc32 num_sections ++ enc32 section_offset ++ enc32 0
    ++ enc32 0 ++ enc32 version ++ enc32 bss_size ++ enc32 0 ++ enc32 import_offset
    ++ enc32 import_size ++ List.replicate 28 0

/-- A host on which every service succeeds, with an all-zero image and no sibling files. -/
def okHost : Host where
  add_segm := fun _ _ => true
  file2base := fun _ _ _ => true
  get_original_dword := fun _ => 0
  rel_files := []

/-- A 92-byte module with a section count of 40. -/
def file_bad_count : List Nat :=
  std_header 1 40 0x4C 1 0 0 0 ++ List.replicate 16 0

/-- A 10-byte input, shorter than the 0x4C-byte header. -/
def file_short : List Nat := [0, 0, 0, 1, 0, 0, 0, 0, 0, 0]

/-- A 92-byte module with two sections: a backed one at file offset 0x4C whose size is
0xFFFFFFFF, and an unused one. -/
def file_wrap : List Nat :=
  std_header 1 2 0x4C 1 0 0 0 ++ enc32 0x4C ++ enc32 0xFFFFFFFF ++ enc32 0 ++ enc32 0

/-- A 92-byte module with uninitialized size 0x10 and two sections: one whose offset word is
1 (flag bit set, offset 0) with size 0x10, and an unused one. -/
def file_bss_flagged : List Nat :=
  std_header 1 2 0x4C 1 0x10 0 0 ++ enc32 1 ++ enc32 0x10 ++ enc32 0 ++ enc32 0

/-- The same module with the offset word 0 in place of 1. -/
def file_bss_plain : List Nat :=
  std_header 1 2 0x4C 1 0x10 0 0 ++ enc32 0 ++ enc32 0x10 ++ enc32 0 ++ enc32 0

/-- A 92-byte module with two sections: one with file offset 0x4C and size 0, and an unused
one. -/
def file_empty_backed : List Nat :=
  std_header 1 2 0x4C 1 0 0 0 ++ enc32 0x4C ++ enc32 0 ++ enc32 0 ++ enc32 0

/-- "Unused" in the sense of `create_sections`: file offset 0 and size 0. -/
def is_unused (e : section_entry) : Bool := decide (e.file_offset = 0 ∧ e.size = 0)

/-- The sum of the sizes of the non-unused sections of a list. -/
def mapped_size (l : List section_entry) : Nat :=
  ((l.filter (fun e => !is_unused e)).map (fun e => e.size)).sum

/-- The opcodes that a relocation loop reads from `bytes` before the end opcode, and
whether the end opcode was reached before a short read. -/
def read_chain (d : Decls) : List Nat → Bool × List rel_entry
  | b0 :: b1 :: b2 :: b3 :: b4 :: b5 :: b6 :: b7 :: rest =>
    let rel := decode_rel_entry [b0, b1, b2, b3, b4, b5, b6, b7]
    if rel.type = d.R_DOLPHIN_END then (true, [])
    else ((read_chain d rest).1, rel :: (read_chain d rest).2)
  | _ => (false, [])

/-- The body of the self-relocation loop applied to a list of opcodes in order. -/
def self_ops (d : Decls) (h : Host) (t : rel_track) :
    List rel_entry → Nat → Nat → List Event → Nat × Nat × List Event
  | [], cs, co, ev => (cs, co, ev)
  | rel :: rest, cs, co, ev =>
    match self_reloc d h t rel cs co ev with
    | (cs1, co1, ev1) => self_ops d h t rest cs1 co1 ev1

/-- The opcodes after the last section-marker of a list. -/
def since_marker (d : Decls) (ops : List rel_entry) : List rel_entry :=
  (ops.reverse.takeWhile (fun r => decide (r.type ≠ d.R_DOLPHIN_SECTION))).reverse

/-- The current section in the words of the spec: the target section of the last
section-marker, 0 when there is none. -/
def spec_section (d : Decls) (ops : List rel_entry) : Nat :=
  match ops.reverse.find? (fun r => decide (r.type = d.R_DOLPHIN_SECTION)) with
  | some m => m.sect
  | none => 0

/-- The current offset in the words of the spec: the sum of the deltas since the last
section-marker, as a 32-bit value. -/
def spec_offset (d : Decls) (ops : List rel_entry) : Nat :=
  ((since_marker d ops).map (fun r => r.offset)).sum % 2 ^ 32

/-- The scenario module: 384 bytes in the layout of `stdDecls`, id 5, three sections (code
at file offset 0x100 with the executable flag, size 0x40; data at 0x140, size 0x20;
uninitialized, size 0x10), an import table at 0x160 with the one descriptor (id 5, chain at
0x168) and the chain section-marker(0), 32-bit-absolute(delta 0, section 1, addend 0),
end. -/
def file_scenario : List Nat :=
  std_header 5 3 0x4C 1 0x10 0x160 8
    ++ enc32 0x101 ++ enc32 0x40 ++ enc32 0x140 ++ enc32 0x20 ++ enc32 0 ++ enc32 0x10
    ++ List.replicate (0x100 - 0x64) 0 ++ List.replicate 0x60 0
    ++ enc32 5 ++ enc32 0x168
    ++ [202, 0, 0, 0] ++ enc32 0 ++ [1, 1, 0, 0] ++ enc32 0 ++ [203, 0, 0, 0] ++ enc32 0

/-- The value of a halfword read as a 16-bit two's complement number. -/
def sign_extend_16 (lo : Nat) : Int := if lo < 0x8000 then (lo : Int) else (lo : Int) - 0x10000

/-- The stub that the first pass recorded for a key of a module, if any. -/
def stub_of (s : ImportState) (modulename : String) (key : Nat) : Option Nat :=
  omap_find ((omap_find s.imports_map modulename).getD []) key

/-- The result of `get_external_offset` with `virt = true` in the words of the spec: 0 for
an unknown module or a section index past the sibling's table, the placeholder 1 for a
target section whose flag-stripped file offset is 0, otherwise target offset minus the
flag-stripped offset of the first section, in table order, for which that is nonzero, plus
`START`, plus the addend, modulo 2^32. -/
def external_offset_spec (d : Decls) (t : rel_track) (modulename : String)
    (addend sect : Nat) : Nat :=
  match omap_find t.m_external_modules modulename with
  | none => 0
  | some sections =>
    match sections[sect]? with
    | none => 0
    | some target =>
      if SECTION_OFF target.file_offset = 0 then 1
      else
        match sections.find? (fun e => decide (SECTION_OFF e.file_offset ≠ 0)) with
        | none => 0
        | some first =>
          ((((SECTION_OFF target.file_offset : Int) - (SECTION_OFF first.file_offset : Int))
            + (d.START : Int) + (addend : Int)) % (2 ^ 32 : Int)).toNat

/-- A sibling table with one module, "sib", of three sections. -/
def t_with_sibling : rel_track :=
  { rel_track.init [] with
    m_external_modules := [("sib", [⟨0x101, 0x40⟩, ⟨0x140, 0x20⟩, ⟨0, 0x10⟩])] }

/-- The body of the first external loop applied to a list of opcodes in order. -/
def ext_ops (d : Decls) (imp_module_name : String) :
    List rel_entry → rel_track → ImportState → rel_track × ImportState
  | [], t, s => (t, s)
  | rel :: rest, t, s =>
    match ext_scan_step d imp_module_name rel t s with
    | (t1, s1) => ext_ops d imp_module_name rest t1 s1

/-- The scenario module `file_scenario` cut after 0x178 bytes: its chain has the
section-marker and the 32-bit-absolute opcode, and the input ends where the end opcode
would start. -/
def file_truncated : List Nat := file_scenario.take 0x178

/-- An opcode for which the external loops allocate and use a stub: its kind is neither
section-marker nor no-op. -/
def is_effect (d : Decls) (e : rel_entry) : Prop :=
  e.type ≠ d.R_DOLPHIN_SECTION ∧ e.type ≠ d.R_DOLPHIN_NOP

instance (d : Decls) (e : rel_entry) : Decidable (is_effect d e) := by
  unfold is_effect; infer_instance

/-- The (module name, key) pairs stored in the key-to-slot map of the first pass. -/
def key_pairs (s : ImportState) : List (String × Nat) :=
  s.imports_map.flatMap (fun p => p.2.map (fun q => (p.1, q.1)))

/-- The number of distinct (module name, key) pairs in the key-to-slot map. -/
def distinct_keys (s : ImportState) : Nat := (key_pairs s).dedup.length

/-- The position of the first occurrence of `p` in `l` (the length of `l` when there is
none). -/
def alloc_index (p : String × Nat) : List (String × Nat) → Nat
  | [] => 0
  | q :: rest => if q = p then 0 else alloc_index p rest + 1

/-- The stubs of `s` are laid out from `base` in steps of 4 in the order `alloc` of their
(module name, key) pairs, which has no repetition and holds every pair of the map. -/
def stubs_laid_out (base : Nat) (s : ImportState) (alloc : List (String × Nat)) : Prop :=
  alloc.Nodup ∧ s.desired_import_size = (4 * alloc.length) % 2 ^ 32 ∧
  (∀ name key, stub_of s name key
    = if (name, key) ∈ alloc then some ((base + 4 * alloc_index (name, key) alloc) % 2 ^ 32)
      else none) ∧
  (∀ p ∈ key_pairs s, p ∈ alloc)

/-- Every effect-producing opcode in the opcode log has its key in `alloc`. -/
def log_covered (d : Decls) (t : rel_track) (alloc : List (String × Nat)) : Prop :=
  ∀ name ops, (name, ops) ∈ t.m_imports → ∀ e ∈ ops, is_effect d e →
    (name, import_key d t name e) ∈ alloc

/-- The external scenario module: the sections of `file_scenario`, an import table at 0x160
with the one descriptor (id 7, chain at 0x168) and the chain section-marker(0),
32-bit-absolute(delta 4, section 2, addend 0x20), 32-bit-absolute(delta 8, section 2,
addend 0x20), end. -/
def file_ext_scenario : List Nat :=
  std_header 5 3 0x4C 1 0x10 0x160 8
    ++ enc32 0x101 ++ enc32 0x40 ++ enc32 0x140 ++ enc32 0x20 ++ enc32 0 ++ enc32 0x10
    ++ List.replicate (0x100 - 0x64) 0 ++ List.replicate 0x60 0
    ++ enc32 7 ++ enc32 0x168
    ++ [202, 0, 0, 0] ++ enc32 0 ++ [1, 2, 0, 4] ++ enc32 0x20 ++ [1, 2, 0, 8] ++ enc32 0x20
    ++ [203, 0, 0, 0] ++ enc32 0

/-- The module `file_ext_scenario` with other opcodes in its chain for id 7:
32-bit-absolute(delta 4, section 0, addend 0x1000000) and 32-bit-absolute(delta 8,
section 1, addend 0). -/
def file_key_collision : List Nat :=
  std_header 5 3 0x4C 1 0x10 0x160 8
    ++ enc32 0x101 ++ enc32 0x40 ++ enc32 0x140 ++ enc32 0x20 ++ enc32 0 ++ enc32 0x10
    ++ List.replicate (0x100 - 0x64) 0 ++ List.replicate 0x60 0
    ++ enc32 7 ++ enc32 0x168
    ++ [202, 0, 0, 0] ++ enc32 0 ++ [1, 0, 0, 4] ++ enc32 0x1000000 ++ [1, 1, 0, 8] ++ enc32 0
    ++ [203, 0, 0, 0] ++ enc32 0

/-- A sibling module with id 7, without import table: 352 bytes, sections at file offset
0x100 (executable, size 0x40) and 0x140 (size 0x20) and an uninitialized one of size 0x10. -/
def file_sibling : List Nat :=
  std_header 7 3 0x4C 1 0x10 0 0
    ++ enc32 0x101 ++ enc32 0x40 ++ enc32 0x140 ++ enc32 0x20 ++ enc32 0 ++ enc32 0x10
    ++ List.replicate (0x100 - 0x64) 0 ++ List.replicate 0x60 0

/-- The module `file_ext_scenario` with other opcodes in its chain for id 7:
32-bit-absolute(delta 4, section 0, addend 0x40) and 32-bit-absolute(delta 8, section 1,
addend 0). -/
def file_sibling_collision : List Nat :=
  std_header 5 3 0x4C 1 0x10 0x160 8
    ++ enc32 0x101 ++ enc32 0x40 ++ enc32 0x140 ++ enc32 0x20 ++ enc32 0 ++ enc32 0x10
    ++ List.replicate (0x100 - 0x64) 0 ++ List.replicate 0x60 0
    ++ enc32 7 ++ enc32 0x168
    ++ [202, 0, 0, 0] ++ enc32 0 ++ [1, 0, 0, 4] ++ enc32 0x40 ++ [1, 1, 0, 8] ++ enc32 0
    ++ [203, 0, 0, 0] ++ enc32 0

/-- The host `okHost` with one sibling file, `file_sibling` under the name "sibling". -/
def siblingHost : Host where
  add_segm := fun _ _ => true
  file2base := fun _ _ _ => true
  get_original_dword := fun _ => 0
  rel_files := [("sibling", file_sibling)]

/-- The object of `file_ext_scenario` on `okHost` at the start of the descriptor loop:
parsed, its sections created, its resolvers initialised. -/
def ext_scenario_state : rel_track :=
  init_resolvers stdDecls okHost
    (create_sections stdDecls okHost (rel_track.new stdDecls file_ext_scenario)).2

/-- The descriptor loop run on `ext_scenario_state`. -/
def ext_scenario_pass1 : Bool × rel_track × ImportState × List Event :=
  import_loop stdDecls okHost 1 0 ext_scenario_state ⟨0, [], []⟩ []

/-- The object of `file_key_collision` on `okHost` at the start of the descriptor loop. -/
def collision_state : rel_track :=
  init_resolvers stdDecls okHost
    (create_sections stdDecls okHost (rel_track.new stdDecls file_key_collision)).2

/-- The descriptor loop run on `collision_state`. -/
def collision_pass1 : Bool × rel_track × ImportState × List Event :=
  import_loop stdDecls okHost 1 0 collision_state ⟨0, [], []⟩ []

/-- The module `file_ext_scenario` with the single opcode 24-bit-relative(delta 4,
section 2, addend 0x20) in its chain for id 7. -/
def file_ext_rel24 : List Nat :=
  std_header 5 3 0x4C 1 0x10 0x160 8
    ++ enc32 0x101 ++ enc32 0x40 ++ enc32 0x140 ++ enc32 0x20 ++ enc32 0 ++ enc32 0x10
    ++ List.replicate (0x100 - 0x64) 0 ++ List.replicate 0x60 0
    ++ enc32 7 ++ enc32 0x168
    ++ [202, 0, 0, 0] ++ enc32 0 ++ [10, 2, 0, 4] ++ enc32 0x20
    ++ [203, 0, 0, 0] ++ enc32 0

/-- The descriptor `k` of the import table, if it can be read. -/
def import_descriptor (t : rel_track) (k : Nat) : Option import_entry :=
  (qlread t.m_input_file (t.m_import_offset + k * sizeof_import_entry)
    sizeof_import_entry).map decode_import_entry

/-- The opcodes of the chain at file offset `off`, up to the end opcode or to the end of the
input. -/
def chain_ops (d : Decls) (t : rel_track) (off : Nat) : List rel_entry :=
  (read_chain d (t.m_input_file.drop off)).2

/-- None of the first `count` descriptors of the import table is a descriptor of another
module under the name `name` with an effect-producing opcode in its chain. -/
def no_effect_for (d : Decls) (t : rel_track) (count : Nat) (name : String) : Prop :=
  ∀ k e, k < count → import_descriptor t k = some e → e.id ≠ t.m_id →
    module_name_of d t e.id = name → ∀ r ∈ chain_ops d t e.offset, ¬ is_effect d r

/-- The module `file_ext_scenario` with a chain for id 7 that is section-marker(0), end. -/
def file_marker_only : List Nat :=
  std_header 5 3 0x4C 1 0x10 0x160 8
    ++ enc32 0x101 ++ enc32 0x40 ++ enc32 0x140 ++ enc32 0x20 ++ enc32 0 ++ enc32 0x10
    ++ List.replicate (0x100 - 0x64) 0 ++ List.replicate 0x60 0
    ++ enc32 7 ++ enc32 0x168
    ++ [202, 0, 0, 0] ++ enc32 0 ++ [203, 0, 0, 0] ++ enc32 0

/-- The module `file_ext_scenario` with a chain for id 7 that is the end opcode alone. -/
def file_end_only : List Nat :=
  std_header 5 3 0x4C 1 0x10 0x160 8
    ++ enc32 0x101 ++ enc32 0x40 ++ enc32 0x140 ++ enc32 0x20 ++ enc32 0 ++ enc32 0x10
    ++ List.replicate (0x100 - 0x64) 0 ++ List.replicate 0x60 0
    ++ enc32 7 ++ enc32 0x168
    ++ [203, 0, 0, 0] ++ enc32 0

/-- The object of `file_marker_only` on `okHost` after `create_sections`. -/
def marker_only_state : rel_track :=
  (create_sections stdDecls okHost (rel_track.new stdDecls file_marker_only)).2

/-- The object of `file_end_only` on `okHost` after `create_sections`. -/
def end_only_state : rel_track :=
  (create_sections stdDecls okHost (rel_track.new stdDecls file_end_only)).2

/-- A host that creates a segment only for a range whose end lies above its start; its
other services succeed, the image is all zero and there are no sibling files. -/
def strictHost : Host where
  add_segm := fun a b => decide (a < b)
  file2base := fun _ _ _ => true
  get_original_dword := fun _ => 0
  rel_files := []

/-- The writes of the `switch` of the second external loop for one opcode of kind `kind`
at the source location `where_`, with the stub address `stub` and the addend: 32-bit
absolute, low-16 and high-adjusted-16 patch the source location and put the addend into the
stub, 24-bit relative-branch patches the source location only, any other kind writes
nothing. -/
def stub_patch (d : Decls) (h : Host) (kind where_ stub addend : Nat) : List Event :=
  if kind = d.R_PPC_ADDR32 then
    [Event.patch_dword where_ stub, Event.put_dword stub addend]
  else if kind = d.R_PPC_ADDR16_LO then
    [Event.patch_word where_ (stub &&& 0xFFFF), Event.put_dword stub addend]
  else if kind = d.R_PPC_ADDR16_HA then
    [Event.patch_word where_
      (((if stub &&& 0x8000 = 0x8000 then (stub + 0x00010000) % 2 ^ 32 else stub) >>> 16)
        &&& 0xFFFF),
      Event.put_dword stub addend]
  else if kind = d.R_PPC_REL24 then
    [Event.patch_dword where_
      (((h.get_original_dword where_ % 2 ^ 32) &&& 0xFC000003)
        ||| (((stub + 2 ^ 32 - where_) % 2 ^ 32) &&& 0x03FFFFFC))]
  else []

/-- The module `file_ext_scenario` with two opcodes of the unsupported kind 99 (delta 4 and
delta 8, both section 2, addend 0x20) in its chain for id 7. -/
def file_ext_unsupported : List Nat :=
  std_header 5 3 0x4C 1 0x10 0x160 8
    ++ enc32 0x101 ++ enc32 0x40 ++ enc32 0x140 ++ enc32 0x20 ++ enc32 0 ++ enc32 0x10
    ++ List.replicate (0x100 - 0x64) 0 ++ List.replicate 0x60 0
    ++ enc32 7 ++ enc32 0x168
    ++ [202, 0, 0, 0] ++ enc32 0 ++ [99, 2, 0, 4] ++ enc32 0x20 ++ [99, 2, 0, 8] ++ enc32 0x20
    ++ [203, 0, 0, 0] ++ enc32 0

/-- The bytes of `n` no-op opcodes with delta 0xFFFF (kind 201 of `stdDecls`), followed by
`tail`. -/
def nop_run : Nat → List Nat → List Nat
  | 0, tail => tail
  | n + 1, tail => 201 :: 0 :: 0xFF :: 0xFF :: 0 :: 0 :: 0 :: 0 :: nop_run n tail

/-- A self chain of 65539 opcodes: section-marker(0), then 0x10001 no-ops with delta 0xFFFF,
then 32-bit-absolute(delta 1, section 1, addend 0), then end. The deltas after the marker
add up to 2^32. -/
def wrap_chain : List Nat :=
  202 :: 0 :: 0 :: 0 :: 0 :: 0 :: 0 :: 0 ::
    nop_run 0x10001 [1, 1, 0, 1, 0, 0, 0, 0, 203, 0, 0, 0, 0, 0, 0, 0]

/-- The object of `file_scenario` on `okHost` after `create_sections`. -/
def scenario_state : rel_track :=
  (create_sections stdDecls okHost (rel_track.new stdDecls file_scenario)).2

/-! ## Parser: auxiliary lemmas -/

theorem read_header_fields (d : Decls) (file : List Nat) (t1 : rel_track)
    (h : read_header d (rel_track.init file) = some t1) :
    d.sizeof_relhdr ≤ file.length ∧ t1.m_valid = false ∧ t1.m_sections = [] ∧
    t1.m_segment_address_map = [] ∧ t1.m_input_file = file ∧
    t1.m_max_filesize = file.length ∧
    t1.m_num_sections = declared_num_sections d file ∧
    t1.m_section_offset = declared_section_offset d file ∧
    t1.m_version = declared_version d file ∧
    t1.m_bss_size = declared_bss_size d file := by
  unfold read_header at h
  by_cases hlen : d.sizeof_relhdr ≤ file.length
  · have hq : qlread file 0 d.sizeof_relhdr = some (file.take d.sizeof_relhdr) := by
      simp [qlread, hlen]
    simp only [rel_track.init, hq, Option.some.injEq] at h
    subst h
    exact ⟨hlen, rfl, rfl, rfl, rfl, rfl, rfl, rfl, rfl, rfl⟩
  · have hq : qlread file 0 d.sizeof_relhdr = none := by
      simp [qlread, hlen]
    simp [rel_track.init, hq] at h

theorem read_header_some (d : Decls) (file : List Nat)
    (hlen : d.sizeof_relhdr ≤ file.length) :
    ∃ t1, read_header d (rel_track.init file) = some t1 := by
  have hq : qlread file 0 d.sizeof_relhdr = some (file.take d.sizeof_relhdr) := by
    simp [qlread, hlen]
  simp only [read_header, rel_track.init, hq]
  exact ⟨_, rfl⟩

theorem read_header_none (d : Decls) (file : List Nat)
    (hlen : file.length < d.sizeof_relhdr) :
    read_header d (rel_track.init file) = none := by
  have hq : qlread file 0 d.sizeof_relhdr = none := by
    simp [qlread, hlen]
  simp only [read_header, rel_track.init, hq]

theorem create_sections_nil (d : Decls) (h : Host) (t : rel_track) (hs : t.m_sections = [])
    (hm : t.m_segment_address_map = []) :
    (create_sections d h t).2.m_segment_address_map = [] := by
  simp [create_sections, hs, create_sections_loop, hm]

theorem validate_header_true (d : Decls) (t : rel_track) (h : validate_header d t = true) :
    2 ≤ t.m_num_sections ∧ t.m_num_sections ≤ 32 ∧
    verify_section d t t.m_section_offset
      (t.m_num_sections * sizeof_section_entry % 2 ^ 32) = true ∧
    1 ≤ t.m_version ∧ t.m_version ≤ 3 := by
  unfold validate_header at h
  split_ifs at h with h1 h2 h3
  have h2b : verify_section d t t.m_section_offset
      (t.m_num_sections * sizeof_section_entry % 2 ^ 32) = true := by
    cases hv : verify_section d t t.m_section_offset
      (t.m_num_sections * sizeof_section_entry % 2 ^ 32)
    · rw [hv] at h2; simp at h2
    · rfl
  refine ⟨by omega, by omega, h2b, by omega, by omega⟩

theorem read_sections_loop_succ (d : Decls) (todo pos : Nat) (t : rel_track) :
    read_sections_loop d (todo + 1) pos t =
      match qlread t.m_input_file pos sizeof_section_entry with
      | none => (false, t)
      | some raw =>
        if entry_accepted d t (decode_section_entry raw) then
          read_sections_loop d todo (pos + sizeof_section_entry)
            { t with m_sections := t.m_sections ++ [decode_section_entry raw] }
        else (false, t) := by
  rw [read_sections_loop]
  cases hq : qlread t.m_input_file pos sizeof_section_entry with
  | none => rfl
  | some raw =>
    simp only [entry_accepted]
    generalize decode_section_entry raw = e
    by_cases h1 : e.file_offset = 0 ∧ e.size ≠ 0
    · by_cases h2 : e.size = t.m_bss_size
      · simp [h1, h2]
      · simp [h1, h2]
    · by_cases h3 : e.file_offset ≠ 0 ∧ e.size ≠ 0
      · by_cases hv : verify_section d t e.file_offset e.size = true
        · simp [h1, h3, hv]
        · simp [h1, h3, hv]
      · simp [h1, h3]

theorem verify_section_congr (d : Decls) (t t1 : rel_track)
    (h : t1.m_max_filesize = t.m_max_filesize) (o s : Nat) :
    verify_section d t1 o s = verify_section d t o s := by
  simp [verify_section, h]

theorem entry_accepted_congr (d : Decls) (t t1 : rel_track)
    (h : t1.m_max_filesize = t.m_max_filesize) (hb : t1.m_bss_size = t.m_bss_size)
    (e : section_entry) : entry_accepted d t1 e = entry_accepted d t e := by
  simp [entry_accepted, verify_section_congr d t t1 h, hb]

/-- The section loop changes nothing but the section list; when it succeeds, every read lay
inside the file and every appended entry passed the test of its iteration. -/
theorem read_sections_loop_inv (d : Decls) :
    ∀ (todo pos : Nat) (t : rel_track),
      (read_sections_loop d todo pos t).2 =
          { t with m_sections := (read_sections_loop d todo pos t).2.m_sections } ∧
      ((read_sections_loop d todo pos t).1 = true →
        (todo = 0 ∨ pos + sizeof_section_entry * todo ≤ t.m_input_file.length) ∧
        ∃ added, (read_sections_loop d todo pos t).2.m_sections = t.m_sections ++ added ∧
          added.length = todo ∧ ∀ e ∈ added, entry_accepted d t e = true) := by
  intro todo
  induction todo with
  | zero =>
    intro pos t
    refine ⟨rfl, fun _ => ⟨Or.inl rfl, [], ?_⟩⟩
    simp [read_sections_loop]
  | succ n ih =>
    intro pos t
    rw [read_sections_loop_succ]
    cases hq : qlread t.m_input_file pos sizeof_section_entry with
    | none => exact ⟨rfl, fun h => by simp at h⟩
    | some raw =>
      simp only []
      by_cases ha : entry_accepted d t (decode_section_entry raw) = true
      · simp only [ha, if_true]
        obtain ⟨ih1, ih2⟩ := ih (pos + sizeof_section_entry)
          { t with m_sections := t.m_sections ++ [decode_section_entry raw] }
        refine ⟨?_, fun hok => ?_⟩
        · rw [ih1]
        · obtain ⟨hb, added, hs, hl, hacc⟩ := ih2 hok
          have hpos : pos + sizeof_section_entry ≤ t.m_input_file.length := by
            unfold qlread at hq
            by_contra hc
            simp [hc] at hq
          refine ⟨Or.inr ?_, decode_section_entry raw :: added, ?_, ?_, ?_⟩
          · rcases hb with hb | hb
            · subst hb; simpa using hpos
            · simp only [sizeof_section_entry] at hb hpos ⊢
              have hfile : ({ t with m_sections :=
                  t.m_sections ++ [decode_section_entry raw] } : rel_track).m_input_file
                    = t.m_input_file := rfl
              omega
          · rw [hs]; simp
          · simp [hl]
          · intro e he
            rcases List.mem_cons.mp he with he | he
            · rw [he]; exact ha
            · rw [← entry_accepted_congr d t _ rfl rfl e]
              exact hacc e he
      · simp only [ha]
        exact ⟨rfl, fun h => by simp at h⟩

/-- A good object went through all three steps of the constructor. -/
theorem new_good (d : Decls) (file : List Nat)
    (hgood : is_good (rel_track.new d file) = true) :
    ∃ t1, read_header d (rel_track.init file) = some t1 ∧ validate_header d t1 = true ∧
      (read_sections d t1).1 = true ∧
      rel_track.new d file = { (read_sections d t1).2 with m_valid := true } := by
  cases h1 : read_header d (rel_track.init file) with
  | none =>
    have hn : rel_track.new d file = rel_track.init file := by
      unfold rel_track.new; rw [h1]
    rw [hn] at hgood
    simp [is_good, rel_track.init] at hgood
  | some t1 =>
    obtain ⟨-, hv, -⟩ := read_header_fields d file t1 h1
    by_cases hval : validate_header d t1 = true
    · obtain ⟨hinv, -⟩ := read_sections_loop_inv d t1.m_num_sections t1.m_section_offset t1
      have hinv2 : (read_sections d t1).2 =
          { t1 with m_sections := (read_sections d t1).2.m_sections } := hinv
      cases hrs : read_sections d t1 with
      | mk ok t2 =>
        rw [hrs] at hinv2
        cases ok with
        | false =>
          have hn : rel_track.new d file = t2 := by
            unfold rel_track.new; rw [h1]; simp [hval, hrs]
          rw [hn] at hgood
          simp only [] at hinv2
          rw [hinv2] at hgood
          simp [is_good, hv] at hgood
        | true =>
          refine ⟨t1, rfl, hval, by rw [hrs], ?_⟩
          unfold rel_track.new
          rw [h1]
          simp [hval, hrs]
    · have hn : rel_track.new d file = t1 := by
        unfold rel_track.new; rw [h1]; simp [hval]
      rw [hn] at hgood
      simp [is_good, hv] at hgood

/-! ## Parser: the claims -/

/-- C1. When the input holds a whole header and the header declares a section count `n`
with `n ≤ 1` or `n > 32`, or a version outside {1, 2, 3}, the constructed object is not
good, its section list is empty and its address table is empty, and `create_sections` run
on it still assigns no address. -/
theorem bad_count_or_version_rejected (d : Decls) (h : Host) (file : List Nat)
    (hlen : d.sizeof_relhdr ≤ file.length)
    (hbad : declared_num_sections d file ≤ 1 ∨ declared_num_sections d file > 32 ∨
      declared_version d file ∉ [1, 2, 3]) :
    is_good (rel_track.new d file) = false ∧
    (rel_track.new d file).m_sections = [] ∧
    (rel_track.new d file).m_segment_address_map = [] ∧
    (create_sections d h (rel_track.new d file)).2.m_segment_address_map = [] := by
  obtain ⟨t1, h1⟩ := read_header_some d file hlen
  obtain ⟨-, hvalid, hsec, hmap, -, -, hn, -, hv, -⟩ := read_header_fields d file t1 h1
  have hval : validate_header d t1 = false := by
    cases hc : validate_header d t1 with
    | false => rfl
    | true =>
      obtain ⟨a1, a2, -, a3, a4⟩ := validate_header_true d t1 hc
      rw [hn] at a1 a2
      rw [hv] at a3 a4
      rcases hbad with hb | hb | hb
      · omega
      · omega
      · simp only [List.mem_cons, List.mem_singleton, List.not_mem_nil, or_false] at hb
        omega
  have hnew : rel_track.new d file = t1 := by
    unfold rel_track.new
    rw [h1]
    simp [hval]
  rw [hnew]
  exact ⟨hvalid, hsec, hmap, create_sections_nil d h t1 hsec hmap⟩

/-- Witness of C1: a module that declares 40 sections. -/
theorem bad_count_or_version_rejected_witness :
    stdDecls.sizeof_relhdr ≤ file_bad_count.length ∧
    declared_num_sections stdDecls file_bad_count = 40 ∧
    is_good (rel_track.new stdDecls file_bad_count) = false ∧
    (rel_track.new stdDecls file_bad_count).m_sections = [] ∧
    (rel_track.new stdDecls file_bad_count).m_segment_address_map = [] ∧
    (create_sections stdDecls okHost
      (rel_track.new stdDecls file_bad_count)).2.m_segment_address_map = [] :=
  ⟨by decide, by decide,
    bad_count_or_version_rejected stdDecls okHost file_bad_count (by decide)
      (Or.inr (Or.inl (by decide)))⟩

/-- C2. When the input is shorter than the header record, `read_header` fails, the
constructed object is not good, its section list is empty and its address table is empty,
and `create_sections` run on it still assigns no address. -/
theorem short_header_rejected (d : Decls) (h : Host) (file : List Nat)
    (hshort : file.length < d.sizeof_relhdr) :
    read_header d (rel_track.init file) = none ∧
    is_good (rel_track.new d file) = false ∧
    (rel_track.new d file).m_sections = [] ∧
    (rel_track.new d file).m_segment_address_map = [] ∧
    (create_sections d h (rel_track.new d file)).2.m_segment_address_map = [] := by
  have h1 := read_header_none d file hshort
  have hnew : rel_track.new d file = rel_track.init file := by
    unfold rel_track.new
    rw [h1]
  rw [hnew]
  exact ⟨h1, rfl, rfl, rfl, create_sections_nil d h _ rfl rfl⟩

/-- Witness of C2: a 10-byte input. -/
theorem short_header_rejected_witness :
    file_short.length < stdDecls.sizeof_relhdr ∧
    read_header stdDecls (rel_track.init file_short) = none ∧
    is_good (rel_track.new stdDecls file_short) = false ∧
    (rel_track.new stdDecls file_short).m_sections = [] ∧
    (rel_track.new stdDecls file_short).m_segment_address_map = [] ∧
    (create_sections stdDecls okHost
      (rel_track.new stdDecls file_short)).2.m_segment_address_map = [] :=
  ⟨by decide, short_header_rejected stdDecls okHost file_short (by decide)⟩

/-- C3, the code at the failing input. The 92-byte module `file_wrap` has a backed section
at file offset 0x4C of size 0xFFFFFFFF, so offset plus size is far beyond the end of the
file; the 32-bit sum in `verify_section` wraps to 0x4B, the entry is accepted and the
module is good. -/
theorem wrapped_backed_section_accepted :
    file_wrap.length = 92 ∧
    decode_section_entry ((file_wrap.drop 0x4C).take 8) = ⟨0x4C, 0xFFFFFFFF⟩ ∧
    SECTION_OFF 0x4C + 0xFFFFFFFF > file_wrap.length ∧
    is_good (rel_track.new stdDecls file_wrap) = true ∧
    (rel_track.new stdDecls file_wrap).m_sections = [⟨0x4C, 0xFFFFFFFF⟩, ⟨0, 0⟩] := by
  decide

/-- C4. When parsing succeeds, the section table lies inside the file, in unbounded
arithmetic: the header size is at most the declared section-table offset, and that offset
plus 8 times the declared section count is at most the file size. The object keeps the
declared values. -/
theorem section_table_inside_file (d : Decls) (file : List Nat)
    (hgood : is_good (rel_track.new d file) = true) :
    d.sizeof_relhdr ≤ declared_section_offset d file ∧
    declared_section_offset d file + 8 * declared_num_sections d file ≤ file.length ∧
    (rel_track.new d file).m_section_offset = declared_section_offset d file ∧
    (rel_track.new d file).m_num_sections = declared_num_sections d file := by
  obtain ⟨t1, h1, hval, hok, hnew⟩ := new_good d file hgood
  obtain ⟨-, -, -, -, hfile, -, hn, ho, -, -⟩ := read_header_fields d file t1 h1
  obtain ⟨hinv, hsucc⟩ := read_sections_loop_inv d t1.m_num_sections t1.m_section_offset t1
  obtain ⟨hb, -⟩ := hsucc hok
  obtain ⟨hn2, -, hvs, -, -⟩ := validate_header_true d t1 hval
  have hrel : d.sizeof_relhdr ≤ SECTION_OFF t1.m_section_offset := by
    unfold verify_section at hvs
    simp only [Bool.and_eq_true, decide_eq_true_eq] at hvs
    exact hvs.1
  have hoff : SECTION_OFF t1.m_section_offset ≤ t1.m_section_offset := by
    unfold SECTION_OFF; omega
  have e1 : (rel_track.new d file).m_section_offset = t1.m_section_offset := by
    rw [hnew]
    show (read_sections d t1).2.m_section_offset = _
    unfold read_sections
    rw [hinv]
  have e2 : (rel_track.new d file).m_num_sections = t1.m_num_sections := by
    rw [hnew]
    show (read_sections d t1).2.m_num_sections = _
    unfold read_sections
    rw [hinv]
  rw [e1, e2, ← hn, ← ho]
  rw [hfile] at hb
  simp only [sizeof_section_entry] at hb
  refine ⟨by omega, by omega, rfl, rfl⟩

/-- Witness of C4: the good module `file_bss_plain`, whose table of 2 entries starts at
0x4C in a file of 92 bytes. -/
theorem section_table_inside_file_witness :
    is_good (rel_track.new stdDecls file_bss_plain) = true ∧
    stdDecls.sizeof_relhdr ≤ declared_section_offset stdDecls file_bss_plain ∧
    declared_section_offset stdDecls file_bss_plain
      + 8 * declared_num_sections stdDecls file_bss_plain ≤ file_bss_plain.length ∧
    (rel_track.new stdDecls file_bss_plain).m_section_offset
      = declared_section_offset stdDecls file_bss_plain ∧
    (rel_track.new stdDecls file_bss_plain).m_num_sections
      = declared_num_sections stdDecls file_bss_plain :=
  ⟨by decide, section_table_inside_file stdDecls file_bss_plain (by decide)⟩

/-- C5, the code at the failing input. In `file_bss_flagged` the header declares the
uninitialized size 0x10 and the first section entry has the offset word 1 (flag bit set,
offset 0) and size 0x10: `read_sections` takes it for a backed section, `verify_section`
refuses the stripped offset 0 and the module is not good. With the offset word 0
(`file_bss_plain`) the same entry is accepted. -/
theorem flagged_bss_entry_rejected :
    declared_bss_size stdDecls file_bss_flagged = 0x10 ∧
    decode_section_entry ((file_bss_flagged.drop 0x4C).take 8) = ⟨1, 0x10⟩ ∧
    SECTION_OFF 1 = 0 ∧
    is_good (rel_track.new stdDecls file_bss_flagged) = false ∧
    is_good (rel_track.new stdDecls file_bss_plain) = true := by
  decide

/-- C6, counterexample. The module `file_empty_backed` is good although its first section
entry has the nonzero file offset 0x4C together with size 0, so that entry is in none of
the three classes of the claim. -/
theorem empty_backed_entry_accepted :
    is_good (rel_track.new stdDecls file_empty_backed) = true ∧
    (rel_track.new stdDecls file_empty_backed).m_sections = [⟨0x4C, 0⟩, ⟨0, 0⟩] ∧
    ¬ (∀ e ∈ (rel_track.new stdDecls file_empty_backed).m_sections,
        (e.file_offset = 0 ∧ e.size ≠ 0) ∨ (e.file_offset ≠ 0 ∧ e.size ≠ 0) ∨
        (e.file_offset = 0 ∧ e.size = 0)) := by
  decide

/-- C6, amended. In a good module the section list has the declared number of entries and
every entry is in exactly one of four classes: file offset zero and size nonzero, and then
the size equals the declared uninitialized size; file offset and size nonzero, and then the
entry passed the bounds test of `verify_section`; both zero; or file offset nonzero and size
zero, which `read_sections` accepts unchecked. -/
theorem parsed_entries_checked (d : Decls) (file : List Nat)
    (hgood : is_good (rel_track.new d file) = true) :
    (rel_track.new d file).m_sections.length = declared_num_sections d file ∧
    ∀ e ∈ (rel_track.new d file).m_sections,
      (e.file_offset = 0 ∧ e.size ≠ 0 ∧ e.size = declared_bss_size d file) ∨
      (e.file_offset ≠ 0 ∧ e.size ≠ 0 ∧ d.sizeof_relhdr ≤ SECTION_OFF e.file_offset ∧
        (SECTION_OFF e.file_offset + e.size) % 2 ^ 32 ≤ file.length) ∨
      (e.file_offset = 0 ∧ e.size = 0) ∨
      (e.file_offset ≠ 0 ∧ e.size = 0) := by
  obtain ⟨t1, h1, hval, hok, hnew⟩ := new_good d file hgood
  obtain ⟨-, -, hsec, -, -, hmax, hn, -, -, hbss⟩ := read_header_fields d file t1 h1
  obtain ⟨-, hsucc⟩ := read_sections_loop_inv d t1.m_num_sections t1.m_section_offset t1
  obtain ⟨-, added, hs, hl, hacc⟩ := hsucc hok
  have hsecs : (rel_track.new d file).m_sections = added := by
    rw [hnew]
    show (read_sections d t1).2.m_sections = _
    unfold read_sections
    rw [hs, hsec]
    rfl
  rw [hsecs]
  refine ⟨by rw [hl, hn], fun e he => ?_⟩
  have ha := hacc e he
  unfold entry_accepted at ha
  by_cases c1 : e.file_offset = 0 <;> by_cases c2 : e.size = 0
  · exact Or.inr (Or.inr (Or.inl ⟨c1, c2⟩))
  · simp only [c1, c2, ne_eq, not_false_eq_true, and_self, if_true, decide_eq_true_eq] at ha
    exact Or.inl ⟨c1, c2, by rw [ha, hbss]⟩
  · exact Or.inr (Or.inr (Or.inr ⟨c1, c2⟩))
  · simp only [c1, c2, ne_eq, not_false_eq_true, and_self, if_true, false_and, if_false,
      verify_section, Bool.and_eq_true, decide_eq_true_eq] at ha
    exact Or.inr (Or.inl ⟨c1, c2, ha.1, by rw [← hmax]; exact ha.2⟩)

/-- Witness of C6 (amended): the good module `file_empty_backed`. -/
theorem parsed_entries_checked_witness :
    is_good (rel_track.new stdDecls file_empty_backed) = true ∧
    (rel_track.new stdDecls file_empty_backed).m_sections.length
      = declared_num_sections stdDecls file_empty_backed ∧
    ∀ e ∈ (rel_track.new stdDecls file_empty_backed).m_sections,
      (e.file_offset = 0 ∧ e.size ≠ 0 ∧ e.size = declared_bss_size stdDecls file_empty_backed) ∨
      (e.file_offset ≠ 0 ∧ e.size ≠ 0 ∧
        stdDecls.sizeof_relhdr ≤ SECTION_OFF e.file_offset ∧
        (SECTION_OFF e.file_offset + e.size) % 2 ^ 32 ≤ file_empty_backed.length) ∨
      (e.file_offset = 0 ∧ e.size = 0) ∨
      (e.file_offset ≠ 0 ∧ e.size = 0) :=
  ⟨by decide, parsed_entries_checked stdDecls file_empty_backed (by decide)⟩

/-! ## Address allocator -/

theorem mapped_size_nil : mapped_size [] = 0 := rfl

theorem mapped_size_cons (e : section_entry) (l : List section_entry) :
    mapped_size (e :: l) = e.size + mapped_size l := by
  unfold mapped_size
  by_cases hu : is_unused e = true
  · have hz : e.size = 0 := by
      simp only [is_unused, decide_eq_true_eq] at hu
      exact hu.2
    simp [List.filter, hu, hz]
  · simp [List.filter, hu]

theorem omap_find_assign (m : List (Nat × Nat)) (k v k2 : Nat) :
    omap_find (omap_assign m k v) k2 = if k2 = k then some v else omap_find m k2 := by
  induction m with
  | nil =>
    simp only [omap_assign, omap_find]
    by_cases h : k = k2
    · simp [h]
    · have h2 : ¬ k2 = k := fun e => h e.symm
      simp [h, h2]
  | cons p rest ih =>
    obtain ⟨k1, v1⟩ := p
    simp only [omap_assign]
    by_cases h1 : k1 = k
    · subst h1
      simp only [if_true, omap_find]
      by_cases h : k1 = k2
      · simp [h]
      · have h2 : ¬ k2 = k1 := fun e => h e.symm
        simp [h, h2]
    · simp only [h1, if_false]
      by_cases h3 : k < k1
      · simp only [h3, if_true, omap_find]
        by_cases h : k = k2
        · simp [h]
        · have h2 : ¬ k2 = k := fun e => h e.symm
          simp [h, h2]
      · simp only [h3, if_false, omap_find, ih]
        by_cases h : k1 = k2
        · have h2 : ¬ k2 = k := by rw [← h]; exact h1
          simp [h, h2]
        · simp [h]

theorem mod_add_mod32 (a b c : Nat) :
    ((a + b) % 2 ^ 32 + c) % 2 ^ 32 = (a + (b + c)) % 2 ^ 32 := by
  omega

/-- The effect of the loop of `create_sections` on the address table and on the running
address. -/
theorem create_sections_loop_spec (h : Host) :
    ∀ (rest : List section_entry) (i : Nat) (t : rel_track),
      t.m_next_seg_offset < 2 ^ 32 →
      (create_sections_loop h rest i t).1 = true →
      (create_sections_loop h rest i t).2.m_next_seg_offset
          = (t.m_next_seg_offset + mapped_size rest) % 2 ^ 32 ∧
      (∀ k, k < i ∨ i + rest.length ≤ k →
        omap_find (create_sections_loop h rest i t).2.m_segment_address_map k
          = omap_find t.m_segment_address_map k) ∧
      (∀ j e, rest[j]? = some e →
        omap_find (create_sections_loop h rest i t).2.m_segment_address_map (i + j)
          = if is_unused e then omap_find t.m_segment_address_map (i + j)
            else some ((t.m_next_seg_offset + mapped_size (rest.take j)) % 2 ^ 32)) := by
  intro rest
  induction rest with
  | nil =>
    intro i t hlt _
    refine ⟨?_, fun k _ => rfl, fun j e he => by simp at he⟩
    simp only [create_sections_loop, mapped_size_nil, Nat.add_zero]
    exact (Nat.mod_eq_of_lt hlt).symm
  | cons e rest ih =>
    intro i t hlt hok
    -- the three ways an iteration can continue all lead to the same shape
    have key : ∀ (t1 : rel_track),
        create_sections_loop h (e :: rest) i t = create_sections_loop h rest (i + 1) t1 →
        t1.m_next_seg_offset = (t.m_next_seg_offset + e.size) % 2 ^ 32 →
        (∀ k, omap_find t1.m_segment_address_map k =
          if is_unused e then omap_find t.m_segment_address_map k
          else if k = i then some t.m_next_seg_offset
          else omap_find t.m_segment_address_map k) →
        (create_sections_loop h (e :: rest) i t).2.m_next_seg_offset
            = (t.m_next_seg_offset + mapped_size (e :: rest)) % 2 ^ 32 ∧
        (∀ k, k < i ∨ i + (e :: rest).length ≤ k →
          omap_find (create_sections_loop h (e :: rest) i t).2.m_segment_address_map k
            = omap_find t.m_segment_address_map k) ∧
        (∀ j e1, (e :: rest)[j]? = some e1 →
          omap_find (create_sections_loop h (e :: rest) i t).2.m_segment_address_map (i + j)
            = if is_unused e1 then omap_find t.m_segment_address_map (i + j)
              else some ((t.m_next_seg_offset + mapped_size ((e :: rest).take j))
                % 2 ^ 32)) := by
      intro t1 heq hnext hmap
      rw [heq] at hok ⊢
      have hlt1 : t1.m_next_seg_offset < 2 ^ 32 := by
        rw [hnext]; exact Nat.mod_lt _ (by norm_num)
      obtain ⟨ih1, ih2, ih3⟩ := ih (i + 1) t1 hlt1 hok
      refine ⟨?_, ?_, ?_⟩
      · rw [ih1, hnext, mapped_size_cons, mod_add_mod32]
      · intro k hk
        rw [ih2 k (by simp only [List.length_cons] at hk; omega), hmap k]
        by_cases hu : is_unused e = true
        · simp [hu]
        · have hki : ¬ k = i := by
            simp only [List.length_cons] at hk; omega
          simp [hu, hki]
      · intro j e1 he1
        cases j with
        | zero =>
          simp only [List.getElem?_cons_zero, Option.some.injEq] at he1
          subst he1
          show omap_find (create_sections_loop h rest (i + 1) t1).2.m_segment_address_map i
            = if is_unused e = true then omap_find t.m_segment_address_map i
              else some ((t.m_next_seg_offset + mapped_size (List.take 0 (e :: rest)))
                % 2 ^ 32)
          rw [ih2 i (Or.inl (Nat.lt_succ_self i)), hmap i]
          by_cases hu : is_unused e = true
          · simp [hu]
          · simp only [hu, if_true, List.take_zero, mapped_size_nil, Nat.add_zero,
              Bool.false_eq_true, if_false]
            rw [Nat.mod_eq_of_lt hlt]
        | succ j =>
          simp only [List.getElem?_cons_succ] at he1
          have := ih3 j e1 he1
          rw [show i + (j + 1) = i + 1 + j by omega, this, hmap (i + 1 + j)]
          by_cases hu1 : is_unused e1 = true
          · simp only [hu1, if_true]
            by_cases hu : is_unused e = true
            · simp [hu]
            · have hki : ¬ i + 1 + j = i := by omega
              simp [hu, hki]
          · simp only [hu1, Bool.false_eq_true, if_false, List.take_succ_cons,
              mapped_size_cons, hnext, mod_add_mod32]
    by_cases hu : e.file_offset = 0 ∧ e.size = 0
    · refine key t ?_ ?_ ?_
      · rw [create_sections_loop]; simp only [hu, and_self, if_true]
      · rw [hu.2, Nat.add_zero, Nat.mod_eq_of_lt hlt]
      · intro k; simp [is_unused, hu]
    · have hu2 : is_unused e = false := by simp [is_unused, hu]
      by_cases hf : SECTION_OFF e.file_offset ≠ 0
      · by_cases ha : h.add_segm t.m_next_seg_offset
            ((t.m_next_seg_offset + e.size) % 2 ^ 32) = true
        · by_cases hb : h.file2base (SECTION_OFF e.file_offset) t.m_next_seg_offset
              ((t.m_next_seg_offset + e.size) % 2 ^ 32) = true
          · refine key { t with
                m_segment_address_map :=
                  omap_assign t.m_segment_address_map i t.m_next_seg_offset
                m_next_seg_offset := (t.m_next_seg_offset + e.size) % 2 ^ 32 } ?_ rfl ?_
            · rw [create_sections_loop]; simp [hu, hf, ha, hb, -Nat.reducePow]
            · intro k; simp [hu2, omap_find_assign]
          · rw [create_sections_loop] at hok; simp [hu, hf, ha, hb, -Nat.reducePow] at hok
        · rw [create_sections_loop] at hok; simp [hu, hf, ha, -Nat.reducePow] at hok
      · by_cases ha : h.add_segm t.m_next_seg_offset
            ((t.m_next_seg_offset + e.size) % 2 ^ 32) = true
        · refine key { t with
              m_segment_address_map :=
                omap_assign t.m_segment_address_map i t.m_next_seg_offset
              m_internal_bss_section := i
              m_next_seg_offset := (t.m_next_seg_offset + e.size) % 2 ^ 32 } ?_ rfl ?_
          · rw [create_sections_loop]; simp [hu, hf, ha, -Nat.reducePow]
          · intro k; simp [hu2, omap_find_assign]
        · rw [create_sections_loop] at hok; simp [hu, hf, ha, -Nat.reducePow] at hok


theorem mapped_size_append (a b : List section_entry) :
    mapped_size (a ++ b) = mapped_size a + mapped_size b := by
  simp [mapped_size, List.filter_append, List.map_append, List.sum_append]

theorem mapped_size_take_le (l : List section_entry) (i j : Nat) (hij : i ≤ j) :
    mapped_size (l.take i) ≤ mapped_size (l.take j) := by
  have h1 : l.take j = l.take i ++ (l.take j).drop i := by
    have := List.take_append_drop i (l.take j)
    rw [List.take_take, Nat.min_eq_left hij] at this
    exact this.symm
  rw [h1, mapped_size_append]
  exact Nat.le_add_right _ _

theorem mapped_size_take_le_all (l : List section_entry) (i : Nat) :
    mapped_size (l.take i) ≤ mapped_size l := by
  have h1 : l = l.take i ++ l.drop i := (List.take_append_drop i l).symm
  conv_rhs => rw [h1]
  rw [mapped_size_append]
  exact Nat.le_add_right _ _

/-- Between two mapped sections with only unused ones in between, the sizes add up to the
size of the first. -/
theorem mapped_size_take_adjacent (l : List section_entry) (i j : Nat) (ei : section_entry)
    (hij : i < j) (hi : l[i]? = some ei)
    (hgap : ∀ k ek, i < k → k < j → l[k]? = some ek → is_unused ek = true) :
    mapped_size (l.take j) = mapped_size (l.take i) + ei.size := by
  induction j with
  | zero => omega
  | succ j ih =>
    by_cases hj : i = j
    · subst hj
      rw [List.take_succ, hi, mapped_size_append]
      simp [Option.toList, mapped_size_cons, mapped_size_nil]
    · have hlt : i < j := by omega
      have ihj := ih hlt (fun k ek h1 h2 h3 => hgap k ek h1 (by omega) h3)
      rw [List.take_succ, mapped_size_append, ihj]
      cases hjv : l[j]? with
      | none => simp [Option.toList, mapped_size_nil]
      | some ej =>
        have hu := hgap j ej hlt (Nat.lt_succ_self j) hjv
        have hz : ej.size = 0 := by
          simp only [is_unused, decide_eq_true_eq] at hu
          exact hu.2
        simp [Option.toList, mapped_size_cons, mapped_size_nil, hz]

theorem create_sections_table (d : Decls) (h : Host) (t : rel_track)
    (hmap : t.m_segment_address_map = [])
    (hok : (create_sections d h t).1 = true) :
    (∀ i, t.m_sections.length ≤ i →
      omap_find (create_sections d h t).2.m_segment_address_map i = none) ∧
    (∀ i e, t.m_sections[i]? = some e →
      omap_find (create_sections d h t).2.m_segment_address_map i
        = if is_unused e then none
          else some ((d.START + mapped_size (t.m_sections.take i)) % 2 ^ 32)) := by
  unfold create_sections at hok ⊢
  have hlt : ({ t with m_next_seg_offset := d.START % 2 ^ 32 } : rel_track).m_next_seg_offset
      < 2 ^ 32 := Nat.mod_lt _ (by norm_num)
  obtain ⟨-, h2, h3⟩ := create_sections_loop_spec h t.m_sections 0 _ hlt hok
  refine ⟨fun i hi => ?_, fun i e he => ?_⟩
  · rw [h2 i (Or.inr (by omega))]
    simp [hmap, omap_find]
  · have := h3 i e he
    rw [Nat.zero_add] at this
    rw [this]
    simp only [hmap, omap_find]
    by_cases hu : is_unused e = true
    · simp [hu]
    · simp only [hu, Bool.false_eq_true, if_false, Option.some.injEq]
      omega


/-- The address table after a successful `create_sections`, in the 32-bit arithmetic of
the model. On an object whose address table was empty, section `i` has an entry iff entry
`i` is not unused; its base is `START` plus the sizes of the non-unused sections of smaller
index, reduced modulo 2^32; the next mapped section starts at the previous base plus the
previous size, modulo 2^32; and when `START` plus the total size stays below 2^32 the bases
are the exact sums and are non-decreasing in the section index. -/
theorem create_sections_bases_mod (d : Decls) (h : Host) (t : rel_track)
    (hmap : t.m_segment_address_map = [])
    (hok : (create_sections d h t).1 = true) :
    (∀ i, (∃ b, omap_find (create_sections d h t).2.m_segment_address_map i = some b) ↔
      ∃ e, t.m_sections[i]? = some e ∧ is_unused e = false) ∧
    (∀ i e, t.m_sections[i]? = some e → is_unused e = false →
      omap_find (create_sections d h t).2.m_segment_address_map i
        = some ((d.START + mapped_size (t.m_sections.take i)) % 2 ^ 32)) ∧
    (∀ i j ei ej bi, i < j → t.m_sections[i]? = some ei → is_unused ei = false →
      t.m_sections[j]? = some ej → is_unused ej = false →
      (∀ k ek, i < k → k < j → t.m_sections[k]? = some ek → is_unused ek = true) →
      omap_find (create_sections d h t).2.m_segment_address_map i = some bi →
      omap_find (create_sections d h t).2.m_segment_address_map j
        = some ((bi + ei.size) % 2 ^ 32)) ∧
    (d.START + mapped_size t.m_sections < 2 ^ 32 →
      (∀ i e, t.m_sections[i]? = some e → is_unused e = false →
        omap_find (create_sections d h t).2.m_segment_address_map i
          = some (d.START + mapped_size (t.m_sections.take i))) ∧
      (∀ i j bi bj, i ≤ j →
        omap_find (create_sections d h t).2.m_segment_address_map i = some bi →
        omap_find (create_sections d h t).2.m_segment_address_map j = some bj →
        bi ≤ bj)) := by
  obtain ⟨hout, hin⟩ := create_sections_table d h t hmap hok
  have hB : ∀ i e, t.m_sections[i]? = some e → is_unused e = false →
      omap_find (create_sections d h t).2.m_segment_address_map i
        = some ((d.START + mapped_size (t.m_sections.take i)) % 2 ^ 32) := by
    intro i e he hu
    rw [hin i e he]
    simp [hu]
  have hA : ∀ i b, omap_find (create_sections d h t).2.m_segment_address_map i = some b →
      ∃ e, t.m_sections[i]? = some e ∧ is_unused e = false := by
    intro i b hb
    cases he : t.m_sections[i]? with
    | none =>
      rw [hout i (by simpa using he)] at hb
      simp at hb
    | some e =>
      refine ⟨e, rfl, ?_⟩
      rw [hin i e he] at hb
      cases hu : is_unused e with
      | false => rfl
      | true => rw [hu] at hb; simp at hb
  refine ⟨fun i => ⟨fun ⟨b, hb⟩ => hA i b hb, fun ⟨e, he, hu⟩ => ⟨_, hB i e he hu⟩⟩, hB,
    ?_, ?_⟩
  · intro i j ei ej bi hij hi hui hj huj hgap hbi
    rw [hB i ei hi hui, Option.some.injEq] at hbi
    rw [hB j ej hj huj, ← hbi, mapped_size_take_adjacent t.m_sections i j ei hij hi hgap]
    congr 1
    omega
  · intro hfit
    have hex : ∀ i e, t.m_sections[i]? = some e → is_unused e = false →
        omap_find (create_sections d h t).2.m_segment_address_map i
          = some (d.START + mapped_size (t.m_sections.take i)) := by
      intro i e he hu
      rw [hB i e he hu]
      have := mapped_size_take_le_all t.m_sections i
      rw [Nat.mod_eq_of_lt (by omega)]
    refine ⟨hex, ?_⟩
    intro i j bi bj hij hbi hbj
    obtain ⟨ei, hi, hui⟩ := hA i bi hbi
    obtain ⟨ej, hj, huj⟩ := hA j bj hbj
    rw [hex i ei hi hui, Option.some.injEq] at hbi
    rw [hex j ej hj huj, Option.some.injEq] at hbj
    have := mapped_size_take_le t.m_sections i j hij
    omega

/-! ## Relocation engine: auxiliary lemmas -/

theorem self_chain_eq_ops (d : Decls) (h : Host) (t : rel_track) :
    ∀ (n : Nat) (bytes : List Nat), bytes.length ≤ n → ∀ (cs co : Nat) (ev : List Event),
      self_chain d h t bytes cs co ev
        = ((read_chain d bytes).1, (self_ops d h t (read_chain d bytes).2 cs co ev).2.2) := by
  intro n
  induction n using Nat.strong_induction_on with
  | _ n ih =>
    intro bytes hn cs co ev
    match bytes, hn with
    | b0 :: b1 :: b2 :: b3 :: b4 :: b5 :: b6 :: b7 :: rest, hn =>
      rw [self_chain, read_chain]
      by_cases he : (decode_rel_entry [b0, b1, b2, b3, b4, b5, b6, b7]).type = d.R_DOLPHIN_END
      · simp [he, self_ops]
      · simp only [he, if_false]
        rw [self_ops]
        rw [ih rest.length (by simp only [List.length_cons] at hn; omega) rest (Nat.le_refl _)]
    | [], _ => simp [self_chain, read_chain, self_ops]
    | [_], _ => simp [self_chain, read_chain, self_ops]
    | [_, _], _ => simp [self_chain, read_chain, self_ops]
    | [_, _, _], _ => simp [self_chain, read_chain, self_ops]
    | [_, _, _, _], _ => simp [self_chain, read_chain, self_ops]
    | [_, _, _, _, _], _ => simp [self_chain, read_chain, self_ops]
    | [_, _, _, _, _, _], _ => simp [self_chain, read_chain, self_ops]
    | [_, _, _, _, _, _, _], _ => simp [self_chain, read_chain, self_ops]

theorem self_ops_append (d : Decls) (h : Host) (t : rel_track) :
    ∀ (a b : List rel_entry) (cs co : Nat) (ev : List Event),
      self_ops d h t (a ++ b) cs co ev
        = self_ops d h t b (self_ops d h t a cs co ev).1 (self_ops d h t a cs co ev).2.1
            (self_ops d h t a cs co ev).2.2 := by
  intro a
  induction a with
  | nil => intro b cs co ev; rfl
  | cons x a ih =>
    intro b cs co ev
    simp only [List.cons_append, self_ops]
    exact ih b _ _ _

/-- The cursor of the self loop does not depend on the events: section and offset after
one opcode. -/
theorem self_reloc_cursor (d : Decls) (h : Host) (t : rel_track) (rel : rel_entry)
    (cs co : Nat) (ev : List Event) :
    (self_reloc d h t rel cs co ev).1
        = (if rel.type = d.R_DOLPHIN_SECTION then rel.sect else cs) ∧
    (self_reloc d h t rel cs co ev).2.1
        = (if rel.type = d.R_DOLPHIN_SECTION then 0 else (co + rel.offset) % 2 ^ 32) := by
  unfold self_reloc
  simp only []
  split_ifs <;> exact ⟨rfl, rfl⟩

theorem spec_cursor_snoc (d : Decls) (ops : List rel_entry) (x : rel_entry) :
    spec_section d (ops ++ [x])
        = (if x.type = d.R_DOLPHIN_SECTION then x.sect else spec_section d ops) ∧
    spec_offset d (ops ++ [x])
        = (if x.type = d.R_DOLPHIN_SECTION then 0
           else (spec_offset d ops + x.offset) % 2 ^ 32) := by
  unfold spec_section spec_offset since_marker
  rw [List.reverse_append, List.reverse_singleton, List.singleton_append]
  by_cases hx : x.type = d.R_DOLPHIN_SECTION
  · simp [List.find?, List.takeWhile, hx]
  · simp only [List.find?, List.takeWhile, hx, decide_False, decide_True, ne_eq,
      not_false_eq_true, if_false, List.reverse_cons, List.map_append, List.sum_append,
      List.map_cons, List.map_nil, List.sum_cons, List.sum_nil, Nat.add_zero, true_and]
    omega

/-- The cursor of the self loop after a list of opcodes is the cursor of the spec. -/
theorem self_ops_cursor (d : Decls) (h : Host) (t : rel_track) (ops : List rel_entry)
    (ev : List Event) :
    (self_ops d h t ops 0 0 ev).1 = spec_section d ops ∧
    (self_ops d h t ops 0 0 ev).2.1 = spec_offset d ops := by
  induction ops using List.reverseRecOn with
  | nil => exact ⟨rfl, rfl⟩
  | append_singleton ops x ih =>
    rw [self_ops_append]
    simp only [self_ops]
    obtain ⟨c1, c2⟩ := self_reloc_cursor d h t x (self_ops d h t ops 0 0 ev).1
      (self_ops d h t ops 0 0 ev).2.1 (self_ops d h t ops 0 0 ev).2.2
    obtain ⟨s1, s2⟩ := spec_cursor_snoc d ops x
    rw [c1, c2, s1, s2, ih.1, ih.2]
    exact ⟨rfl, rfl⟩


theorem kinds_ne (d : Decls) (hd : d.kinds_distinct) :
    d.R_PPC_ADDR32 ≠ d.R_DOLPHIN_END ∧ d.R_PPC_ADDR32 ≠ d.R_DOLPHIN_SECTION ∧
    d.R_PPC_ADDR32 ≠ d.R_DOLPHIN_NOP ∧
    d.R_PPC_REL24 ≠ d.R_DOLPHIN_END ∧ d.R_PPC_REL24 ≠ d.R_DOLPHIN_SECTION ∧
    d.R_PPC_REL24 ≠ d.R_DOLPHIN_NOP ∧ d.R_PPC_REL24 ≠ d.R_PPC_ADDR32 ∧
    d.R_PPC_REL24 ≠ d.R_PPC_ADDR16_LO ∧ d.R_PPC_REL24 ≠ d.R_PPC_ADDR16_HA ∧
    d.R_DOLPHIN_SECTION ≠ d.R_DOLPHIN_END := by
  unfold Decls.kinds_distinct at hd
  simp only [List.nodup_cons, List.mem_cons, List.mem_singleton, List.not_mem_nil,
    not_or, List.nodup_nil, and_true, or_false] at hd
  obtain ⟨⟨a1, a2, a3, a4, a5, a6⟩, ⟨b1, b2, b3, b4, b5⟩, ⟨c1, c2, c3, c4⟩,
    ⟨e1, e2, e3⟩, ⟨f1, f2⟩, g1⟩ := hd
  refine ⟨?_, ?_, ?_, ?_, ?_, ?_, ?_, ?_, ?_, ?_⟩ <;> intro hx <;> simp_all

theorem self_reloc_addr32 (d : Decls) (hd : d.kinds_distinct) (h : Host) (t : rel_track)
    (rel : rel_entry) (cs co : Nat) (ev : List Event) (hty : rel.type = d.R_PPC_ADDR32) :
    self_reloc d h t rel cs co ev
      = (cs, (co + rel.offset) % 2 ^ 32,
          ev ++ [Event.patch_dword (section_address t cs ((co + rel.offset) % 2 ^ 32))
            (section_address t rel.sect rel.addend)]) := by
  obtain ⟨-, n2, n3, -⟩ := kinds_ne d hd
  unfold self_reloc
  simp only [hty, n2, n3, if_false, if_true]

theorem section_address_some (t : rel_track) (s o b : Nat)
    (hb : omap_find t.m_segment_address_map (s % 256) = some b) :
    section_address t s o = (b + o) % 2 ^ 32 := by
  simp only [section_address, hb]

theorem rel24_masks_disjoint (i : Nat) :
    ((0xFC000003 : Nat).testBit i && (0x03FFFFFC : Nat).testBit i) = false := by
  rw [← Nat.testBit_and]
  have : (0xFC000003 : Nat) &&& 0x03FFFFFC = 0 := by decide
  rw [this, Nat.zero_testBit]

theorem rel24_keep_opcode (a b : Nat) :
    ((a &&& 0xFC000003) ||| (b &&& 0x03FFFFFC)) &&& 0xFC000003 = a &&& 0xFC000003 := by
  apply Nat.eq_of_testBit_eq
  intro i
  have hm := rel24_masks_disjoint i
  simp only [Nat.testBit_and, Nat.testBit_or]
  cases h1 : (0xFC000003 : Nat).testBit i <;> cases h2 : (0x03FFFFFC : Nat).testBit i <;>
    simp_all

theorem rel24_take_displacement (a b : Nat) :
    ((a &&& 0xFC000003) ||| (b &&& 0x03FFFFFC)) &&& 0x03FFFFFC = b &&& 0x03FFFFFC := by
  apply Nat.eq_of_testBit_eq
  intro i
  have hm := rel24_masks_disjoint i
  simp only [Nat.testBit_and, Nat.testBit_or]
  cases h1 : (0xFC000003 : Nat).testBit i <;> cases h2 : (0x03FFFFFC : Nat).testBit i <;>
    simp_all

theorem and_mask_mod32 (w m : Nat) (hm : m < 2 ^ 32) : (w % 2 ^ 32) &&& m = w &&& m := by
  apply Nat.eq_of_testBit_eq
  intro i
  simp only [Nat.testBit_and, Nat.testBit_mod_two_pow]
  by_cases hi : i < 32
  · simp [hi]
  · have : m.testBit i = false := by
      apply Nat.testBit_eq_false_of_lt
      calc m < 2 ^ 32 := hm
        _ ≤ 2 ^ i := Nat.pow_le_pow_right (by norm_num) (by omega)
    simp [hi, this]

theorem section_address_lt (t : rel_track) (s o : Nat) : section_address t s o < 2 ^ 32 := by
  unfold section_address
  cases omap_find t.m_segment_address_map (s % 256) with
  | none => simp [BADADDR]
  | some b => exact Nat.mod_lt _ (by norm_num)

theorem sub_mod32 (a b : Nat) (hb : b < 2 ^ 32) :
    (a + 2 ^ 32 - b) % 2 ^ 32 = (((a : Int) - (b : Int)) % (2 ^ 32 : Int)).toNat := by
  omega

/-- The directory scan changes only the two tables of sibling modules. -/
theorem init_resolvers_frame (d : Decls) (h : Host) (t : rel_track) :
    init_resolvers d h t = { t with
      m_module_names := (init_resolvers d h t).m_module_names
      m_external_modules := (init_resolvers d h t).m_external_modules } := by
  unfold init_resolvers
  have key : ∀ (l : List (String × List Nat)) (t0 : rel_track),
      l.foldl (enum_modules_cb d) t0 = { t0 with
        m_module_names := (l.foldl (enum_modules_cb d) t0).m_module_names
        m_external_modules := (l.foldl (enum_modules_cb d) t0).m_external_modules } := by
    intro l
    induction l with
    | nil => intro t0; rfl
    | cons f l ih =>
      intro t0
      simp only [List.foldl_cons]
      rw [ih (enum_modules_cb d t0 f)]
      unfold enum_modules_cb
      by_cases hg : is_good (rel_track.new d f.2) = true
      · simp [hg]
      · simp [hg]
  have := key h.rel_files { t with m_module_names := [] }
  rw [this]

theorem self_reloc_marker (d : Decls) (h : Host) (t : rel_track)
    (rel : rel_entry) (cs co : Nat) (ev : List Event) (hty : rel.type = d.R_DOLPHIN_SECTION) :
    self_reloc d h t rel cs co ev = (rel.sect, 0, ev) := by
  unfold self_reloc
  simp only [hty, if_true]

theorem section_address_congr (t t2 : rel_track)
    (hm : t2.m_segment_address_map = t.m_segment_address_map) (s o : Nat) :
    section_address t2 s o = section_address t s o := by
  simp only [section_address, hm]

theorem self_reloc_congr (d : Decls) (h : Host) (t t2 : rel_track)
    (hm : t2.m_segment_address_map = t.m_segment_address_map) (rel : rel_entry)
    (cs co : Nat) (ev : List Event) :
    self_reloc d h t2 rel cs co ev = self_reloc d h t rel cs co ev := by
  simp only [self_reloc, section_address_congr t t2 hm]

theorem self_ops_congr (d : Decls) (h : Host) (t t2 : rel_track)
    (hm : t2.m_segment_address_map = t.m_segment_address_map) :
    ∀ (ops : List rel_entry) (cs co : Nat) (ev : List Event),
      self_ops d h t2 ops cs co ev = self_ops d h t ops cs co ev := by
  intro ops
  induction ops with
  | nil => intro cs co ev; rfl
  | cons r ops ih =>
    intro cs co ev
    simp only [self_ops, self_reloc_congr d h t t2 hm]
    exact ih _ _ _

/-- The relocation engine on a module whose import table holds one descriptor, that of the
module itself: it succeeds, adds the import region to the address table and makes the
writes of the self chain. -/
theorem apply_relocations_one_self (d : Decls) (h : Host) (t : rel_track)
    (chain_off : Nat) (ops : List rel_entry)
    (hseg : ∀ a b, h.add_segm a b = true)
    (hlog : t.m_imports = [])
    (himp : 0 < t.m_import_offset) (hcount : t.m_import_size / sizeof_import_entry = 1)
    (hentry : (qlread t.m_input_file t.m_import_offset sizeof_import_entry).map
      decode_import_entry = some ⟨t.m_id, chain_off⟩)
    (hchain : read_chain d (t.m_input_file.drop chain_off) = (true, ops)) :
    (apply_relocations d h t).1 = true ∧
    (apply_relocations d h t).2.1.m_segment_address_map
      = omap_assign t.m_segment_address_map d.SECTION_IMPORTS t.m_next_seg_offset ∧
    (apply_relocations d h t).2.2 = (self_ops d h t ops 0 0 []).2.2 := by
  obtain ⟨raw, hraw, hdec⟩ : ∃ raw, qlread t.m_input_file t.m_import_offset
      sizeof_import_entry = some raw ∧ decode_import_entry raw = ⟨t.m_id, chain_off⟩ := by
    cases hq : qlread t.m_input_file t.m_import_offset sizeof_import_entry with
    | none => rw [hq] at hentry; simp at hentry
    | some raw => rw [hq] at hentry; exact ⟨raw, rfl, by simpa using hentry⟩
  have f1 : (init_resolvers d h t).m_import_offset = t.m_import_offset := by
    rw [init_resolvers_frame]
  have f2 : (init_resolvers d h t).m_import_size = t.m_import_size := by
    rw [init_resolvers_frame]
  have f3 : (init_resolvers d h t).m_input_file = t.m_input_file := by
    rw [init_resolvers_frame]
  have f4 : (init_resolvers d h t).m_id = t.m_id := by
    rw [init_resolvers_frame]
  have f5 : (init_resolvers d h t).m_imports = t.m_imports := by
    rw [init_resolvers_frame]
  have f6 : (init_resolvers d h t).m_segment_address_map = t.m_segment_address_map := by
    rw [init_resolvers_frame]
  have f7 : (init_resolvers d h t).m_next_seg_offset = t.m_next_seg_offset := by
    rw [init_resolvers_frame]
  have hloop : import_loop d h 1 0 (init_resolvers d h t) ⟨0, [], []⟩ []
      = (true, init_resolvers d h t, ⟨0, [], []⟩, (self_ops d h t ops 0 0 []).2.2) := by
    simp only [import_loop, Nat.zero_mul, Nat.add_zero, f1, f3, f4, hraw, hdec, if_true,
      self_chain_eq_ops d h _ _ _ (Nat.le_refl _), hchain,
      self_ops_congr d h t _ f6]
  unfold apply_relocations
  simp only [f1, f2, himp, if_true, hcount, hloop, hseg, Bool.not_true, Bool.false_eq_true,
    if_false, f5, f6, f7, hlog, ext_pass2]
  exact ⟨trivial, trivial, trivial⟩

set_option maxRecDepth 100000

/-! ## Relocation engine: the claims -/

/-- C8. End-to-end self-relocation scenario. For a freshly parsed module with the three
sections (code at file offset 0x100, size 0x40; data at 0x140, size 0x20; uninitialized,
size 0x10) whose import table holds the one descriptor of the module itself and whose self
chain is section-marker(section 0), 32-bit-absolute(delta 0, target section 1, addend 0),
end, on a host whose segment and load services succeed and with `START + 0x70` below 2^32:
`apply_patches` succeeds, the bases of sections 0, 1, 2 are `START`, `START + 0x40`,
`START + 0x60`, and the only image write is the 32-bit word `START + 0x40` at `START`. -/
theorem scenario_self_relocation (d : Decls) (hd : d.kinds_distinct) (h : Host) (t : rel_track)
    (chain_off x y : Nat)
    (hS : d.START + 0x70 < 2 ^ 32) (hsi : 3 ≤ d.SECTION_IMPORTS)
    (hseg : ∀ a b, h.add_segm a b = true) (hf2b : ∀ p a b, h.file2base p a b = true)
    (hsec : t.m_sections = [⟨0x101, 0x40⟩, ⟨0x140, 0x20⟩, ⟨0, 0x10⟩])
    (hmap : t.m_segment_address_map = []) (hlog : t.m_imports = [])
    (himp : 0 < t.m_import_offset) (hcount : t.m_import_size / sizeof_import_entry = 1)
    (hentry : (qlread t.m_input_file t.m_import_offset sizeof_import_entry).map
      decode_import_entry = some ⟨t.m_id, chain_off⟩)
    (hchain : read_chain d (t.m_input_file.drop chain_off)
      = (true, [⟨d.R_DOLPHIN_SECTION, 0, x, y⟩, ⟨d.R_PPC_ADDR32, 1, 0, 0⟩])) :
    (apply_patches d h t).1 = true ∧
    omap_find (apply_patches d h t).2.1.m_segment_address_map 0 = some d.START ∧
    omap_find (apply_patches d h t).2.1.m_segment_address_map 1 = some (d.START + 0x40) ∧
    omap_find (apply_patches d h t).2.1.m_segment_address_map 2 = some (d.START + 0x60) ∧
    (apply_patches d h t).2.2 = [Event.patch_dword d.START (d.START + 0x40)] := by
  have e0 : d.START % 2 ^ 32 = d.START := Nat.mod_eq_of_lt (by omega)
  have e1 : (d.START + 0x40) % 2 ^ 32 = d.START + 0x40 := Nat.mod_eq_of_lt (by omega)
  have e2 : (d.START + 0x40 + 0x20) % 2 ^ 32 = d.START + 0x60 := by
    rw [Nat.mod_eq_of_lt (by omega)]
  have e3 : (d.START + 0x60 + 0x10) % 2 ^ 32 = d.START + 0x70 := by
    rw [Nat.mod_eq_of_lt (by omega)]
  -- the address allocator
  have hcs : create_sections d h t = (true, { t with
      m_segment_address_map := [(0, d.START), (1, d.START + 0x40), (2, d.START + 0x60)]
      m_next_seg_offset := d.START + 0x70
      m_internal_bss_section := 2 }) := by
    unfold create_sections
    rw [hsec]
    simp only [create_sections_loop, hseg, hf2b, hmap, e0, e1, e2, e3]
    simp [SECTION_OFF, omap_assign, e1, e2, e3]
  have n1 := (kinds_ne d hd).2.2.2.2.2.2.2.2.2
  obtain ⟨r1, r2, r3⟩ := apply_relocations_one_self d h { t with
      m_segment_address_map := [(0, d.START), (1, d.START + 0x40), (2, d.START + 0x60)]
      m_next_seg_offset := d.START + 0x70
      m_internal_bss_section := 2 } chain_off _ hseg hlog himp hcount hentry hchain
  have hev : (self_ops d h { t with
      m_segment_address_map := [(0, d.START), (1, d.START + 0x40), (2, d.START + 0x60)]
      m_next_seg_offset := d.START + 0x70
      m_internal_bss_section := 2 }
      [⟨d.R_DOLPHIN_SECTION, 0, x, y⟩, ⟨d.R_PPC_ADDR32, 1, 0, 0⟩] 0 0 []).2.2
        = [Event.patch_dword d.START (d.START + 0x40)] := by
    simp only [self_ops, self_reloc_marker d h _ ⟨d.R_DOLPHIN_SECTION, 0, x, y⟩ _ _ _ rfl,
      self_reloc_addr32 d hd h _ ⟨d.R_PPC_ADDR32, 1, 0, 0⟩ _ _ _ rfl]
    simp [section_address, omap_find, e0, e1]
    omega
  have hap : apply_patches d h t = (true, (apply_relocations d h { t with
      m_segment_address_map := [(0, d.START), (1, d.START + 0x40), (2, d.START + 0x60)]
      m_next_seg_offset := d.START + 0x70
      m_internal_bss_section := 2 }).2) := by
    unfold apply_patches
    rw [hcs]
    simp only []
    generalize apply_relocations d h _ = r at r1 ⊢
    obtain ⟨ok, t2, ev⟩ := r
    simp only at r1
    subst r1
    rfl
  rw [hap]
  simp only []
  rw [r2, r3, hev]
  have h0 : ¬ (0 = d.SECTION_IMPORTS) := by omega
  have h1 : ¬ (1 = d.SECTION_IMPORTS) := by omega
  have h2 : ¬ (2 = d.SECTION_IMPORTS) := by omega
  refine ⟨trivial, ?_, ?_, ?_, rfl⟩
  · rw [omap_find_assign]; simp [omap_find, h0]
  · rw [omap_find_assign]; simp [omap_find, h1]
  · rw [omap_find_assign]; simp [omap_find, h2]

/-- Witness of C8: the module `file_scenario` with the declarations `stdDecls` on the host
`okHost`. -/
theorem scenario_self_relocation_witness :
    (apply_patches stdDecls okHost (rel_track.new stdDecls file_scenario)).1 = true ∧
    omap_find (apply_patches stdDecls okHost
      (rel_track.new stdDecls file_scenario)).2.1.m_segment_address_map 0
        = some stdDecls.START ∧
    omap_find (apply_patches stdDecls okHost
      (rel_track.new stdDecls file_scenario)).2.1.m_segment_address_map 1
        = some (stdDecls.START + 0x40) ∧
    omap_find (apply_patches stdDecls okHost
      (rel_track.new stdDecls file_scenario)).2.1.m_segment_address_map 2
        = some (stdDecls.START + 0x60) ∧
    (apply_patches stdDecls okHost (rel_track.new stdDecls file_scenario)).2.2
      = [Event.patch_dword stdDecls.START (stdDecls.START + 0x40)] :=
  scenario_self_relocation stdDecls (by decide) okHost (rel_track.new stdDecls file_scenario)
    0x168 0 0 (by decide) (by decide) (fun _ _ => rfl) (fun _ _ _ => rfl) (by decide)
    (by decide) (by decide) (by decide) (by decide) (by decide) (by decide)

/-- The self-chain cursor and the write of a 32-bit absolute opcode, in the 32-bit arithmetic
of the model. After the opcodes `pre` the current section is the target of the last
section-marker (0 when there is none) and the current offset is the sum of the deltas since
that marker modulo 2^32. A 32-bit absolute opcode `r` that follows, with its current and
target section in the address table at bases `bc` and `bt`, adds its delta to the offset and
makes exactly one write: the value `(bt + addend) mod 2^32` at the address
`(bc + offset) mod 2^32`, without moving the cursor, and the loop goes on with the opcodes
after `r`. -/
theorem self_chain_addr32_mod (d : Decls) (hd : d.kinds_distinct) (h : Host) (t : rel_track)
    (bytes : List Nat) (ok : Bool) (pre post : List rel_entry) (r : rel_entry)
    (ev0 : List Event) (bc bt : Nat)
    (hchain : read_chain d bytes = (ok, pre ++ r :: post))
    (hty : r.type = d.R_PPC_ADDR32)
    (hbc : omap_find t.m_segment_address_map (spec_section d pre % 256) = some bc)
    (hbt : omap_find t.m_segment_address_map (r.sect % 256) = some bt) :
    spec_section d [] = 0 ∧ spec_offset d [] = 0 ∧
    (self_ops d h t pre 0 0 ev0).1 = spec_section d pre ∧
    (self_ops d h t pre 0 0 ev0).2.1 = spec_offset d pre ∧
    self_ops d h t (pre ++ [r]) 0 0 ev0
      = (spec_section d pre, (spec_offset d pre + r.offset) % 2 ^ 32,
          (self_ops d h t pre 0 0 ev0).2.2 ++
            [Event.patch_dword ((bc + (spec_offset d pre + r.offset) % 2 ^ 32) % 2 ^ 32)
              ((bt + r.addend) % 2 ^ 32)]) ∧
    self_chain d h t bytes 0 0 ev0
      = (ok, (self_ops d h t post (spec_section d pre)
          ((spec_offset d pre + r.offset) % 2 ^ 32)
          ((self_ops d h t pre 0 0 ev0).2.2 ++
            [Event.patch_dword ((bc + (spec_offset d pre + r.offset) % 2 ^ 32) % 2 ^ 32)
              ((bt + r.addend) % 2 ^ 32)])).2.2) := by
  obtain ⟨c1, c2⟩ := self_ops_cursor d h t pre ev0
  have hstep : self_ops d h t (pre ++ [r]) 0 0 ev0
      = (spec_section d pre, (spec_offset d pre + r.offset) % 2 ^ 32,
          (self_ops d h t pre 0 0 ev0).2.2 ++
            [Event.patch_dword ((bc + (spec_offset d pre + r.offset) % 2 ^ 32) % 2 ^ 32)
              ((bt + r.addend) % 2 ^ 32)]) := by
    rw [self_ops_append]
    simp only [self_ops]
    rw [self_reloc_addr32 d hd h t r _ _ _ hty, c1, c2,
      section_address_some t _ _ bc hbc, section_address_some t _ _ bt hbt]
  refine ⟨rfl, rfl, c1, c2, hstep, ?_⟩
  rw [self_chain_eq_ops d h t bytes.length bytes (Nat.le_refl _), hchain]
  simp only []
  rw [show pre ++ r :: post = (pre ++ [r]) ++ post by simp, self_ops_append, hstep]

/-- C10. A 24-bit relative-branch opcode of a self chain, with source address `S` (the
address of the current section and offset), target address `T` (the address of the target
section and addend) and original word `W` at `S`, makes exactly one write, of a word `W2`
at `S`, with `W2 & 0xFC000003 = W & 0xFC000003` and
`W2 & 0x03FFFFFC = ((T - S) mod 2^32) & 0x03FFFFFC`. -/
theorem self_rel24_patch (d : Decls) (hd : d.kinds_distinct) (h : Host) (t : rel_track)
    (rel : rel_entry) (cs co : Nat) (ev : List Event) (hty : rel.type = d.R_PPC_REL24) :
    ∃ W2, self_reloc d h t rel cs co ev
        = (cs, (co + rel.offset) % 2 ^ 32,
            ev ++ [Event.patch_dword (section_address t cs ((co + rel.offset) % 2 ^ 32)) W2]) ∧
      W2 &&& 0xFC000003
        = h.get_original_dword (section_address t cs ((co + rel.offset) % 2 ^ 32))
            &&& 0xFC000003 ∧
      W2 &&& 0x03FFFFFC
        = (((section_address t rel.sect rel.addend : Int)
            - (section_address t cs ((co + rel.offset) % 2 ^ 32) : Int))
              % (2 ^ 32 : Int)).toNat &&& 0x03FFFFFC := by
  obtain ⟨-, -, -, -, n2, n3, n4, n5, n6, -⟩ := kinds_ne d hd
  refine ⟨((h.get_original_dword (section_address t cs ((co + rel.offset) % 2 ^ 32))
      % 2 ^ 32) &&& 0xFC000003) |||
    (((section_address t rel.sect rel.addend + 2 ^ 32
      - section_address t cs ((co + rel.offset) % 2 ^ 32)) % 2 ^ 32) &&& 0x03FFFFFC),
    ?_, ?_, ?_⟩
  · unfold self_reloc
    simp only [hty, n2, n3, n4, n5, n6, if_false, if_true]
  · rw [rel24_keep_opcode, and_mask_mod32 _ _ (by norm_num)]
  · rw [rel24_take_displacement, sub_mod32 _ _ (section_address_lt t _ _)]

/-- Witness of C10: a branch opcode (delta 4, target section 1, addend 8) on the scenario
module. -/
theorem self_rel24_patch_witness :
    ∃ W2, self_reloc stdDecls okHost
        (create_sections stdDecls okHost (rel_track.new stdDecls file_scenario)).2
        ⟨10, 1, 4, 8⟩ 0 0 []
        = (0, (0 + 4) % 2 ^ 32,
            [] ++ [Event.patch_dword (section_address
              (create_sections stdDecls okHost (rel_track.new stdDecls file_scenario)).2
              0 ((0 + 4) % 2 ^ 32)) W2]) ∧
      W2 &&& 0xFC000003
        = okHost.get_original_dword (section_address
            (create_sections stdDecls okHost (rel_track.new stdDecls file_scenario)).2
            0 ((0 + 4) % 2 ^ 32)) &&& 0xFC000003 ∧
      W2 &&& 0x03FFFFFC
        = (((section_address
              (create_sections stdDecls okHost (rel_track.new stdDecls file_scenario)).2
              1 8 : Int)
            - (section_address
              (create_sections stdDecls okHost (rel_track.new stdDecls file_scenario)).2
              0 ((0 + 4) % 2 ^ 32) : Int)) % (2 ^ 32 : Int)).toNat &&& 0x03FFFFFC :=
  self_rel24_patch stdDecls (by decide) okHost
    (create_sections stdDecls okHost (rel_track.new stdDecls file_scenario)).2
    ⟨10, 1, 4, 8⟩ 0 0 [] rfl

/-! ## Halfword patches, unsupported opcodes, sibling addresses -/

theorem and_bit15 (a : Nat) : (a &&& 0x8000 = 0x8000) ↔ a / 0x8000 % 2 = 1 := by
  show (a &&& 2 ^ 15 = 2 ^ 15) ↔ a / 2 ^ 15 % 2 = 1
  have hbit : a.testBit 15 = decide (a / 2 ^ 15 % 2 = 1) := Nat.testBit_to_div_mod
  constructor
  · intro h
    have h1 : (a &&& 2 ^ 15).testBit 15 = (2 ^ 15 : Nat).testBit 15 := by rw [h]
    rw [Nat.testBit_and, Nat.testBit_two_pow_self, Bool.and_true, hbit] at h1
    exact of_decide_eq_true h1
  · intro h
    apply Nat.eq_of_testBit_eq
    intro i
    rw [Nat.testBit_and, Nat.testBit_two_pow]
    by_cases hi : 15 = i
    · subst hi
      rw [hbit, decide_eq_true h]
      rfl
    · rw [decide_eq_false hi, Bool.and_false]

theorem ha_halfword_eq (a : Nat) :
    ((if a &&& 0x8000 = 0x8000 then (a + 0x00010000) % 2 ^ 32 else a) >>> 16) &&& 0xFFFF
      = if a.testBit 15 then ((a + 0x10000) >>> 16) &&& 0xFFFF else (a >>> 16) &&& 0xFFFF := by
  have hm : ∀ x : Nat, x &&& 0xFFFF = x % 2 ^ 16 := fun x =>
    Nat.and_pow_two_sub_one_eq_mod x 16
  have hbit : a.testBit 15 = decide (a / 2 ^ 15 % 2 = 1) := Nat.testBit_to_div_mod
  by_cases hc : a &&& 0x8000 = 0x8000
  · have h1 := (and_bit15 a).1 hc
    have h2 : a.testBit 15 = true := by rw [hbit]; simpa using h1
    simp only [hc, if_true, h2, hm, Nat.shiftRight_eq_div_pow]
    omega
  · have h1 : ¬ a / 0x8000 % 2 = 1 := fun h => hc ((and_bit15 a).2 h)
    have h2 : a.testBit 15 = false := by rw [hbit]; simpa using h1
    simp only [hc, if_false, h2, Bool.false_eq_true]

theorem ha_lo_recombine (a : Nat) (ha : a < 2 ^ 32) :
    (((((if a &&& 0x8000 = 0x8000 then (a + 0x00010000) % 2 ^ 32 else a) >>> 16)
        &&& 0xFFFF : Nat) : Int) * 2 ^ 16 + sign_extend_16 (a &&& 0xFFFF)) % 2 ^ 32 = (a : Int) := by
  have hm : ∀ x : Nat, x &&& 0xFFFF = x % 2 ^ 16 := fun x =>
    Nat.and_pow_two_sub_one_eq_mod x 16
  unfold sign_extend_16
  by_cases hc : a &&& 0x8000 = 0x8000
  · have h1 := (and_bit15 a).1 hc
    simp only [hc, if_true, hm, Nat.shiftRight_eq_div_pow]
    split_ifs <;> omega
  · have h1 : ¬ a / 0x8000 % 2 = 1 := fun h => hc ((and_bit15 a).2 h)
    simp only [hc, if_false, hm, Nat.shiftRight_eq_div_pow]
    split_ifs <;> omega

/-- All the inequalities between the relocation kinds. -/
theorem kinds_all_ne (d : Decls) (hd : d.kinds_distinct) :
    (d.R_DOLPHIN_END ≠ d.R_DOLPHIN_SECTION ∧ d.R_DOLPHIN_END ≠ d.R_DOLPHIN_NOP ∧
      d.R_DOLPHIN_END ≠ d.R_PPC_ADDR32 ∧ d.R_DOLPHIN_END ≠ d.R_PPC_ADDR16_LO ∧
      d.R_DOLPHIN_END ≠ d.R_PPC_ADDR16_HA ∧ d.R_DOLPHIN_END ≠ d.R_PPC_REL24) ∧
    (d.R_DOLPHIN_SECTION ≠ d.R_DOLPHIN_NOP ∧ d.R_DOLPHIN_SECTION ≠ d.R_PPC_ADDR32 ∧
      d.R_DOLPHIN_SECTION ≠ d.R_PPC_ADDR16_LO ∧ d.R_DOLPHIN_SECTION ≠ d.R_PPC_ADDR16_HA ∧
      d.R_DOLPHIN_SECTION ≠ d.R_PPC_REL24) ∧
    (d.R_DOLPHIN_NOP ≠ d.R_PPC_ADDR32 ∧ d.R_DOLPHIN_NOP ≠ d.R_PPC_ADDR16_LO ∧
      d.R_DOLPHIN_NOP ≠ d.R_PPC_ADDR16_HA ∧ d.R_DOLPHIN_NOP ≠ d.R_PPC_REL24) ∧
    (d.R_PPC_ADDR32 ≠ d.R_PPC_ADDR16_LO ∧ d.R_PPC_ADDR32 ≠ d.R_PPC_ADDR16_HA ∧
      d.R_PPC_ADDR32 ≠ d.R_PPC_REL24) ∧
    (d.R_PPC_ADDR16_LO ≠ d.R_PPC_ADDR16_HA ∧ d.R_PPC_ADDR16_LO ≠ d.R_PPC_REL24) ∧
    d.R_PPC_ADDR16_HA ≠ d.R_PPC_REL24 := by
  unfold Decls.kinds_distinct at hd
  simp only [List.nodup_cons, List.mem_cons, List.mem_singleton, List.not_mem_nil,
    not_or, List.nodup_nil, and_true, or_false] at hd
  obtain ⟨⟨a1, a2, a3, a4, a5, a6⟩, ⟨b1, b2, b3, b4, b5⟩, ⟨c1, c2, c3, c4⟩,
    ⟨e1, e2, e3⟩, ⟨f1, f2⟩, g1⟩ := hd
  exact ⟨⟨a1, a2, a3, a4, a5, a6⟩, ⟨b1, b2, b3, b4, b5⟩, ⟨c1, c2, c3, c4⟩,
    ⟨e1, e2, e3⟩, ⟨f1, f2⟩, g1.1⟩

theorem self_reloc_addr16_ha (d : Decls) (hd : d.kinds_distinct) (h : Host) (t : rel_track)
    (rel : rel_entry) (cs co : Nat) (ev : List Event) (hty : rel.type = d.R_PPC_ADDR16_HA) :
    self_reloc d h t rel cs co ev
      = (cs, (co + rel.offset) % 2 ^ 32,
          ev ++ [Event.patch_word (section_address t cs ((co + rel.offset) % 2 ^ 32))
            (((if section_address t rel.sect rel.addend &&& 0x8000 = 0x8000
                then (section_address t rel.sect rel.addend + 0x00010000) % 2 ^ 32
                else section_address t rel.sect rel.addend) >>> 16) &&& 0xFFFF)]) := by
  obtain ⟨-, ⟨-, -, -, b4, -⟩, ⟨-, -, c3, -⟩, ⟨-, e2, -⟩, ⟨f1, -⟩, -⟩ := kinds_all_ne d hd
  unfold self_reloc
  simp only [hty, b4.symm, c3.symm, e2.symm, f1.symm, if_false, if_true]

theorem self_reloc_addr16_lo (d : Decls) (hd : d.kinds_distinct) (h : Host) (t : rel_track)
    (rel : rel_entry) (cs co : Nat) (ev : List Event) (hty : rel.type = d.R_PPC_ADDR16_LO) :
    self_reloc d h t rel cs co ev
      = (cs, (co + rel.offset) % 2 ^ 32,
          ev ++ [Event.patch_word (section_address t cs ((co + rel.offset) % 2 ^ 32))
            (section_address t rel.sect rel.addend &&& 0xFFFF)]) := by
  obtain ⟨-, ⟨-, -, b3, -, -⟩, ⟨-, c2, -, -⟩, ⟨e1, -, -⟩, -, -⟩ := kinds_all_ne d hd
  unfold self_reloc
  simp only [hty, b3.symm, c2.symm, e1.symm, if_false, if_true]

theorem ext_reloc_addr16_ha (d : Decls) (hd : d.kinds_distinct) (h : Host) (t : rel_track)
    (s : ImportState) (modulename : String) (e : rel_entry) (cs co : Nat) (ev : List Event)
    (a : Nat) (hty : e.type = d.R_PPC_ADDR16_HA)
    (hstub : stub_of s modulename (import_key d t modulename e) = some a) (ha : a ≠ 0) :
    ext_reloc d h t s modulename e cs co ev
      = some (cs, (co + e.offset) % 2 ^ 32,
          ev ++ [Event.patch_word (section_address t cs ((co + e.offset) % 2 ^ 32))
            (((if a &&& 0x8000 = 0x8000 then (a + 0x00010000) % 2 ^ 32 else a) >>> 16)
              &&& 0xFFFF),
            Event.put_dword a e.addend]) := by
  obtain ⟨-, ⟨-, -, -, b4, -⟩, ⟨-, -, c3, -⟩, ⟨-, e2, -⟩, ⟨f1, -⟩, -⟩ := kinds_all_ne d hd
  unfold stub_of at hstub
  unfold ext_reloc
  simp only [hty, b4.symm, c3.symm, e2.symm, f1.symm, hstub, Option.getD_some, ha, ne_eq,
    not_false_eq_true, and_self, and_false, if_false, if_true]

/-- C11. A high-adjusted-16 opcode whose resolved target address is `A` (the address of the
target section and addend in a self chain, the stub address in an external chain) writes
the halfword `((A + 0x10000) >> 16) & 0xFFFF` when bit 15 of `A` is set and
`(A >> 16) & 0xFFFF` otherwise; the sum `A + 0x10000` is taken unbounded here, so this
covers the case where it passes 2^32. -/
theorem high_adjusted_halfword (d : Decls) (hd : d.kinds_distinct) (h : Host) (t : rel_track)
    (s : ImportState) (modulename : String) (rel : rel_entry) (cs co : Nat)
    (ev : List Event) (hty : rel.type = d.R_PPC_ADDR16_HA) :
    self_reloc d h t rel cs co ev
      = (cs, (co + rel.offset) % 2 ^ 32,
          ev ++ [Event.patch_word (section_address t cs ((co + rel.offset) % 2 ^ 32))
            (if (section_address t rel.sect rel.addend).testBit 15
              then ((section_address t rel.sect rel.addend + 0x10000) >>> 16) &&& 0xFFFF
              else (section_address t rel.sect rel.addend >>> 16) &&& 0xFFFF)]) ∧
    ∀ a, stub_of s modulename (import_key d t modulename rel) = some a → a ≠ 0 →
      ext_reloc d h t s modulename rel cs co ev
        = some (cs, (co + rel.offset) % 2 ^ 32,
            ev ++ [Event.patch_word (section_address t cs ((co + rel.offset) % 2 ^ 32))
              (if a.testBit 15 then ((a + 0x10000) >>> 16) &&& 0xFFFF
                else (a >>> 16) &&& 0xFFFF),
              Event.put_dword a rel.addend]) := by
  refine ⟨?_, fun a hstub ha => ?_⟩
  · rw [self_reloc_addr16_ha d hd h t rel cs co ev hty, ha_halfword_eq]
  · rw [ext_reloc_addr16_ha d hd h t s modulename rel cs co ev a hty hstub ha, ha_halfword_eq]

/-- Witness of C11: a high-adjusted-16 opcode (delta 4, target section 1, addend 0x8000) on
the scenario module. -/
theorem high_adjusted_halfword_witness :
    self_reloc stdDecls okHost
        (create_sections stdDecls okHost (rel_track.new stdDecls file_scenario)).2
        ⟨6, 1, 4, 0x8000⟩ 0 0 []
      = (0, (0 + 4) % 2 ^ 32,
          [] ++ [Event.patch_word (section_address
            (create_sections stdDecls okHost (rel_track.new stdDecls file_scenario)).2
            0 ((0 + 4) % 2 ^ 32))
            (if (section_address
                (create_sections stdDecls okHost (rel_track.new stdDecls file_scenario)).2
                1 0x8000).testBit 15
              then ((section_address
                (create_sections stdDecls okHost (rel_track.new stdDecls file_scenario)).2
                1 0x8000 + 0x10000) >>> 16) &&& 0xFFFF
              else (section_address
                (create_sections stdDecls okHost (rel_track.new stdDecls file_scenario)).2
                1 0x8000 >>> 16) &&& 0xFFFF)]) :=
  (high_adjusted_halfword stdDecls (by decide) okHost
    (create_sections stdDecls okHost (rel_track.new stdDecls file_scenario)).2
    ⟨0, [], []⟩ "module7" ⟨6, 1, 4, 0x8000⟩ 0 0 [] rfl).1

/-- An opcode of no known kind moves the cursor like a no-op and writes nothing. -/
theorem self_reloc_unknown (d : Decls) (h : Host) (t : rel_track) (r : rel_entry)
    (cs co : Nat) (ev : List Event)
    (hunk : r.type ∉ [d.R_DOLPHIN_SECTION, d.R_DOLPHIN_NOP, d.R_PPC_ADDR32,
      d.R_PPC_ADDR16_LO, d.R_PPC_ADDR16_HA, d.R_PPC_REL24, d.R_DOLPHIN_END]) :
    self_reloc d h t r cs co ev = (cs, (co + r.offset) % 2 ^ 32, ev) := by
  simp only [List.mem_cons, List.mem_singleton, List.not_mem_nil, or_false, not_or] at hunk
  obtain ⟨u1, u2, u3, u4, u5, u6, -⟩ := hunk
  unfold self_reloc
  simp only [u1, u2, u3, u4, u5, u6, if_false]

theorem self_reloc_nop (d : Decls) (hd : d.kinds_distinct) (h : Host) (t : rel_track)
    (r : rel_entry) (cs co : Nat) (ev : List Event) (hty : r.type = d.R_DOLPHIN_NOP) :
    self_reloc d h t r cs co ev = (cs, (co + r.offset) % 2 ^ 32, ev) := by
  obtain ⟨-, ⟨b1, -⟩, -⟩ := kinds_all_ne d hd
  unfold self_reloc
  simp only [hty, b1.symm, if_false, if_true]

/-- C18. A self-chain opcode `r` whose kind is none of section-marker, no-op, 32-bit
absolute, low-16, high-adjusted-16, 24-bit relative-branch and end writes nothing, adds its
delta to the current offset and keeps the current section, exactly like a no-op with the
same delta; the chain that holds it gives the same result and the same writes as the chain
with `r` turned into a no-op. -/
theorem unsupported_kind_is_nop (d : Decls) (hd : d.kinds_distinct) (h : Host) (t : rel_track)
    (bytes : List Nat) (ok : Bool) (pre post : List rel_entry) (r : rel_entry)
    (ev0 : List Event)
    (hchain : read_chain d bytes = (ok, pre ++ r :: post))
    (hunk : r.type ∉ [d.R_DOLPHIN_SECTION, d.R_DOLPHIN_NOP, d.R_PPC_ADDR32,
      d.R_PPC_ADDR16_LO, d.R_PPC_ADDR16_HA, d.R_PPC_REL24, d.R_DOLPHIN_END]) :
    (∀ cs co ev, self_reloc d h t r cs co ev = (cs, (co + r.offset) % 2 ^ 32, ev)) ∧
    (∀ cs co ev, self_reloc d h t r cs co ev
      = self_reloc d h t { r with type := d.R_DOLPHIN_NOP } cs co ev) ∧
    self_chain d h t bytes 0 0 ev0
      = (ok, (self_ops d h t (pre ++ { r with type := d.R_DOLPHIN_NOP } :: post)
          0 0 ev0).2.2) := by
  have h1 : ∀ cs co ev, self_reloc d h t r cs co ev = (cs, (co + r.offset) % 2 ^ 32, ev) :=
    fun cs co ev => self_reloc_unknown d h t r cs co ev hunk
  have h2 : ∀ cs co ev, self_reloc d h t r cs co ev
      = self_reloc d h t { r with type := d.R_DOLPHIN_NOP } cs co ev := by
    intro cs co ev
    rw [h1, self_reloc_nop d hd h t { r with type := d.R_DOLPHIN_NOP } cs co ev rfl]
  refine ⟨h1, h2, ?_⟩
  rw [self_chain_eq_ops d h t bytes.length bytes (Nat.le_refl _), hchain]
  simp only []
  rw [self_ops_append, self_ops_append]
  simp only [self_ops, h2]

/-- Witness of C18: the chain of `file_scenario` with an opcode of kind 99 (delta 4) put
before its end opcode. -/
theorem unsupported_kind_is_nop_witness :
    self_chain stdDecls okHost
        (create_sections stdDecls okHost (rel_track.new stdDecls file_scenario)).2
        ((file_scenario.drop 0x168).take 16 ++ [99, 0, 0, 4, 0, 0, 0, 0]
          ++ [203, 0, 0, 0, 0, 0, 0, 0]) 0 0 []
      = (true, (self_ops stdDecls okHost
          (create_sections stdDecls okHost (rel_track.new stdDecls file_scenario)).2
          ([⟨202, 0, 0, 0⟩, ⟨1, 1, 0, 0⟩]
            ++ { (⟨99, 0, 4, 0⟩ : rel_entry) with type := stdDecls.R_DOLPHIN_NOP } :: [])
          0 0 []).2.2) :=
  (unsupported_kind_is_nop stdDecls (by decide) okHost
    (create_sections stdDecls okHost (rel_track.new stdDecls file_scenario)).2
    ((file_scenario.drop 0x168).take 16 ++ [99, 0, 0, 4, 0, 0, 0, 0]
      ++ [203, 0, 0, 0, 0, 0, 0, 0]) true [⟨202, 0, 0, 0⟩, ⟨1, 1, 0, 0⟩] [] ⟨99, 0, 4, 0⟩ []
    (by decide) (by decide)).2.2

theorem first_offset_eq (sections : List section_entry) :
    first_offset sections
      = match sections.find? (fun e => decide (SECTION_OFF e.file_offset ≠ 0)) with
        | none => 0
        | some first => SECTION_OFF first.file_offset := by
  induction sections with
  | nil => rfl
  | cons e rest ih =>
    unfold first_offset
    by_cases hz : SECTION_OFF e.file_offset ≠ 0
    · simp [List.find?, hz]
    · simp only [hz, if_false, List.find?, decide_False]
      exact ih

theorem first_offset_lt (sections : List section_entry)
    (hwf : ∀ x ∈ sections, x.file_offset < 2 ^ 32) : first_offset sections < 2 ^ 32 := by
  induction sections with
  | nil => simp [first_offset]
  | cons e rest ih =>
    rw [first_offset]
    have he := hwf e (List.mem_cons_self _ _)
    split_ifs with hz
    · unfold SECTION_OFF
      omega
    · exact ih (fun x hx => hwf x (List.mem_cons_of_mem _ hx))

/-- C15. With `virt = true`, `get_external_offset` returns what the spec says (see
`external_offset_spec`), for sibling section tables whose offset words are 32-bit values. -/
theorem external_offset_virtual (d : Decls) (t : rel_track) (modulename : String) (addend sect : Nat)
    (hwf : ∀ sections, omap_find t.m_external_modules modulename = some sections →
      ∀ x ∈ sections, x.file_offset < 2 ^ 32) :
    get_external_offset d t modulename addend sect true
      = external_offset_spec d t modulename addend sect := by
  unfold get_external_offset external_offset_spec
  cases hm : omap_find t.m_external_modules modulename with
  | none => rfl
  | some sections =>
    simp only []
    by_cases hs : sect ≥ sections.length
    · simp [hs, List.getElem?_eq_none hs]
    · have hlt : sect < sections.length := by omega
      have hget : sections[sect]? = some sections[sect] := List.getElem?_eq_getElem hlt
      have hgetD : sections.getD sect ⟨0, 0⟩ = sections[sect] := by
        simp [List.getD, hget]
      simp only [hs, if_false, hget, hgetD]
      by_cases hz : SECTION_OFF sections[sect].file_offset = 0
      · simp [hz]
      · simp only [hz, if_false, if_true]
        have hf := first_offset_eq sections
        have hfl := first_offset_lt sections (hwf sections hm)
        cases hfind : sections.find? (fun e => decide (SECTION_OFF e.file_offset ≠ 0)) with
        | none =>
          have := List.find?_eq_none.1 hfind sections[sect] (List.getElem_mem hlt)
          simp [hz] at this
        | some first =>
          rw [hfind] at hf
          simp only [] at hf ⊢
          rw [← hf]
          omega

/-- Witness of C15: section 1 (file offset 0x140) of the sibling "sib", whose first backed
section lies at file offset 0x100, with addend 8: 0x40 + `START` + 8. -/
theorem external_offset_virtual_witness :
    get_external_offset stdDecls t_with_sibling "sib" 8 1 true
      = external_offset_spec stdDecls t_with_sibling "sib" 8 1 ∧
    external_offset_spec stdDecls t_with_sibling "sib" 8 1 = 0x80500048 :=
  ⟨external_offset_virtual stdDecls t_with_sibling "sib" 8 1 (by decide), by decide⟩

/-- C20. For every 32-bit address `a` that a low-16 and a high-adjusted-16 opcode of a self
chain resolve to, with `lo` the halfword written by the low-16 opcode (`a & 0xFFFF`) and
`ha` the halfword written by the high-adjusted-16 opcode,
`(ha * 2^16 + sign_extend_16 lo) mod 2^32 = a`. -/
theorem high_low_recombine (d : Decls) (hd : d.kinds_distinct) (h : Host) (t : rel_track)
    (a : Nat) (rlo rha : rel_entry) (cs co cs2 co2 : Nat) (ev ev2 : List Event)
    (hlo : rlo.type = d.R_PPC_ADDR16_LO) (hha : rha.type = d.R_PPC_ADDR16_HA)
    (halo : section_address t rlo.sect rlo.addend = a)
    (haha : section_address t rha.sect rha.addend = a) :
    ∃ lo ha : Nat,
      self_reloc d h t rlo cs co ev
        = (cs, (co + rlo.offset) % 2 ^ 32,
            ev ++ [Event.patch_word (section_address t cs ((co + rlo.offset) % 2 ^ 32)) lo]) ∧
      self_reloc d h t rha cs2 co2 ev2
        = (cs2, (co2 + rha.offset) % 2 ^ 32,
            ev2 ++ [Event.patch_word (section_address t cs2 ((co2 + rha.offset) % 2 ^ 32))
              ha]) ∧
      lo = a &&& 0xFFFF ∧
      ((ha : Int) * 2 ^ 16 + sign_extend_16 lo) % 2 ^ 32 = (a : Int) := by
  have hlt : a < 2 ^ 32 := by rw [← halo]; exact section_address_lt t _ _
  refine ⟨a &&& 0xFFFF,
    ((if a &&& 0x8000 = 0x8000 then (a + 0x00010000) % 2 ^ 32 else a) >>> 16) &&& 0xFFFF,
    ?_, ?_, rfl, ha_lo_recombine a hlt⟩
  · rw [self_reloc_addr16_lo d hd h t rlo cs co ev hlo, halo]
  · rw [self_reloc_addr16_ha d hd h t rha cs2 co2 ev2 hha, haha]

/-- Witness of C20: both opcodes resolve to section 1, addend 0x8000 of the scenario
module, the address 0x80508040. -/
theorem high_low_recombine_witness :
    ∃ lo ha : Nat,
      self_reloc stdDecls okHost
          (create_sections stdDecls okHost (rel_track.new stdDecls file_scenario)).2
          ⟨4, 1, 4, 0x8000⟩ 0 0 []
        = (0, (0 + 4) % 2 ^ 32,
            [] ++ [Event.patch_word (section_address
              (create_sections stdDecls okHost (rel_track.new stdDecls file_scenario)).2
              0 ((0 + 4) % 2 ^ 32)) lo]) ∧
      self_reloc stdDecls okHost
          (create_sections stdDecls okHost (rel_track.new stdDecls file_scenario)).2
          ⟨6, 1, 8, 0x8000⟩ 0 0 []
        = (0, (0 + 8) % 2 ^ 32,
            [] ++ [Event.patch_word (section_address
              (create_sections stdDecls okHost (rel_track.new stdDecls file_scenario)).2
              0 ((0 + 8) % 2 ^ 32)) ha]) ∧
      lo = 0x80508040 &&& 0xFFFF ∧
      ((ha : Int) * 2 ^ 16 + sign_extend_16 lo) % 2 ^ 32 = ((0x80508040 : Nat) : Int) :=
  high_low_recombine stdDecls (by decide) okHost
    (create_sections stdDecls okHost (rel_track.new stdDecls file_scenario)).2
    0x80508040 ⟨4, 1, 4, 0x8000⟩ ⟨6, 1, 8, 0x8000⟩ 0 0 0 0 [] [] rfl rfl
    (by decide) (by decide)

theorem ext_scan_eq_ops (d : Decls) (name : String) :
    ∀ (n : Nat) (bytes : List Nat), bytes.length ≤ n → ∀ (t : rel_track) (s : ImportState),
      ext_scan d name bytes t s
        = ((read_chain d bytes).1, ext_ops d name (read_chain d bytes).2 t s) := by
  intro n
  induction n using Nat.strong_induction_on with
  | _ n ih =>
    intro bytes hn t s
    match bytes, hn with
    | b0 :: b1 :: b2 :: b3 :: b4 :: b5 :: b6 :: b7 :: rest, hn =>
      rw [ext_scan, read_chain]
      by_cases he : (decode_rel_entry [b0, b1, b2, b3, b4, b5, b6, b7]).type = d.R_DOLPHIN_END
      · simp [he, ext_ops]
      · simp only [he, if_false]
        rw [ext_ops]
        rw [ih rest.length (by simp only [List.length_cons] at hn; omega) rest (Nat.le_refl _)]
    | [], _ => simp [ext_scan, read_chain, ext_ops]
    | [_], _ => simp [ext_scan, read_chain, ext_ops]
    | [_, _], _ => simp [ext_scan, read_chain, ext_ops]
    | [_, _, _], _ => simp [ext_scan, read_chain, ext_ops]
    | [_, _, _, _], _ => simp [ext_scan, read_chain, ext_ops]
    | [_, _, _, _, _], _ => simp [ext_scan, read_chain, ext_ops]
    | [_, _, _, _, _, _], _ => simp [ext_scan, read_chain, ext_ops]
    | [_, _, _, _, _, _, _], _ => simp [ext_scan, read_chain, ext_ops]

/-- The first external loop changes nothing in the object but the opcode log. -/
theorem ext_ops_frame (d : Decls) (name : String) :
    ∀ (ops : List rel_entry) (t : rel_track) (s : ImportState),
      (ext_ops d name ops t s).1
        = { t with m_imports := (ext_ops d name ops t s).1.m_imports } := by
  intro ops
  induction ops with
  | nil => intro t s; rfl
  | cons r ops ih =>
    intro t s
    simp only [ext_ops]
    rw [ih]
    simp [ext_scan_step]

/-- The loop over the import descriptors changes nothing in the object but the opcode
log. -/
theorem import_loop_frame (d : Decls) (h : Host) :
    ∀ (todo i : Nat) (t : rel_track) (s : ImportState) (ev : List Event),
      (import_loop d h todo i t s ev).2.1
        = { t with m_imports := (import_loop d h todo i t s ev).2.1.m_imports } := by
  intro todo
  induction todo with
  | zero => intro i t s ev; rfl
  | succ n ih =>
    intro i t s ev
    rw [import_loop]
    cases hq : qlread t.m_input_file (t.m_import_offset + i * sizeof_import_entry)
        sizeof_import_entry with
    | none => rfl
    | some raw =>
      simp only []
      by_cases hid : (decode_import_entry raw).id = t.m_id
      · simp only [hid, if_true]
        cases hsc : self_chain d h t (t.m_input_file.drop (decode_import_entry raw).offset)
            0 0 ev with
        | mk ok ev1 =>
          cases ok with
          | false => rfl
          | true => exact ih _ _ _ _
      · simp only [hid, if_false]
        rw [ext_scan_eq_ops d _ _ _ (Nat.le_refl _)]
        have hfr := ext_ops_frame d (module_name_of d t (decode_import_entry raw).id)
          (read_chain d (t.m_input_file.drop (decode_import_entry raw).offset)).2 t s
        cases hrc : (read_chain d (t.m_input_file.drop (decode_import_entry raw).offset)).1 with
        | false =>
          simp only []
          exact hfr
        | true =>
          simp only []
          rw [ih]
          rw [hfr]

/-- A loop over the import descriptors that comes to a descriptor whose chain is cut short
fails. -/
theorem import_loop_truncated (d : Decls) (h : Host) (j : Nat) (raw : List Nat) :
    ∀ (todo i : Nat) (t : rel_track) (s : ImportState) (ev : List Event),
      i ≤ j → j < i + todo →
      qlread t.m_input_file (t.m_import_offset + j * sizeof_import_entry)
        sizeof_import_entry = some raw →
      (read_chain d (t.m_input_file.drop (decode_import_entry raw).offset)).1 = false →
      (import_loop d h todo i t s ev).1 = false := by
  intro todo
  induction todo with
  | zero => intro i t s ev h1 h2; omega
  | succ n ih =>
    intro i t s ev h1 h2 hraw htr
    rw [import_loop]
    cases hq : qlread t.m_input_file (t.m_import_offset + i * sizeof_import_entry)
        sizeof_import_entry with
    | none => rfl
    | some rawi =>
      simp only []
      by_cases hij : i = j
      · subst hij
        rw [hq] at hraw
        simp only [Option.some.injEq] at hraw
        subst hraw
        by_cases hid : (decode_import_entry rawi).id = t.m_id
        · simp only [hid, if_true]
          rw [self_chain_eq_ops d h t _ _ (Nat.le_refl _), htr]
        · simp only [hid, if_false]
          rw [ext_scan_eq_ops d _ _ _ (Nat.le_refl _), htr]
      · have hlt : i + 1 ≤ j := by omega
        by_cases hid : (decode_import_entry rawi).id = t.m_id
        · simp only [hid, if_true]
          cases hsc : self_chain d h t (t.m_input_file.drop (decode_import_entry rawi).offset)
              0 0 ev with
          | mk ok ev1 =>
            cases ok with
            | false => rfl
            | true => exact ih (i + 1) t s ev1 hlt (by omega) hraw htr
        · simp only [hid, if_false]
          rw [ext_scan_eq_ops d _ _ _ (Nat.le_refl _)]
          have hfr := ext_ops_frame d (module_name_of d t (decode_import_entry rawi).id)
            (read_chain d (t.m_input_file.drop (decode_import_entry rawi).offset)).2 t s
          cases hrc : (read_chain d
              (t.m_input_file.drop (decode_import_entry rawi).offset)).1 with
          | false => rfl
          | true =>
            simp only []
            apply ih (i + 1) _ _ ev hlt (by omega)
            · rw [hfr]; exact hraw
            · rw [hfr]; exact htr


theorem create_sections_loop_frame_ex (h : Host) :
    ∀ (rest : List section_entry) (i : Nat) (t : rel_track),
      ∃ m n b, (create_sections_loop h rest i t).2 = { t with
        m_segment_address_map := m, m_next_seg_offset := n, m_internal_bss_section := b } := by
  intro rest
  induction rest with
  | nil => intro i t; exact ⟨_, _, _, rfl⟩
  | cons e rest ih =>
    intro i t
    by_cases hu : e.file_offset = 0 ∧ e.size = 0
    · have heq : create_sections_loop h (e :: rest) i t
          = create_sections_loop h rest (i + 1) t := by
        rw [create_sections_loop]; simp only [hu, and_self, if_true]
      rw [heq]
      exact ih (i + 1) t
    · by_cases hf : SECTION_OFF e.file_offset ≠ 0
      · by_cases ha : h.add_segm t.m_next_seg_offset
            ((t.m_next_seg_offset + e.size) % 2 ^ 32) = true
        · by_cases hb : h.file2base (SECTION_OFF e.file_offset) t.m_next_seg_offset
              ((t.m_next_seg_offset + e.size) % 2 ^ 32) = true
          · have heq : create_sections_loop h (e :: rest) i t
                = create_sections_loop h rest (i + 1) { t with
                    m_segment_address_map :=
                      omap_assign t.m_segment_address_map i t.m_next_seg_offset
                    m_next_seg_offset := (t.m_next_seg_offset + e.size) % 2 ^ 32 } := by
              rw [create_sections_loop]; simp [hu, hf, ha, hb, -Nat.reducePow]
            rw [heq]
            obtain ⟨m, n, b, hh⟩ := ih (i + 1) { t with
              m_segment_address_map :=
                omap_assign t.m_segment_address_map i t.m_next_seg_offset
              m_next_seg_offset := (t.m_next_seg_offset + e.size) % 2 ^ 32 }
            exact ⟨m, n, b, by rw [hh]⟩
          · refine ⟨omap_assign t.m_segment_address_map i t.m_next_seg_offset,
              t.m_next_seg_offset, t.m_internal_bss_section, ?_⟩
            rw [create_sections_loop]; simp [hu, hf, ha, hb, -Nat.reducePow]
        · refine ⟨omap_assign t.m_segment_address_map i t.m_next_seg_offset,
            t.m_next_seg_offset, t.m_internal_bss_section, ?_⟩
          rw [create_sections_loop]; simp [hu, hf, ha, -Nat.reducePow]
      · by_cases ha : h.add_segm t.m_next_seg_offset
            ((t.m_next_seg_offset + e.size) % 2 ^ 32) = true
        · have heq : create_sections_loop h (e :: rest) i t
              = create_sections_loop h rest (i + 1) { t with
                  m_segment_address_map :=
                    omap_assign t.m_segment_address_map i t.m_next_seg_offset
                  m_internal_bss_section := i
                  m_next_seg_offset := (t.m_next_seg_offset + e.size) % 2 ^ 32 } := by
            rw [create_sections_loop]; simp [hu, hf, ha, -Nat.reducePow]
          rw [heq]
          obtain ⟨m, n, b, hh⟩ := ih (i + 1) { t with
            m_segment_address_map :=
              omap_assign t.m_segment_address_map i t.m_next_seg_offset
            m_internal_bss_section := i
            m_next_seg_offset := (t.m_next_seg_offset + e.size) % 2 ^ 32 }
          exact ⟨m, n, b, by rw [hh]⟩
        · refine ⟨omap_assign t.m_segment_address_map i t.m_next_seg_offset,
            t.m_next_seg_offset, i, ?_⟩
          rw [create_sections_loop]; simp [hu, hf, ha, -Nat.reducePow]

/-- The loop of `create_sections` changes only the address table, the running address and
the recorded uninitialized-section index. -/
theorem create_sections_loop_frame (h : Host) (rest : List section_entry) (i : Nat)
    (t : rel_track) :
    (create_sections_loop h rest i t).2 = { t with
      m_segment_address_map := (create_sections_loop h rest i t).2.m_segment_address_map
      m_next_seg_offset := (create_sections_loop h rest i t).2.m_next_seg_offset
      m_internal_bss_section :=
        (create_sections_loop h rest i t).2.m_internal_bss_section } := by
  obtain ⟨m, n, b, hh⟩ := create_sections_loop_frame_ex h rest i t
  rw [hh]

theorem create_sections_frame (d : Decls) (h : Host) (t : rel_track) :
    (create_sections d h t).2 = { t with
      m_segment_address_map := (create_sections d h t).2.m_segment_address_map
      m_next_seg_offset := (create_sections d h t).2.m_next_seg_offset
      m_internal_bss_section := (create_sections d h t).2.m_internal_bss_section } := by
  unfold create_sections
  rw [create_sections_loop_frame]

/-- The relocation engine fails on an object whose import table has a readable descriptor
with a chain that is cut short. -/
theorem apply_relocations_truncated (d : Decls) (h : Host) (t : rel_track) (j : Nat)
    (raw : List Nat)
    (himp : 0 < t.m_import_offset) (hj : j < t.m_import_size / sizeof_import_entry)
    (hraw : qlread t.m_input_file (t.m_import_offset + j * sizeof_import_entry)
      sizeof_import_entry = some raw)
    (htrunc : (read_chain d (t.m_input_file.drop (decode_import_entry raw).offset)).1
      = false) :
    (apply_relocations d h t).1 = false := by
  have f1 : (init_resolvers d h t).m_import_offset = t.m_import_offset := by
    rw [init_resolvers_frame]
  have f2 : (init_resolvers d h t).m_import_size = t.m_import_size := by
    rw [init_resolvers_frame]
  have f3 : (init_resolvers d h t).m_input_file = t.m_input_file := by
    rw [init_resolvers_frame]
  have hloop := import_loop_truncated d h j raw (t.m_import_size / sizeof_import_entry) 0
    (init_resolvers d h t) ⟨0, [], []⟩ [] (Nat.zero_le _) (by omega)
    (by rw [f1, f3]; exact hraw) (by rw [f3]; exact htrunc)
  unfold apply_relocations
  simp only [f1, f2, himp, if_true]
  cases hl : import_loop d h (t.m_import_size / sizeof_import_entry) 0
      (init_resolvers d h t) ⟨0, [], []⟩ [] with
  | mk ok rest =>
    obtain ⟨t1, s, ev⟩ := rest
    rw [hl] at hloop
    simp only at hloop
    subst hloop
    rfl

/-- C14. An object whose import table is present (`m_import_offset > 0`) has a readable
descriptor `j` within the descriptor count, for the module itself or for another module;
the chain of that descriptor is cut short: reading 8-byte opcodes from the chain offset, the
input ends (a read gives fewer than 8 bytes) before an end opcode has been read. Then
`apply_relocations` returns failure, and `apply_patches` returns failure as well. -/
theorem truncated_chain_fails (d : Decls) (h : Host) (t : rel_track) (j : Nat) (raw : List Nat)
    (himp : 0 < t.m_import_offset) (hj : j < t.m_import_size / sizeof_import_entry)
    (hraw : qlread t.m_input_file (t.m_import_offset + j * sizeof_import_entry)
      sizeof_import_entry = some raw)
    (htrunc : (read_chain d (t.m_input_file.drop (decode_import_entry raw).offset)).1
      = false) :
    (apply_relocations d h t).1 = false ∧ (apply_patches d h t).1 = false := by
  refine ⟨apply_relocations_truncated d h t j raw himp hj hraw htrunc, ?_⟩
  unfold apply_patches
  have hfr := create_sections_frame d h t
  cases hcs : create_sections d h t with
  | mk ok t1 =>
    rw [hcs] at hfr
    simp only at hfr
    cases ok with
    | false => rfl
    | true =>
      simp only []
      have hr := apply_relocations_truncated d h t1 j raw (by rw [hfr]; exact himp)
        (by rw [hfr]; exact hj) (by rw [hfr]; exact hraw) (by rw [hfr]; exact htrunc)
      cases hap : apply_relocations d h t1 with
      | mk ok2 rest =>
        obtain ⟨t2, ev⟩ := rest
        rw [hap] at hr
        simp only at hr
        subst hr
        rfl

/-- Witness of C14: the cut module `file_truncated`, whose descriptor 0 (id 5, the module
itself, chain at 0x168) has a chain without end opcode. -/
theorem truncated_chain_fails_witness :
    0 < (rel_track.new stdDecls file_truncated).m_import_offset ∧
    0 < (rel_track.new stdDecls file_truncated).m_import_size / sizeof_import_entry ∧
    qlread (rel_track.new stdDecls file_truncated).m_input_file
      ((rel_track.new stdDecls file_truncated).m_import_offset + 0 * sizeof_import_entry)
      sizeof_import_entry = some [0, 0, 0, 5, 0, 0, 1, 0x68] ∧
    (read_chain stdDecls ((rel_track.new stdDecls file_truncated).m_input_file.drop
      (decode_import_entry [0, 0, 0, 5, 0, 0, 1, 0x68]).offset)).1 = false ∧
    (apply_relocations stdDecls okHost (rel_track.new stdDecls file_truncated)).1 = false ∧
    (apply_patches stdDecls okHost (rel_track.new stdDecls file_truncated)).1 = false :=
  ⟨by decide, by decide, by decide, by decide,
    truncated_chain_fails stdDecls okHost (rel_track.new stdDecls file_truncated) 0
      [0, 0, 0, 5, 0, 0, 1, 0x68] (by decide) (by decide) (by decide) (by decide)⟩

theorem alloc_index_append_of_mem (p : String × Nat) (l1 l2 : List (String × Nat))
    (h : p ∈ l1) : alloc_index p (l1 ++ l2) = alloc_index p l1 := by
  induction l1 with
  | nil => simp at h
  | cons q rest ih =>
    simp only [List.cons_append, alloc_index]
    by_cases hq : q = p
    · simp [hq]
    · simp only [hq, if_false]
      rcases List.mem_cons.1 h with h1 | h1
      · exact absurd h1.symm hq
      · have := ih h1
        simp only [HAppend.hAppend, Append.append] at this ⊢
        rw [this]

theorem alloc_index_append_of_not_mem (p : String × Nat) (l1 l2 : List (String × Nat))
    (h : p ∉ l1) : alloc_index p (l1 ++ l2) = l1.length + alloc_index p l2 := by
  induction l1 with
  | nil => simp
  | cons q rest ih =>
    simp only [List.cons_append, alloc_index, List.length_cons]
    have hq : ¬ q = p := fun e => h (by rw [e]; exact List.mem_cons_self _ _)
    simp only [hq, if_false]
    have := ih (fun hm => h (List.mem_cons_of_mem _ hm))
    simp only [HAppend.hAppend, Append.append] at this ⊢
    rw [this]
    omega

theorem alloc_index_lt (p : String × Nat) (l : List (String × Nat)) (h : p ∈ l) :
    alloc_index p l < l.length := by
  induction l with
  | nil => simp at h
  | cons q rest ih =>
    simp only [alloc_index, List.length_cons]
    by_cases hq : q = p
    · simp [hq]
    · simp only [hq, if_false]
      rcases List.mem_cons.1 h with h1 | h1
      · exact absurd h1.symm hq
      · have := ih h1
        omega

theorem alloc_index_inj (p q : String × Nat) (l : List (String × Nat)) (hp : p ∈ l)
    (hq : q ∈ l) (h : alloc_index p l = alloc_index q l) : p = q := by
  induction l with
  | nil => simp at hp
  | cons r rest ih =>
    simp only [alloc_index] at h
    by_cases h1 : r = p <;> by_cases h2 : r = q
    · rw [← h1, ← h2]
    · rw [if_pos h1, if_neg h2] at h
      omega
    · rw [if_neg h1, if_pos h2] at h
      omega
    · simp only [h1, h2, if_false, Nat.add_right_cancel_iff] at h
      rcases List.mem_cons.1 hp with a | a
      · exact absurd a.symm h1
      · rcases List.mem_cons.1 hq with b | b
        · exact absurd b.symm h2
        · exact ih a b h

theorem omap_find_assign_gen {κ α : Type} [DecidableEq κ] [LT κ]
    [DecidableRel (fun a b : κ => a < b)] (m : List (κ × α)) (k : κ) (v : α) (k2 : κ) :
    omap_find (omap_assign m k v) k2 = if k2 = k then some v else omap_find m k2 := by
  induction m with
  | nil =>
    simp only [omap_assign, omap_find]
    by_cases h : k = k2
    · simp [h]
    · have h2 : ¬ k2 = k := fun e => h e.symm
      simp [h, h2]
  | cons p rest ih =>
    obtain ⟨k1, v1⟩ := p
    simp only [omap_assign]
    by_cases h1 : k1 = k
    · subst h1
      simp only [if_true, omap_find]
      by_cases h : k1 = k2
      · simp [h]
      · have h2 : ¬ k2 = k1 := fun e => h e.symm
        simp [h, h2]
    · simp only [h1, if_false]
      by_cases h3 : k < k1
      · simp only [h3, if_true, omap_find]
        by_cases h : k = k2
        · simp [h]
        · have h2 : ¬ k2 = k := fun e => h e.symm
          simp [h, h2]
      · simp only [h3, if_false, omap_find, ih]
        by_cases h : k1 = k2
        · have h2 : ¬ k2 = k := by rw [← h]; exact h1
          simp [h, h2]
        · simp [h]

theorem mem_omap_assign {κ α : Type} [DecidableEq κ] [LT κ]
    [DecidableRel (fun a b : κ => a < b)] (m : List (κ × α)) (k : κ) (v : α) (p : κ × α)
    (hp : p ∈ omap_assign m k v) : p ∈ m ∨ p = (k, v) := by
  induction m with
  | nil =>
    simp only [omap_assign, List.mem_singleton] at hp
    exact Or.inr hp
  | cons q rest ih =>
    obtain ⟨k1, v1⟩ := q
    simp only [omap_assign] at hp
    by_cases h1 : k1 = k
    · simp only [h1, if_true, List.mem_cons] at hp
      rcases hp with hp | hp
      · exact Or.inr hp
      · exact Or.inl (List.mem_cons_of_mem _ hp)
    · simp only [h1, if_false] at hp
      by_cases h3 : k < k1
      · simp only [h3, if_true, List.mem_cons] at hp
        rcases hp with hp | hp | hp
        · exact Or.inr hp
        · exact Or.inl (by rw [hp]; exact List.mem_cons_self _ _)
        · exact Or.inl (List.mem_cons_of_mem _ hp)
      · simp only [h3, if_false, List.mem_cons] at hp
        rcases hp with hp | hp
        · exact Or.inl (by rw [hp]; exact List.mem_cons_self _ _)
        · rcases ih hp with h | h
          · exact Or.inl (List.mem_cons_of_mem _ h)
          · exact Or.inr h

theorem omap_find_mem {κ α : Type} [DecidableEq κ] (m : List (κ × α)) (k : κ) (v : α)
    (hf : omap_find m k = some v) : (k, v) ∈ m := by
  induction m with
  | nil => simp [omap_find] at hf
  | cons q rest ih =>
    obtain ⟨k1, v1⟩ := q
    simp only [omap_find] at hf
    by_cases h1 : k1 = k
    · simp only [h1, if_true, Option.some.injEq] at hf
      rw [h1, hf]
      exact List.mem_cons_self _ _
    · simp only [h1, if_false] at hf
      exact List.mem_cons_of_mem _ (ih hf)

theorem mem_key_pairs (s : ImportState) (n : String) (k : Nat) :
    (n, k) ∈ key_pairs s ↔ ∃ inn, (n, inn) ∈ s.imports_map ∧ ∃ v, (k, v) ∈ inn := by
  unfold key_pairs
  simp only [List.mem_flatMap, List.mem_map, Prod.mk.injEq, Prod.exists]
  constructor
  · rintro ⟨n1, inn, hmem, k1, v, hkv, hn, hk⟩
    subst hn; subst hk
    exact ⟨inn, hmem, v, hkv⟩
  · rintro ⟨inn, hmem, v, hkv⟩
    exact ⟨n, inn, hmem, k, v, hkv, rfl, rfl⟩

theorem stub_of_mem_key_pairs (s : ImportState) (n : String) (k v : Nat)
    (h : stub_of s n k = some v) : (n, k) ∈ key_pairs s := by
  unfold stub_of at h
  cases hm : omap_find s.imports_map n with
  | none => rw [hm] at h; simp [omap_find] at h
  | some inn =>
    rw [hm] at h
    exact (mem_key_pairs s n k).2 ⟨inn, omap_find_mem _ _ _ hm, v, omap_find_mem _ _ _ h⟩

/-- The pairs of a map in which the inner map of `name` has been replaced by `inner2`, all
of whose keys are old keys of `name` or the key `key`. -/
theorem key_pairs_assign (s : ImportState) (name : String) (inner2 : List (Nat × Nat))
    (key : Nat) (maps : List (String × List (Nat × Nat)))
    (hmaps : maps = omap_assign s.imports_map name inner2)
    (hinner : ∀ q ∈ inner2, q ∈ (omap_find s.imports_map name).getD [] ∨ q.1 = key)
    (n : String) (k : Nat)
    (hp : ∃ inn, (n, inn) ∈ maps ∧ ∃ v, (k, v) ∈ inn) :
    (n, k) ∈ key_pairs s ∨ (n, k) = (name, key) := by
  obtain ⟨inn, hmem, v, hkv⟩ := hp
  rw [hmaps] at hmem
  rcases mem_omap_assign _ _ _ _ hmem with h | h
  · exact Or.inl ((mem_key_pairs s n k).2 ⟨inn, h, v, hkv⟩)
  · simp only [Prod.mk.injEq] at h
    obtain ⟨hn, hinn⟩ := h
    subst hn; subst hinn
    rcases hinner _ hkv with h | h
    · cases hm : omap_find s.imports_map n with
      | none => rw [hm] at h; simp at h
      | some old =>
        rw [hm] at h
        exact Or.inl ((mem_key_pairs s n k).2 ⟨old, omap_find_mem _ _ _ hm, v, h⟩)
    · simp only at h
      exact Or.inr (by rw [h])


theorem import_key_congr (d : Decls) (t t2 : rel_track)
    (he : t2.m_external_modules = t.m_external_modules) (name : String) (e : rel_entry) :
    import_key d t2 name e = import_key d t name e := by
  simp only [import_key, get_external_offset, he]

theorem stub_of_assign (s : ImportState) (name : String) (inner2 : List (Nat × Nat))
    (maps : List (String × List (Nat × Nat))) (D : Nat) (st : List (String × Nat))
    (hmaps : maps = omap_assign s.imports_map name inner2) (n : String) (k : Nat) :
    stub_of ⟨D, maps, st⟩ n k
      = if n = name then omap_find inner2 k else stub_of s n k := by
  unfold stub_of
  simp only [hmaps, omap_find_assign_gen]
  by_cases hn : n = name
  · simp [hn]
  · simp [hn]

/-- One opcode of the first external loop keeps the layout of the stubs and the coverage of
the log, the allocation order growing by at most the opcode's key. -/
theorem ext_scan_step_inv (d : Decls) (name : String) (rel : rel_entry) (t : rel_track)
    (s : ImportState) (alloc : List (String × Nat))
    (hl : stubs_laid_out t.m_next_seg_offset s alloc) (hc : log_covered d t alloc) :
    ∃ alloc2, stubs_laid_out t.m_next_seg_offset (ext_scan_step d name rel t s).2 alloc2 ∧
      log_covered d (ext_scan_step d name rel t s).1 alloc2 := by
  obtain ⟨hnd, hD, hstub, hpairs⟩ := hl
  -- the log after the step, whatever happened to the stubs
  have hlog : ∀ alloc2 : List (String × Nat), (∀ p ∈ alloc, p ∈ alloc2) →
      (is_effect d rel → (name, import_key d t name rel) ∈ alloc2) →
      log_covered d (ext_scan_step d name rel t s).1 alloc2 := by
    intro alloc2 hsub hnew n ops hmem e he heff
    have hk : import_key d (ext_scan_step d name rel t s).1 n e = import_key d t n e :=
      import_key_congr d t _ rfl n e
    rw [hk]
    have hmem2 : (n, ops) ∈ omap_assign t.m_imports name
        ((omap_find t.m_imports name).getD [] ++ [rel]) := hmem
    rcases mem_omap_assign _ _ _ _ hmem2 with h | h
    · exact hsub _ (hc n ops h e he heff)
    · simp only [Prod.mk.injEq] at h
      obtain ⟨hn, hops⟩ := h
      subst hn
      rw [hops] at he
      rcases List.mem_append.1 he with h1 | h1
      · cases hm : omap_find t.m_imports n with
        | none => rw [hm] at h1; simp at h1
        | some old =>
          rw [hm] at h1
          exact hsub _ (hc n old (omap_find_mem _ _ _ hm) e h1 heff)
      · rw [List.mem_singleton] at h1
        rw [h1]
        exact hnew (h1 ▸ heff)
  by_cases heff : is_effect d rel
  · have heff2 : rel.type ≠ d.R_DOLPHIN_SECTION ∧ rel.type ≠ d.R_DOLPHIN_NOP := heff
    cases hfind : omap_find ((omap_find s.imports_map name).getD [])
        (import_key d t name rel) with
    | some v =>
      -- the key has a stub already
      have hs2 : (ext_scan_step d name rel t s).2
          = ⟨s.desired_import_size, omap_assign s.imports_map name
              ((omap_find s.imports_map name).getD []), s.imports_module_starts⟩ := by
        simp only [ext_scan_step, heff2, ne_eq, not_false_eq_true, and_self, if_true, hfind]
      have hin : (name, import_key d t name rel) ∈ alloc := by
        have := hstub name (import_key d t name rel)
        unfold stub_of at this
        rw [hfind] at this
        by_contra hc2
        simp [hc2] at this
      refine ⟨alloc, ⟨hnd, ?_, ?_, ?_⟩, hlog alloc (fun p hp => hp) (fun _ => hin)⟩
      · rw [hs2]; exact hD
      · intro n k
        rw [hs2, stub_of_assign s name _ _ _ _ rfl n k, ← hstub n k]
        by_cases hn : n = name
        · simp [hn, stub_of]
        · simp [hn]
      · intro p hp
        obtain ⟨n, k⟩ := p
        rw [hs2] at hp
        rcases key_pairs_assign s name _ (import_key d t name rel) _ rfl
            (fun q hq => Or.inl hq) n k ((mem_key_pairs _ n k).1 hp) with h | h
        · exact hpairs _ h
        · rw [h]; exact hin
    | none =>
      -- a new stub is allocated
      have hs2 : (ext_scan_step d name rel t s).2
          = ⟨(s.desired_import_size + 4) % 2 ^ 32, omap_assign s.imports_map name
              (omap_assign ((omap_find s.imports_map name).getD [])
                (import_key d t name rel)
                ((t.m_next_seg_offset + s.desired_import_size) % 2 ^ 32)),
              omap_insert s.imports_module_starts name
                ((t.m_next_seg_offset + s.desired_import_size) % 2 ^ 32)⟩ := by
        simp only [ext_scan_step, heff2, ne_eq, not_false_eq_true, and_self, if_true, hfind]
      have hnot : (name, import_key d t name rel) ∉ alloc := by
        have := hstub name (import_key d t name rel)
        unfold stub_of at this
        rw [hfind] at this
        intro hc2
        simp [hc2] at this
      refine ⟨alloc ++ [(name, import_key d t name rel)], ⟨?_, ?_, ?_, ?_⟩,
        hlog _ (fun p hp => List.mem_append_left _ hp)
          (fun _ => List.mem_append_right _ (List.mem_singleton_self _))⟩
      · exact List.Nodup.append hnd (List.nodup_singleton _)
          (by
            intro p hp hp2
            rw [List.mem_singleton] at hp2
            exact hnot (hp2 ▸ hp))
      · rw [hs2]
        simp only [List.length_append, List.length_singleton]
        rw [hD]
        omega
      · intro n k
        rw [hs2, stub_of_assign s name _ _ _ _ rfl n k]
        by_cases hnk : (n, k) = (name, import_key d t name rel)
        · simp only [Prod.mk.injEq] at hnk
          obtain ⟨hn, hk⟩ := hnk
          subst hn; subst hk
          simp only [if_true, omap_find_assign_gen, List.mem_append, List.mem_singleton,
            or_true]
          rw [alloc_index_append_of_not_mem _ _ _ hnot, hD]
          simp only [alloc_index, if_true]
          congr 1
          omega
        · have hmemiff : (n, k) ∈ alloc ++ [(name, import_key d t name rel)]
              ↔ (n, k) ∈ alloc := by
            simp [hnk]
          have hold := hstub n k
          by_cases hn : n = name
          · subst hn
            have hk : ¬ k = import_key d t n rel := fun hk => hnk (by rw [hk])
            simp only [if_true, omap_find_assign_gen, hk, if_false]
            have : omap_find ((omap_find s.imports_map n).getD []) k = stub_of s n k := rfl
            rw [this, hold]
            by_cases hin : (n, k) ∈ alloc
            · simp only [hin, if_true, hmemiff.2 hin, alloc_index_append_of_mem _ _ _ hin]
            · have hin2 : ¬ (n, k) ∈ alloc ++ [(n, import_key d t n rel)] :=
                fun h => hin (hmemiff.1 h)
              simp only [hin, hin2, if_false]
          · simp only [hn, if_false]
            rw [hold]
            by_cases hin : (n, k) ∈ alloc
            · simp only [hin, if_true, hmemiff.2 hin, alloc_index_append_of_mem _ _ _ hin]
            · have hin2 : ¬ (n, k) ∈ alloc ++ [(name, import_key d t name rel)] :=
                fun h => hin (hmemiff.1 h)
              simp only [hin, hin2, if_false]
      · intro p hp
        obtain ⟨n, k⟩ := p
        rw [hs2] at hp
        rcases key_pairs_assign s name _ (import_key d t name rel) _ rfl
            (fun q hq => by
              rcases mem_omap_assign _ _ _ _ hq with h | h
              · exact Or.inl h
              · exact Or.inr (by rw [h]))
            n k ((mem_key_pairs _ n k).1 hp) with h | h
        · exact List.mem_append_left _ (hpairs _ h)
        · rw [h]; exact List.mem_append_right _ (List.mem_singleton_self _)
  · have heff2 : ¬ (rel.type ≠ d.R_DOLPHIN_SECTION ∧ rel.type ≠ d.R_DOLPHIN_NOP) := heff
    have hs2 : (ext_scan_step d name rel t s).2 = s := by
      simp only [ext_scan_step, heff2, if_false]
    refine ⟨alloc, ?_, hlog alloc (fun p hp => hp) (fun h => absurd h heff)⟩
    rw [hs2]
    exact ⟨hnd, hD, hstub, hpairs⟩


theorem ext_ops_inv (d : Decls) (name : String) :
    ∀ (ops : List rel_entry) (t : rel_track) (s : ImportState) (alloc : List (String × Nat)),
      stubs_laid_out t.m_next_seg_offset s alloc → log_covered d t alloc →
      ∃ alloc2, stubs_laid_out t.m_next_seg_offset (ext_ops d name ops t s).2 alloc2 ∧
        log_covered d (ext_ops d name ops t s).1 alloc2 := by
  intro ops
  induction ops with
  | nil => intro t s alloc hl hc; exact ⟨alloc, hl, hc⟩
  | cons r ops ih =>
    intro t s alloc hl hc
    obtain ⟨a1, hl1, hc1⟩ := ext_scan_step_inv d name r t s alloc hl hc
    simp only [ext_ops]
    exact ih (ext_scan_step d name r t s).1 (ext_scan_step d name r t s).2 a1 hl1 hc1

/-- The first pass keeps the layout of the stubs and the coverage of the log. -/
theorem import_loop_inv (d : Decls) (h : Host) :
    ∀ (todo i : Nat) (t : rel_track) (s : ImportState) (ev : List Event)
      (alloc : List (String × Nat)),
      stubs_laid_out t.m_next_seg_offset s alloc → log_covered d t alloc →
      ∃ alloc2,
        stubs_laid_out t.m_next_seg_offset (import_loop d h todo i t s ev).2.2.1 alloc2 ∧
        log_covered d (import_loop d h todo i t s ev).2.1 alloc2 := by
  intro todo
  induction todo with
  | zero => intro i t s ev alloc hl hc; exact ⟨alloc, hl, hc⟩
  | succ n ih =>
    intro i t s ev alloc hl hc
    rw [import_loop]
    cases hq : qlread t.m_input_file (t.m_import_offset + i * sizeof_import_entry)
        sizeof_import_entry with
    | none => exact ⟨alloc, hl, hc⟩
    | some raw =>
      simp only []
      by_cases hid : (decode_import_entry raw).id = t.m_id
      · simp only [hid, if_true]
        cases hsc : self_chain d h t (t.m_input_file.drop (decode_import_entry raw).offset)
            0 0 ev with
        | mk ok ev1 =>
          cases ok with
          | false => exact ⟨alloc, hl, hc⟩
          | true => exact ih (i + 1) t s ev1 alloc hl hc
      · simp only [hid, if_false]
        rw [ext_scan_eq_ops d _ _ _ (Nat.le_refl _)]
        obtain ⟨a1, hl1, hc1⟩ := ext_ops_inv d (module_name_of d t (decode_import_entry raw).id)
          (read_chain d (t.m_input_file.drop (decode_import_entry raw).offset)).2 t s alloc
          hl hc
        have hfr := ext_ops_frame d (module_name_of d t (decode_import_entry raw).id)
          (read_chain d (t.m_input_file.drop (decode_import_entry raw).offset)).2 t s
        have hnext : (ext_ops d (module_name_of d t (decode_import_entry raw).id)
            (read_chain d (t.m_input_file.drop (decode_import_entry raw).offset)).2 t
            s).1.m_next_seg_offset = t.m_next_seg_offset := by rw [hfr]
        cases hrc : (read_chain d (t.m_input_file.drop (decode_import_entry raw).offset)).1 with
        | false => exact ⟨a1, hl1, hc1⟩
        | true =>
          simp only []
          rw [← hnext] at hl1 ⊢
          exact ih (i + 1) _ _ ev a1 hl1 hc1

theorem stubs_laid_out_empty (base : Nat) : stubs_laid_out base ⟨0, [], []⟩ [] := by
  refine ⟨List.nodup_nil, rfl, fun name key => ?_, fun p hp => ?_⟩
  · simp [stub_of, omap_find]
  · simp [key_pairs] at hp

/-- The number of distinct keys of a map whose stubs are laid out in the order `alloc`. -/
theorem distinct_keys_eq (base : Nat) (s : ImportState) (alloc : List (String × Nat))
    (hl : stubs_laid_out base s alloc) : distinct_keys s = alloc.length := by
  obtain ⟨hnd, -, hstub, hpairs⟩ := hl
  unfold distinct_keys
  apply List.Perm.length_eq
  rw [List.perm_ext_iff_of_nodup (List.nodup_dedup _) hnd]
  intro p
  rw [List.mem_dedup]
  constructor
  · exact hpairs p
  · intro hp
    obtain ⟨n, k⟩ := p
    have := hstub n k
    rw [if_pos hp] at this
    exact stub_of_mem_key_pairs s n k _ this


/-- The second external loop does not stop at an opcode whose stub, when it needs one, is
recorded and nonzero. -/
theorem ext_reloc_ne_none (d : Decls) (h : Host) (t : rel_track) (s : ImportState)
    (name : String) (e : rel_entry) (cs co : Nat) (ev : List Event)
    (hstub : is_effect d e →
      ∃ v, stub_of s name (import_key d t name e) = some v ∧ v ≠ 0) :
    ext_reloc d h t s name e cs co ev ≠ none := by
  unfold ext_reloc
  by_cases heff : e.type ≠ d.R_DOLPHIN_SECTION ∧ e.type ≠ d.R_DOLPHIN_NOP
  · obtain ⟨v, hv, hv0⟩ := hstub heff
    unfold stub_of at hv
    simp only [heff, ne_eq, not_false_eq_true, and_self, if_true, hv, Option.getD_some, hv0,
      and_false, if_false]
    split_ifs <;> simp
  · simp only [heff, false_and, if_false]
    split_ifs <;> simp

theorem ext_replay_ok (d : Decls) (h : Host) (t : rel_track) (s : ImportState)
    (name : String) :
    ∀ (ops : List rel_entry) (cs co : Nat) (ev : List Event),
      (∀ e ∈ ops, is_effect d e →
        ∃ v, stub_of s name (import_key d t name e) = some v ∧ v ≠ 0) →
      (ext_replay d h t s name ops cs co ev).1 = true := by
  intro ops
  induction ops with
  | nil => intro cs co ev _; rfl
  | cons e ops ih =>
    intro cs co ev hall
    rw [ext_replay]
    have hne := ext_reloc_ne_none d h t s name e cs co ev
      (hall e (List.mem_cons_self _ _))
    cases hr : ext_reloc d h t s name e cs co ev with
    | none => exact absurd hr hne
    | some r =>
      obtain ⟨cs1, co1, ev1⟩ := r
      simp only []
      exact ih cs1 co1 ev1 (fun x hx => hall x (List.mem_cons_of_mem _ hx))

theorem log_covered_empty (d : Decls) (t : rel_track) (hlog : t.m_imports = []) :
    log_covered d t [] := by
  intro name ops hmem
  rw [hlog] at hmem
  simp at hmem

/-- C19. The descriptor loop is run from an empty opcode log and an empty key-to-slot map
and leaves the object `t1` and the map `s`; the base of the import region
(`m_next_seg_offset`, which the loop does not change) is nonzero and the region of 4 bytes
per distinct key does not pass 2^32. Then the size the loop computed is 4 times the number
of distinct keys, and in the second pass, run on any object `t3` with the sibling tables of
`t1`: for every logged opcode that is neither section-marker nor no-op, the key recomputed
from (module name, addend, section) is in the map with a nonzero stub address inside
[base, base + 4 * number of distinct keys), so `ext_reloc` never takes the "Import was not
mapped correctly" exit, and the replay of every module's log runs to its end. -/
theorem pass2_imports_mapped (d : Decls) (h : Host) (t : rel_track) (count : Nat) (ok : Bool)
    (t1 : rel_track) (s : ImportState) (ev : List Event)
    (hlog : t.m_imports = [])
    (hrun : import_loop d h count 0 t ⟨0, [], []⟩ [] = (ok, t1, s, ev))
    (hbase : t.m_next_seg_offset ≠ 0)
    (hfit : t.m_next_seg_offset + 4 * distinct_keys s ≤ 2 ^ 32) :
    s.desired_import_size = 4 * distinct_keys s ∧
    ∀ t3 : rel_track, t3.m_external_modules = t1.m_external_modules →
      ∀ name ops, (name, ops) ∈ t1.m_imports →
        (∀ e ∈ ops, is_effect d e →
          ∃ v, stub_of s name (import_key d t3 name e) = some v ∧ v ≠ 0 ∧
            t.m_next_seg_offset ≤ v ∧ v < t.m_next_seg_offset + 4 * distinct_keys s ∧
            ∀ cs co ev2, ext_reloc d h t3 s name e cs co ev2 ≠ none) ∧
        ∀ cs co ev2, (ext_replay d h t3 s name ops cs co ev2).1 = true := by
  obtain ⟨alloc, hl, hc⟩ := import_loop_inv d h count 0 t ⟨0, [], []⟩ [] []
    (stubs_laid_out_empty _) (log_covered_empty d t hlog)
  rw [hrun] at hl hc
  simp only at hl hc
  have hn := distinct_keys_eq _ s alloc hl
  obtain ⟨hnd, hD, hstub, hpairs⟩ := hl
  rw [hn] at hfit ⊢
  have hstubs : ∀ t3 : rel_track, t3.m_external_modules = t1.m_external_modules →
      ∀ name ops, (name, ops) ∈ t1.m_imports → ∀ e ∈ ops, is_effect d e →
        ∃ v, stub_of s name (import_key d t3 name e) = some v ∧ v ≠ 0 ∧
          t.m_next_seg_offset ≤ v ∧ v < t.m_next_seg_offset + 4 * alloc.length := by
    intro t3 ht3 name ops hmem e he heff
    rw [import_key_congr d t1 t3 ht3]
    have hin := hc name ops hmem e he heff
    have hidx := alloc_index_lt _ _ hin
    refine ⟨_, by rw [hstub, if_pos hin], ?_, ?_, ?_⟩
    · rw [Nat.mod_eq_of_lt (by omega)]; omega
    · rw [Nat.mod_eq_of_lt (by omega)]; omega
    · rw [Nat.mod_eq_of_lt (by omega)]; omega
  refine ⟨by rw [hD, Nat.mod_eq_of_lt (by omega)], ?_⟩
  intro t3 ht3 name ops hmem
  refine ⟨fun e he heff => ?_, fun cs co ev2 => ?_⟩
  · obtain ⟨v, hv, hv0, hlo, hhi⟩ := hstubs t3 ht3 name ops hmem e he heff
    exact ⟨v, hv, hv0, hlo, hhi, fun cs co ev2 =>
      ext_reloc_ne_none d h t3 s name e cs co ev2 (fun _ => ⟨v, hv, hv0⟩)⟩
  · apply ext_replay_ok
    intro e he heff
    obtain ⟨v, hv, hv0, -, -⟩ := hstubs t3 ht3 name ops hmem e he heff
    exact ⟨v, hv, hv0⟩

theorem import_key_unknown (d : Decls) (t : rel_track) (name : String) (e : rel_entry)
    (hm : omap_find t.m_external_modules name = none) :
    import_key d t name e = (e.addend + 0x1000000 * e.sect) % 2 ^ 32 := by
  simp [import_key, get_external_offset, hm]

theorem import_key_same (d : Decls) (t : rel_track) (name : String) (e1 e2 : rel_entry)
    (ha : e1.addend = e2.addend) (hs : e1.sect = e2.sect) :
    import_key d t name e1 = import_key d t name e2 := by
  unfold import_key
  rw [ha, hs]

/-- C12 (amended). The descriptor loop is run from an empty opcode log and an empty
key-to-slot map, and the import region of 4 bytes per distinct key does not pass 2^32. Then
any two logged opcodes that are neither section-marker nor no-op have a stub each; the two
stubs are equal exactly when the module names are equal and the keys are equal, and in
particular opcodes with identical (module name, addend, section) share their stub. The key
of an opcode of a module without sibling table is `(addend + 0x1000000 * section) mod 2^32`,
so in such a module two opcodes with addends below 0x1000000 and sections below 256 that
differ in addend or section have different keys. -/
theorem stub_sharing (d : Decls) (h : Host) (t : rel_track) (count : Nat) (ok : Bool)
    (t1 : rel_track) (s : ImportState) (ev : List Event)
    (hlog : t.m_imports = [])
    (hrun : import_loop d h count 0 t ⟨0, [], []⟩ [] = (ok, t1, s, ev))
    (hfit : t.m_next_seg_offset + 4 * distinct_keys s ≤ 2 ^ 32) :
    (∀ n1 ops1 e1 n2 ops2 e2, (n1, ops1) ∈ t1.m_imports → e1 ∈ ops1 → is_effect d e1 →
      (n2, ops2) ∈ t1.m_imports → e2 ∈ ops2 → is_effect d e2 →
      ∃ v1 v2, stub_of s n1 (import_key d t1 n1 e1) = some v1 ∧
        stub_of s n2 (import_key d t1 n2 e2) = some v2 ∧
        (n1 = n2 ∧ e1.addend = e2.addend ∧ e1.sect = e2.sect → v1 = v2) ∧
        (v1 = v2 ↔ n1 = n2 ∧ import_key d t1 n1 e1 = import_key d t1 n2 e2)) ∧
    (∀ n e, omap_find t1.m_external_modules n = none →
      import_key d t1 n e = (e.addend + 0x1000000 * e.sect) % 2 ^ 32) ∧
    (∀ n e1 e2, omap_find t1.m_external_modules n = none →
      e1.addend < 0x1000000 → e2.addend < 0x1000000 → e1.sect < 256 → e2.sect < 256 →
      e1.addend ≠ e2.addend ∨ e1.sect ≠ e2.sect →
      import_key d t1 n e1 ≠ import_key d t1 n e2) := by
  obtain ⟨alloc, hl, hc⟩ := import_loop_inv d h count 0 t ⟨0, [], []⟩ [] []
    (stubs_laid_out_empty _) (log_covered_empty d t hlog)
  rw [hrun] at hl hc
  simp only at hl hc
  have hn := distinct_keys_eq _ s alloc hl
  obtain ⟨hnd, hD, hstub, hpairs⟩ := hl
  rw [hn] at hfit
  refine ⟨?_, fun n e hm => import_key_unknown d t1 n e hm, ?_⟩
  · intro n1 ops1 e1 n2 ops2 e2 hm1 he1 hf1 hm2 he2 hf2
    have hin1 := hc n1 ops1 hm1 e1 he1 hf1
    have hin2 := hc n2 ops2 hm2 e2 he2 hf2
    have hi1 := alloc_index_lt _ _ hin1
    have hi2 := alloc_index_lt _ _ hin2
    have hiff : (t.m_next_seg_offset + 4 * alloc_index (n1, import_key d t1 n1 e1) alloc) % 2 ^ 32
        = (t.m_next_seg_offset + 4 * alloc_index (n2, import_key d t1 n2 e2) alloc) % 2 ^ 32
        ↔ n1 = n2 ∧ import_key d t1 n1 e1 = import_key d t1 n2 e2 := by
      rw [Nat.mod_eq_of_lt (by omega), Nat.mod_eq_of_lt (by omega)]
      constructor
      · intro hv
        have hp := alloc_index_inj _ _ alloc hin1 hin2 (by omega)
        exact ⟨congrArg Prod.fst hp, congrArg Prod.snd hp⟩
      · rintro ⟨hn12, hk⟩
        subst hn12
        rw [hk]
    refine ⟨_, _, by rw [hstub, if_pos hin1], by rw [hstub, if_pos hin2], ?_, hiff⟩
    rintro ⟨hn12, ha, hs⟩
    apply hiff.mpr
    subst hn12
    exact ⟨rfl, import_key_same d t1 n1 e1 e2 ha hs⟩
  · intro n e1 e2 hm ha1 ha2 hs1 hs2 hne
    rw [import_key_unknown d t1 n e1 hm, import_key_unknown d t1 n e2 hm]
    omega

/-- Witness of C19: the descriptor loop on the module `file_ext_scenario`. -/
theorem pass2_imports_mapped_witness :
    ext_scenario_state.m_imports = [] ∧
    ext_scenario_state.m_next_seg_offset ≠ 0 ∧
    ext_scenario_state.m_next_seg_offset + 4 * distinct_keys ext_scenario_pass1.2.2.1
      ≤ 2 ^ 32 ∧
    (ext_scenario_pass1.2.2.1.desired_import_size = 4 * distinct_keys ext_scenario_pass1.2.2.1 ∧
    ∀ t3 : rel_track, t3.m_external_modules = ext_scenario_pass1.2.1.m_external_modules →
      ∀ name ops, (name, ops) ∈ ext_scenario_pass1.2.1.m_imports →
        (∀ e ∈ ops, is_effect stdDecls e →
          ∃ v, stub_of ext_scenario_pass1.2.2.1 name (import_key stdDecls t3 name e) = some v ∧
            v ≠ 0 ∧ ext_scenario_state.m_next_seg_offset ≤ v ∧
            v < ext_scenario_state.m_next_seg_offset
              + 4 * distinct_keys ext_scenario_pass1.2.2.1 ∧
            ∀ cs co ev2,
              ext_reloc stdDecls okHost t3 ext_scenario_pass1.2.2.1 name e cs co ev2 ≠ none) ∧
        ∀ cs co ev2,
          (ext_replay stdDecls okHost t3 ext_scenario_pass1.2.2.1 name ops cs co ev2).1
            = true) :=
  ⟨by decide, by decide, by decide,
    pass2_imports_mapped stdDecls okHost ext_scenario_state 1 ext_scenario_pass1.1
      ext_scenario_pass1.2.1 ext_scenario_pass1.2.2.1 ext_scenario_pass1.2.2.2
      (by decide) rfl (by decide) (by decide)⟩

/-- Witness of C12 (amended): the descriptor loop on the module `file_key_collision`. -/
theorem stub_sharing_witness :
    collision_state.m_imports = [] ∧
    collision_state.m_next_seg_offset + 4 * distinct_keys collision_pass1.2.2.1 ≤ 2 ^ 32 ∧
    ((∀ n1 ops1 e1 n2 ops2 e2, (n1, ops1) ∈ collision_pass1.2.1.m_imports → e1 ∈ ops1 →
      is_effect stdDecls e1 →
      (n2, ops2) ∈ collision_pass1.2.1.m_imports → e2 ∈ ops2 → is_effect stdDecls e2 →
      ∃ v1 v2, stub_of collision_pass1.2.2.1 n1
          (import_key stdDecls collision_pass1.2.1 n1 e1) = some v1 ∧
        stub_of collision_pass1.2.2.1 n2
          (import_key stdDecls collision_pass1.2.1 n2 e2) = some v2 ∧
        (n1 = n2 ∧ e1.addend = e2.addend ∧ e1.sect = e2.sect → v1 = v2) ∧
        (v1 = v2 ↔ n1 = n2 ∧ import_key stdDecls collision_pass1.2.1 n1 e1
          = import_key stdDecls collision_pass1.2.1 n2 e2)) ∧
    (∀ n e, omap_find collision_pass1.2.1.m_external_modules n = none →
      import_key stdDecls collision_pass1.2.1 n e
        = (e.addend + 0x1000000 * e.sect) % 2 ^ 32) ∧
    (∀ n e1 e2, omap_find collision_pass1.2.1.m_external_modules n = none →
      e1.addend < 0x1000000 → e2.addend < 0x1000000 → e1.sect < 256 → e2.sect < 256 →
      e1.addend ≠ e2.addend ∨ e1.sect ≠ e2.sect →
      import_key stdDecls collision_pass1.2.1 n e1
        ≠ import_key stdDecls collision_pass1.2.1 n e2)) :=
  ⟨by decide, by decide,
    stub_sharing stdDecls okHost collision_state 1 collision_pass1.1
      collision_pass1.2.1 collision_pass1.2.2.1 collision_pass1.2.2.2
      (by decide) rfl (by decide)⟩

/-- Counterexample to C12 as stated. On `okHost` (no sibling known) the chain of
`file_key_collision` for module id 7 has the opcodes (addend 0x1000000, section 0) and
(addend 0, section 1): both have the key 0x1000000, the import region is the 4 bytes at
0x80500070 and both source locations are patched with 0x80500070. On `siblingHost`, where
id 7 is the sibling "sibling" with sections at file offsets 0x100 and 0x140, the chain of
`file_sibling_collision` has the opcodes (addend 0x40, section 0) and (addend 0,
section 1): both resolve to 0x140 and again share the one stub 0x80500070. -/
theorem distinct_tuples_share_stub :
    (apply_patches stdDecls okHost (rel_track.new stdDecls file_key_collision)).1 = true ∧
    (apply_patches stdDecls okHost (rel_track.new stdDecls file_key_collision)).2.1.m_imports
      = [("module7", [⟨202, 0, 0, 0⟩, ⟨1, 0, 4, 0x1000000⟩, ⟨1, 1, 8, 0⟩])] ∧
    (apply_patches stdDecls okHost
      (rel_track.new stdDecls file_key_collision)).2.1.m_next_seg_offset = 0x80500074 ∧
    (apply_patches stdDecls okHost (rel_track.new stdDecls file_key_collision)).2.2
      = [Event.patch_dword 0x80500004 0x80500070, Event.put_dword 0x80500070 0x1000000,
         Event.patch_dword 0x8050000C 0x80500070, Event.put_dword 0x80500070 0] ∧
    (apply_patches stdDecls siblingHost
      (rel_track.new stdDecls file_sibling_collision)).1 = true ∧
    (apply_patches stdDecls siblingHost
      (rel_track.new stdDecls file_sibling_collision)).2.1.m_imports
      = [("sibling", [⟨202, 0, 0, 0⟩, ⟨1, 0, 4, 0x40⟩, ⟨1, 1, 8, 0⟩])] ∧
    (apply_patches stdDecls siblingHost
      (rel_track.new stdDecls file_sibling_collision)).2.1.m_next_seg_offset = 0x80500074 ∧
    (apply_patches stdDecls siblingHost (rel_track.new stdDecls file_sibling_collision)).2.2
      = [Event.patch_dword 0x80500004 0x80500070, Event.put_dword 0x80500070 0x40,
         Event.patch_dword 0x8050000C 0x80500070, Event.put_dword 0x80500070 0] := by
  decide

theorem ext_reloc_marker (d : Decls) (h : Host) (t : rel_track) (s : ImportState)
    (modulename : String) (e : rel_entry) (cs co : Nat) (ev : List Event)
    (hty : e.type = d.R_DOLPHIN_SECTION) :
    ext_reloc d h t s modulename e cs co ev = some (e.sect, 0, ev) := by
  unfold ext_reloc
  simp only [hty, ne_eq, not_true_eq_false, false_and, if_false, if_true]

theorem ext_reloc_addr32 (d : Decls) (hd : d.kinds_distinct) (h : Host) (t : rel_track)
    (s : ImportState) (modulename : String) (e : rel_entry) (cs co : Nat) (ev : List Event)
    (a : Nat) (hty : e.type = d.R_PPC_ADDR32)
    (hstub : stub_of s modulename (import_key d t modulename e) = some a) (ha : a ≠ 0) :
    ext_reloc d h t s modulename e cs co ev
      = some (cs, (co + e.offset) % 2 ^ 32,
          ev ++ [Event.patch_dword (section_address t cs ((co + e.offset) % 2 ^ 32)) a,
            Event.put_dword a e.addend]) := by
  obtain ⟨-, ⟨-, b2, -⟩, ⟨c1, -⟩, -⟩ := kinds_all_ne d hd
  unfold stub_of at hstub
  unfold ext_reloc
  simp only [hty, b2.symm, c1.symm, hstub, Option.getD_some, ha, ne_eq,
    not_false_eq_true, and_self, and_false, if_false, if_true]

/-- The first external loop on the opcodes section-marker, `e1`, `e2`, where `e1` and `e2`
are effect-producing with the same addend and section, from an empty log and map: one key,
one stub at the running address. -/
theorem ext_ops_two_same (d : Decls) (name : String) (t : rel_track) (mk e1 e2 : rel_entry)
    (hmk : mk.type = d.R_DOLPHIN_SECTION) (h1 : is_effect d e1) (h2 : is_effect d e2)
    (ha : e1.addend = e2.addend) (hs : e1.sect = e2.sect)
    (hlog : t.m_imports = []) (hB : t.m_next_seg_offset < 2 ^ 32) :
    ext_ops d name [mk, e1, e2] t ⟨0, [], []⟩
      = ({ t with m_imports := [(name, [mk, e1, e2])] },
          ⟨4, [(name, [(import_key d t name e1, t.m_next_seg_offset)])],
            [(name, t.m_next_seg_offset)]⟩) := by
  have k2 : import_key d t name e2 = import_key d t name e1 :=
    (import_key_same d t name e1 e2 ha hs).symm
  unfold is_effect at h1 h2
  have c1 : ∀ l, import_key d { t with m_imports := l } name e1 = import_key d t name e1 :=
    fun l => import_key_congr d _ _ rfl name e1
  have c2 : ∀ l, import_key d { t with m_imports := l } name e2 = import_key d t name e1 :=
    fun l => (import_key_congr d _ _ rfl name e2).trans k2
  simp only [ext_ops, ext_scan_step, hmk, hlog, h1, h2, c1, c2, ne_eq, not_true_eq_false,
    false_and, if_false, not_false_eq_true, and_self, if_true, omap_find, omap_assign,
    omap_insert, Option.getD_none, Option.getD_some, List.nil_append, Nat.add_zero,
    Nat.mod_eq_of_lt hB]
  simp [omap_find, omap_assign, omap_insert]


/-- C17, the code at the failing input. The chain of `file_ext_rel24` for module id 7 has
one effect-producing opcode, 24-bit-relative with addend 0x20. Its stub is 0x80500070, the
base of the import region. The second pass makes one write, the patched branch word at the
source location 0x80500004 (displacement 0x6C); nothing is written to the stub, so the
cell there does not hold the addend 0x20. -/
theorem external_rel24_no_stub_write :
    (apply_patches stdDecls okHost (rel_track.new stdDecls file_ext_rel24)).1 = true ∧
    (apply_patches stdDecls okHost (rel_track.new stdDecls file_ext_rel24)).2.1.m_imports
      = [("module7", [⟨202, 0, 0, 0⟩, ⟨10, 2, 4, 0x20⟩])] ∧
    omap_find (apply_patches stdDecls okHost
      (rel_track.new stdDecls file_ext_rel24)).2.1.m_segment_address_map
        stdDecls.SECTION_IMPORTS = some 0x80500070 ∧
    (apply_patches stdDecls okHost (rel_track.new stdDecls file_ext_rel24)).2.2
      = [Event.patch_dword 0x80500004 0x6C] := by
  decide

theorem omap_find_insert_ne {κ α : Type} [DecidableEq κ] [LT κ]
    [DecidableRel (fun a b : κ => a < b)] (m : List (κ × α)) (k : κ) (v : α) (k2 : κ)
    (hne : k2 ≠ k) : omap_find (omap_insert m k v) k2 = omap_find m k2 := by
  unfold omap_insert
  cases hf : omap_find m k with
  | some x => rfl
  | none =>
    simp only []
    rw [omap_find_assign_gen, if_neg hne]

/-- One opcode of the first external loop records no import start for `name` when it is an
opcode of another module name or is not effect-producing. -/
theorem ext_scan_step_no_start (d : Decls) (name2 : String) (rel : rel_entry)
    (t : rel_track) (s : ImportState) (name : String)
    (hrel : name2 = name → ¬ is_effect d rel)
    (hs : omap_find s.imports_module_starts name = none) :
    omap_find (ext_scan_step d name2 rel t s).2.imports_module_starts name = none := by
  unfold ext_scan_step
  simp only []
  by_cases heff : rel.type ≠ d.R_DOLPHIN_SECTION ∧ rel.type ≠ d.R_DOLPHIN_NOP
  · have hne : name ≠ name2 := fun e => hrel e.symm heff
    rw [if_pos heff]
    cases hf : omap_find ((omap_find s.imports_map name2).getD [])
        (import_key d t name2 rel) with
    | some x => exact hs
    | none =>
      simp only []
      rw [omap_find_insert_ne _ _ _ _ hne]
      exact hs
  · rw [if_neg heff]
    exact hs

/-- One opcode of the first external loop leaves a log for `name` when it is an opcode of
that name or when there was a log before. -/
theorem ext_scan_step_log (d : Decls) (name2 : String) (rel : rel_entry)
    (t : rel_track) (s : ImportState) (name : String)
    (hl : name2 = name ∨ omap_find t.m_imports name ≠ none) :
    omap_find (ext_scan_step d name2 rel t s).1.m_imports name ≠ none := by
  unfold ext_scan_step
  simp only []
  rw [omap_find_assign_gen]
  by_cases hn : name = name2
  · rw [if_pos hn]; simp
  · rw [if_neg hn]
    rcases hl with hl | hl
    · exact absurd hl.symm hn
    · exact hl

theorem ext_ops_no_start (d : Decls) (name2 name : String) :
    ∀ (ops : List rel_entry) (t : rel_track) (s : ImportState),
      (name2 = name → ∀ r ∈ ops, ¬ is_effect d r) →
      omap_find s.imports_module_starts name = none →
      omap_find (ext_ops d name2 ops t s).2.imports_module_starts name = none := by
  intro ops
  induction ops with
  | nil => intro t s _ hs; exact hs
  | cons r ops ih =>
    intro t s hops hs
    rw [ext_ops]
    have h1 := ext_scan_step_no_start d name2 r t s name
      (fun e => hops e r (List.mem_cons_self _ _)) hs
    cases hst : ext_scan_step d name2 r t s with
    | mk t1 s1 =>
      rw [hst] at h1
      simp only []
      exact ih t1 s1 (fun e x hx => hops e x (List.mem_cons_of_mem _ hx)) h1

theorem ext_ops_log (d : Decls) (name2 name : String) :
    ∀ (ops : List rel_entry) (t : rel_track) (s : ImportState),
      (name2 = name ∧ ops ≠ []) ∨ omap_find t.m_imports name ≠ none →
      omap_find (ext_ops d name2 ops t s).1.m_imports name ≠ none := by
  intro ops
  induction ops with
  | nil =>
    intro t s hl
    rcases hl with ⟨-, hl⟩ | hl
    · exact absurd rfl hl
    · exact hl
  | cons r ops ih =>
    intro t s hl
    rw [ext_ops]
    have h1 := ext_scan_step_log d name2 r t s name
      (by
        rcases hl with ⟨hl, -⟩ | hl
        · exact Or.inl hl
        · exact Or.inr hl)
    cases hst : ext_scan_step d name2 r t s with
    | mk t1 s1 =>
      rw [hst] at h1
      simp only []
      exact ih t1 s1 (Or.inr h1)


theorem ext_ops_fields (d : Decls) (name : String) (ops : List rel_entry) (t : rel_track)
    (s : ImportState) :
    (ext_ops d name ops t s).1.m_input_file = t.m_input_file ∧
    (ext_ops d name ops t s).1.m_import_offset = t.m_import_offset ∧
    (ext_ops d name ops t s).1.m_id = t.m_id ∧
    (ext_ops d name ops t s).1.m_module_names = t.m_module_names := by
  rw [ext_ops_frame]
  exact ⟨rfl, rfl, rfl, rfl⟩

theorem import_descriptor_congr (t t1 : rel_track)
    (h1 : t1.m_input_file = t.m_input_file) (h2 : t1.m_import_offset = t.m_import_offset)
    (k : Nat) : import_descriptor t1 k = import_descriptor t k := by
  unfold import_descriptor
  rw [h1, h2]

theorem chain_ops_congr (d : Decls) (t t1 : rel_track)
    (h1 : t1.m_input_file = t.m_input_file) (off : Nat) :
    chain_ops d t1 off = chain_ops d t off := by
  unfold chain_ops
  rw [h1]

theorem module_name_of_congr (d : Decls) (t t1 : rel_track)
    (h4 : t1.m_module_names = t.m_module_names) (id : Nat) :
    module_name_of d t1 id = module_name_of d t id := by
  unfold module_name_of
  rw [h4]

/-- The descriptor loop records no import start for a module name none of whose chains has
an effect-producing opcode. -/
theorem import_loop_no_start (d : Decls) (h : Host) (name : String) :
    ∀ (todo i : Nat) (t : rel_track) (s : ImportState) (ev : List Event),
      (∀ k e, i ≤ k → k < i + todo → import_descriptor t k = some e → e.id ≠ t.m_id →
        module_name_of d t e.id = name → ∀ r ∈ chain_ops d t e.offset, ¬ is_effect d r) →
      omap_find s.imports_module_starts name = none →
      omap_find (import_loop d h todo i t s ev).2.2.1.imports_module_starts name = none := by
  intro todo
  induction todo with
  | zero => intro i t s ev _ hs; exact hs
  | succ n ih =>
    intro i t s ev hall hs
    rw [import_loop]
    cases hq : qlread t.m_input_file (t.m_import_offset + i * sizeof_import_entry)
        sizeof_import_entry with
    | none => exact hs
    | some raw =>
      simp only []
      have hdi : import_descriptor t i = some (decode_import_entry raw) := by
        unfold import_descriptor
        rw [hq]
        rfl
      by_cases hid : (decode_import_entry raw).id = t.m_id
      · simp only [hid, if_true]
        cases hsc : self_chain d h t (t.m_input_file.drop (decode_import_entry raw).offset)
            0 0 ev with
        | mk ok ev1 =>
          cases ok with
          | false => exact hs
          | true =>
            exact ih (i + 1) t s ev1
              (fun k e h1 h2 => hall k e (by omega) (by omega)) hs
      · simp only [hid, if_false]
        rw [ext_scan_eq_ops d _ _ _ (Nat.le_refl _)]
        obtain ⟨g1, g2, g3, g4⟩ := ext_ops_fields d
          (module_name_of d t (decode_import_entry raw).id)
          (read_chain d (t.m_input_file.drop (decode_import_entry raw).offset)).2 t s
        have hst := ext_ops_no_start d (module_name_of d t (decode_import_entry raw).id) name
          (read_chain d (t.m_input_file.drop (decode_import_entry raw).offset)).2 t s
          (fun hn => hall i (decode_import_entry raw) (Nat.le_refl _) (by omega) hdi hid hn)
          hs
        cases hrc : (read_chain d (t.m_input_file.drop (decode_import_entry raw).offset)).1 with
        | false =>
          simp only []
          exact hst
        | true =>
          simp only []
          apply ih
          · intro k e h1 h2 hd2 hid2 hn2
            rw [import_descriptor_congr t _ g1 g2] at hd2
            rw [g3] at hid2
            rw [module_name_of_congr d t _ g4] at hn2
            rw [chain_ops_congr d t _ g1]
            exact hall k e (by omega) (by omega) hd2 hid2 hn2
          · exact hst

/-- The descriptor loop keeps the log of a module name that has one. -/
theorem import_loop_log (d : Decls) (h : Host) (name : String) :
    ∀ (todo i : Nat) (t : rel_track) (s : ImportState) (ev : List Event),
      omap_find t.m_imports name ≠ none →
      omap_find (import_loop d h todo i t s ev).2.1.m_imports name ≠ none := by
  intro todo
  induction todo with
  | zero => intro i t s ev hl; exact hl
  | succ n ih =>
    intro i t s ev hl
    rw [import_loop]
    cases hq : qlread t.m_input_file (t.m_import_offset + i * sizeof_import_entry)
        sizeof_import_entry with
    | none => exact hl
    | some raw =>
      simp only []
      by_cases hid : (decode_import_entry raw).id = t.m_id
      · simp only [hid, if_true]
        cases hsc : self_chain d h t (t.m_input_file.drop (decode_import_entry raw).offset)
            0 0 ev with
        | mk ok ev1 =>
          cases ok with
          | false => exact hl
          | true => exact ih (i + 1) t s ev1 hl
      · simp only [hid, if_false]
        rw [ext_scan_eq_ops d _ _ _ (Nat.le_refl _)]
        have hlg := ext_ops_log d (module_name_of d t (decode_import_entry raw).id) name
          (read_chain d (t.m_input_file.drop (decode_import_entry raw).offset)).2 t s
          (Or.inr hl)
        cases hrc : (read_chain d (t.m_input_file.drop (decode_import_entry raw).offset)).1 with
        | false =>
          simp only []
          exact hlg
        | true =>
          simp only []
          exact ih _ _ _ _ hlg

/-- A descriptor loop that succeeds leaves a log for the module name of every descriptor of
another module whose chain has an opcode before the end opcode. -/
theorem import_loop_logged (d : Decls) (h : Host) (name : String) (j : Nat)
    (e : import_entry) :
    ∀ (todo i : Nat) (t : rel_track) (s : ImportState) (ev : List Event),
      i ≤ j → j < i + todo → import_descriptor t j = some e → e.id ≠ t.m_id →
      module_name_of d t e.id = name → chain_ops d t e.offset ≠ [] →
      (import_loop d h todo i t s ev).1 = true →
      omap_find (import_loop d h todo i t s ev).2.1.m_imports name ≠ none := by
  intro todo
  induction todo with
  | zero => intro i t s ev h1 h2; omega
  | succ n ih =>
    intro i t s ev h1 h2 hde hide hname hops
    rw [import_loop]
    cases hq : qlread t.m_input_file (t.m_import_offset + i * sizeof_import_entry)
        sizeof_import_entry with
    | none => intro hok; simp at hok
    | some raw =>
      simp only []
      have hdi : import_descriptor t i = some (decode_import_entry raw) := by
        unfold import_descriptor
        rw [hq]
        rfl
      by_cases hid : (decode_import_entry raw).id = t.m_id
      · simp only [hid, if_true]
        have hij : i ≠ j := by
          intro hij
          rw [hij, hde] at hdi
          have : e = decode_import_entry raw := Option.some.inj hdi
          rw [this] at hide
          exact hide hid
        cases hsc : self_chain d h t (t.m_input_file.drop (decode_import_entry raw).offset)
            0 0 ev with
        | mk ok ev1 =>
          cases ok with
          | false => intro hok; simp at hok
          | true =>
            exact ih (i + 1) t s ev1 (by omega) (by omega) hde hide hname hops
      · simp only [hid, if_false]
        rw [ext_scan_eq_ops d _ _ _ (Nat.le_refl _)]
        obtain ⟨g1, g2, g3, g4⟩ := ext_ops_fields d
          (module_name_of d t (decode_import_entry raw).id)
          (read_chain d (t.m_input_file.drop (decode_import_entry raw).offset)).2 t s
        cases hrc : (read_chain d (t.m_input_file.drop (decode_import_entry raw).offset)).1 with
        | false => intro hok; simp at hok
        | true =>
          simp only []
          by_cases hij : i = j
          · intro _
            apply import_loop_log
            apply ext_ops_log
            left
            rw [hij, hde] at hdi
            have he : e = decode_import_entry raw := Option.some.inj hdi
            rw [← he]
            exact ⟨hname, hops⟩
          · apply ih _ _ _ _ (by omega) (by omega)
            · rw [import_descriptor_congr t _ g1 g2]; exact hde
            · rw [g3]; exact hide
            · rw [module_name_of_congr d t _ g4]; exact hname
            · rw [chain_ops_congr d t _ g1]; exact hops

/-- The second pass fails when a logged module name has no recorded import start. -/
theorem ext_pass2_no_start (d : Decls) (h : Host) (t : rel_track) (s : ImportState)
    (name : String) (hs : omap_find s.imports_module_starts name = none) :
    ∀ (l : List (String × List rel_entry)) (ev : List Event),
      omap_find l name ≠ none → (ext_pass2 d h t s l ev).1 = false := by
  intro l
  induction l with
  | nil => intro ev hl; simp [omap_find] at hl
  | cons p rest ih =>
    obtain ⟨n, ops⟩ := p
    intro ev hl
    rw [ext_pass2]
    by_cases h0 : (omap_find s.imports_module_starts n).getD 0 = 0
    · simp only [h0, if_true]
    · simp only [h0, if_false]
      have hn : ¬ n = name := by
        intro hn
        rw [hn, hs] at h0
        exact h0 rfl
      simp only [omap_find, hn, if_false] at hl
      cases hr : ext_replay d h t s n ops 0 0 ev with
      | mk ok ev1 =>
        cases ok with
        | false => rfl
        | true => exact ih ev1 hl


theorem init_resolvers_fields (d : Decls) (h : Host) (t : rel_track) :
    (init_resolvers d h t).m_import_offset = t.m_import_offset ∧
    (init_resolvers d h t).m_import_size = t.m_import_size ∧
    (init_resolvers d h t).m_input_file = t.m_input_file ∧
    (init_resolvers d h t).m_id = t.m_id ∧
    (init_resolvers d h t).m_imports = t.m_imports ∧
    (init_resolvers d h t).m_segment_address_map = t.m_segment_address_map ∧
    (init_resolvers d h t).m_next_seg_offset = t.m_next_seg_offset := by
  rw [init_resolvers_frame]
  exact ⟨rfl, rfl, rfl, rfl, rfl, rfl, rfl⟩

/-- The relocation engine fails on an object whose import table has a descriptor of another
module with an opcode in its chain, when no chain for that module name has an
effect-producing opcode; when the descriptor loop succeeds, the failure is that of the
second pass at the missing import start. -/
theorem apply_relocations_no_start (d : Decls) (h : Host) (t : rel_track) (j : Nat)
    (e : import_entry)
    (himp : 0 < t.m_import_offset) (hj : j < t.m_import_size / sizeof_import_entry)
    (hde : import_descriptor t j = some e) (hid : e.id ≠ t.m_id)
    (hops : chain_ops d t e.offset ≠ [])
    (hnone : no_effect_for d (init_resolvers d h t) (t.m_import_size / sizeof_import_entry)
      (module_name_of d (init_resolvers d h t) e.id)) :
    (apply_relocations d h t).1 = false ∧
    ((import_loop d h (t.m_import_size / sizeof_import_entry) 0 (init_resolvers d h t)
        ⟨0, [], []⟩ []).1 = true →
      omap_find (import_loop d h (t.m_import_size / sizeof_import_entry) 0
        (init_resolvers d h t) ⟨0, [], []⟩ []).2.1.m_imports
          (module_name_of d (init_resolvers d h t) e.id) ≠ none ∧
      omap_find (import_loop d h (t.m_import_size / sizeof_import_entry) 0
        (init_resolvers d h t) ⟨0, [], []⟩ []).2.2.1.imports_module_starts
          (module_name_of d (init_resolvers d h t) e.id) = none ∧
      ∀ (t3 : rel_track) (ev : List Event),
        t3.m_imports = (import_loop d h (t.m_import_size / sizeof_import_entry) 0
          (init_resolvers d h t) ⟨0, [], []⟩ []).2.1.m_imports →
        (ext_pass2 d h t3 (import_loop d h (t.m_import_size / sizeof_import_entry) 0
          (init_resolvers d h t) ⟨0, [], []⟩ []).2.2.1 t3.m_imports ev).1 = false) := by
  obtain ⟨f1, f2, f3, f4, -, -, -⟩ := init_resolvers_fields d h t
  have hstart := import_loop_no_start d h (module_name_of d (init_resolvers d h t) e.id)
    (t.m_import_size / sizeof_import_entry) 0 (init_resolvers d h t) ⟨0, [], []⟩ []
    (fun k e2 _ h2 hd2 hid2 hn2 => hnone k e2 (by omega) hd2 hid2 hn2) rfl
  have hlog := import_loop_logged d h (module_name_of d (init_resolvers d h t) e.id) j e
    (t.m_import_size / sizeof_import_entry) 0 (init_resolvers d h t) ⟨0, [], []⟩ []
    (Nat.zero_le _) (by omega)
    (by rw [import_descriptor_congr t _ f3 f1]; exact hde) (by rw [f4]; exact hid) rfl
    (by rw [chain_ops_congr d t _ f3]; exact hops)
  have hp2 : (import_loop d h (t.m_import_size / sizeof_import_entry) 0
      (init_resolvers d h t) ⟨0, [], []⟩ []).1 = true →
      ∀ (t3 : rel_track) (ev : List Event),
        t3.m_imports = (import_loop d h (t.m_import_size / sizeof_import_entry) 0
          (init_resolvers d h t) ⟨0, [], []⟩ []).2.1.m_imports →
        (ext_pass2 d h t3 (import_loop d h (t.m_import_size / sizeof_import_entry) 0
          (init_resolvers d h t) ⟨0, [], []⟩ []).2.2.1 t3.m_imports ev).1 = false := by
    intro hok t3 ev ht3
    apply ext_pass2_no_start d h t3 _ _ hstart
    rw [ht3]
    exact hlog hok
  refine ⟨?_, fun hok => ⟨hlog hok, hstart, hp2 hok⟩⟩
  unfold apply_relocations
  simp only [f1, f2, himp, if_true]
  cases hl : import_loop d h (t.m_import_size / sizeof_import_entry) 0
      (init_resolvers d h t) ⟨0, [], []⟩ [] with
  | mk ok rest =>
    obtain ⟨t1, s, ev⟩ := rest
    rw [hl] at hp2
    simp only at hp2
    cases ok with
    | false => rfl
    | true =>
      simp only []
      by_cases hseg : h.add_segm t1.m_next_seg_offset
          ((t1.m_next_seg_offset + s.desired_import_size) % 2 ^ 32) = true
      · simp only [hseg, Bool.not_true, Bool.false_eq_true, if_false]
        exact hp2 rfl _ ev rfl
      · simp only [hseg, Bool.not_false, if_true]

/-- A chain that is the end opcode alone leaves the first external loop at once: nothing is
logged and nothing is recorded. -/
theorem ext_scan_end_only (d : Decls) (name : String) (bytes : List Nat) (t : rel_track)
    (s : ImportState) (hchain : read_chain d bytes = (true, [])) :
    ext_scan d name bytes t s = (true, t, s) := by
  rw [ext_scan_eq_ops d name _ bytes (Nat.le_refl _), hchain]
  rfl

/-- The relocation engine on a module whose import table holds one descriptor, that of
another module, with a chain that is the end opcode alone: it succeeds without a write. -/
theorem apply_relocations_end_only (d : Decls) (h : Host) (t : rel_track)
    (mid chain_off : Nat)
    (hseg : ∀ a b, h.add_segm a b = true)
    (hlog : t.m_imports = [])
    (himp : 0 < t.m_import_offset) (hcount : t.m_import_size / sizeof_import_entry = 1)
    (hid : mid ≠ t.m_id)
    (hentry : import_descriptor t 0 = some ⟨mid, chain_off⟩)
    (hchain : read_chain d (t.m_input_file.drop chain_off) = (true, [])) :
    (apply_relocations d h t).1 = true ∧ (apply_relocations d h t).2.2 = [] ∧
    (apply_relocations d h t).2.1.m_imports = [] := by
  obtain ⟨raw, hraw, hdec⟩ : ∃ raw, qlread t.m_input_file t.m_import_offset
      sizeof_import_entry = some raw ∧ decode_import_entry raw = ⟨mid, chain_off⟩ := by
    unfold import_descriptor at hentry
    simp only [Nat.zero_mul, Nat.add_zero] at hentry
    cases hq : qlread t.m_input_file t.m_import_offset sizeof_import_entry with
    | none => rw [hq] at hentry; simp at hentry
    | some raw => rw [hq] at hentry; exact ⟨raw, rfl, by simpa using hentry⟩
  obtain ⟨f1, f2, f3, f4, f5, f6, f7⟩ := init_resolvers_fields d h t
  have hidn : ¬ mid = t.m_id := hid
  have hloop : import_loop d h 1 0 (init_resolvers d h t) ⟨0, [], []⟩ []
      = (true, init_resolvers d h t, ⟨0, [], []⟩, []) := by
    simp only [import_loop, Nat.zero_mul, Nat.add_zero, f1, f3, f4, hraw, hdec, hidn,
      if_false, ext_scan_end_only d _ _ _ _ hchain]
  unfold apply_relocations
  simp only [f1, f2, himp, if_true, hcount, hloop, hseg, Bool.not_true, Bool.false_eq_true,
    if_false, f5, hlog, ext_pass2]
  exact ⟨trivial, trivial, trivial⟩

/-- The one descriptor of `file_marker_only` has a chain without effect-producing
opcode. -/
theorem marker_only_no_effect :
    no_effect_for stdDecls (init_resolvers stdDecls okHost marker_only_state)
      (marker_only_state.m_import_size / sizeof_import_entry)
      (module_name_of stdDecls (init_resolvers stdDecls okHost marker_only_state)
        (import_entry.mk 7 0x168).id) := by
  intro k e hk hd _ _ r hr
  have hc : marker_only_state.m_import_size / sizeof_import_entry = 1 := by decide
  rw [hc] at hk
  have hk0 : k = 0 := by omega
  subst hk0
  have h0 : import_descriptor (init_resolvers stdDecls okHost marker_only_state) 0
      = some ⟨7, 0x168⟩ := by decide
  rw [h0] at hd
  have he : e = ⟨7, 0x168⟩ := (Option.some.inj hd).symm
  subst he
  have hch : chain_ops stdDecls (init_resolvers stdDecls okHost marker_only_state) 0x168
      = [⟨202, 0, 0, 0⟩] := by decide
  rw [hch] at hr
  have hr2 : r = ⟨202, 0, 0, 0⟩ := List.mem_singleton.1 hr
  subst hr2
  decide

/-- C21. The relocation engine can fail although every read succeeds and every key is
mapped. An object has an import table (`m_import_offset > 0`) with a readable descriptor
`j`, within the descriptor count, of another module; the chain of that descriptor has at
least one opcode before its end, and no chain of the table under that module name has an
effect-producing opcode (`no_effect_for`), so the opcodes of these chains are
section-markers and no-ops. Then `apply_relocations` returns failure; and when the
descriptor loop has succeeded, the module name has a logged opcode list but no recorded
start of its imports, and the second pass fails for it ("Failed to locate start of
module imports"). Conversely a chain that is the end opcode alone leaves the first
external loop with nothing logged and nothing recorded, and on a module whose import table
is one such descriptor of another module, with an empty log and a host whose segment
service succeeds, `apply_relocations` succeeds without a write. -/
theorem markers_only_module_fails (d : Decls) (h : Host) :
    (∀ (t : rel_track) (j : Nat) (e : import_entry),
      0 < t.m_import_offset → j < t.m_import_size / sizeof_import_entry →
      import_descriptor t j = some e → e.id ≠ t.m_id →
      chain_ops d t e.offset ≠ [] →
      no_effect_for d (init_resolvers d h t) (t.m_import_size / sizeof_import_entry)
        (module_name_of d (init_resolvers d h t) e.id) →
      (apply_relocations d h t).1 = false ∧
      ((import_loop d h (t.m_import_size / sizeof_import_entry) 0 (init_resolvers d h t)
          ⟨0, [], []⟩ []).1 = true →
        omap_find (import_loop d h (t.m_import_size / sizeof_import_entry) 0
          (init_resolvers d h t) ⟨0, [], []⟩ []).2.1.m_imports
            (module_name_of d (init_resolvers d h t) e.id) ≠ none ∧
        omap_find (import_loop d h (t.m_import_size / sizeof_import_entry) 0
          (init_resolvers d h t) ⟨0, [], []⟩ []).2.2.1.imports_module_starts
            (module_name_of d (init_resolvers d h t) e.id) = none ∧
        ∀ (t3 : rel_track) (ev : List Event),
          t3.m_imports = (import_loop d h (t.m_import_size / sizeof_import_entry) 0
            (init_resolvers d h t) ⟨0, [], []⟩ []).2.1.m_imports →
          (ext_pass2 d h t3 (import_loop d h (t.m_import_size / sizeof_import_entry) 0
            (init_resolvers d h t) ⟨0, [], []⟩ []).2.2.1 t3.m_imports ev).1 = false)) ∧
    (∀ (name : String) (bytes : List Nat) (t : rel_track) (s : ImportState),
      read_chain d bytes = (true, []) → ext_scan d name bytes t s = (true, t, s)) ∧
    (∀ (t : rel_track) (mid chain_off : Nat),
      (∀ a b, h.add_segm a b = true) → t.m_imports = [] → 0 < t.m_import_offset →
      t.m_import_size / sizeof_import_entry = 1 → mid ≠ t.m_id →
      import_descriptor t 0 = some ⟨mid, chain_off⟩ →
      read_chain d (t.m_input_file.drop chain_off) = (true, []) →
      (apply_relocations d h t).1 = true ∧ (apply_relocations d h t).2.2 = [] ∧
      (apply_relocations d h t).2.1.m_imports = []) :=
  ⟨fun t j e himp hj hde hid hops hnone =>
      apply_relocations_no_start d h t j e himp hj hde hid hops hnone,
    fun name bytes t s hchain => ext_scan_end_only d name bytes t s hchain,
    fun t mid chain_off hseg hlog himp hcount hid hentry hchain =>
      apply_relocations_end_only d h t mid chain_off hseg hlog himp hcount hid hentry hchain⟩

/-- Witness of C21: the modules `file_marker_only` and `file_end_only` on `okHost`. The
first is good, its sections are created and its descriptor loop succeeds, so no read is
truncated; `apply_relocations` fails on it. On the second `apply_relocations` succeeds. -/
theorem markers_only_module_fails_witness :
    is_good (rel_track.new stdDecls file_marker_only) = true ∧
    (create_sections stdDecls okHost (rel_track.new stdDecls file_marker_only)).1 = true ∧
    (import_loop stdDecls okHost (marker_only_state.m_import_size / sizeof_import_entry) 0
      (init_resolvers stdDecls okHost marker_only_state) ⟨0, [], []⟩ []).1 = true ∧
    chain_ops stdDecls marker_only_state 0x168 = [⟨202, 0, 0, 0⟩] ∧
    (apply_relocations stdDecls okHost marker_only_state).1 = false ∧
    chain_ops stdDecls end_only_state 0x168 = [] ∧
    (apply_relocations stdDecls okHost end_only_state).1 = true ∧
    (apply_relocations stdDecls okHost end_only_state).2.2 = [] :=
  ⟨by decide, by decide, by decide, by decide,
    ((markers_only_module_fails stdDecls okHost).1 marker_only_state 0 ⟨7, 0x168⟩
      (by decide) (by decide) (by decide) (by decide) (by decide) marker_only_no_effect).1,
    by decide,
    ((markers_only_module_fails stdDecls okHost).2.2 end_only_state 7 0x168
      (fun _ _ => rfl) (by decide) (by decide) (by decide) (by decide) (by decide)
      (by decide)).1,
    ((markers_only_module_fails stdDecls okHost).2.2 end_only_state 7 0x168
      (fun _ _ => rfl) (by decide) (by decide) (by decide) (by decide) (by decide)
      (by decide)).2.1⟩

/-- One iteration of the loop of `create_sections` that does not make it fail: either the
entry is skipped, or its segment was created and the loop goes on at the end of the
segment, with the uninitialized-section index set when the flag-stripped offset is 0. -/
theorem create_sections_loop_step (h : Host) (e : section_entry) (rest : List section_entry)
    (i : Nat) (t : rel_track)
    (hok : (create_sections_loop h (e :: rest) i t).1 = true) :
    ((e.file_offset = 0 ∧ e.size = 0) ∧
      create_sections_loop h (e :: rest) i t = create_sections_loop h rest (i + 1) t) ∨
    (¬ (e.file_offset = 0 ∧ e.size = 0) ∧
      h.add_segm t.m_next_seg_offset ((t.m_next_seg_offset + e.size) % 2 ^ 32) = true ∧
      ∃ t1, create_sections_loop h (e :: rest) i t = create_sections_loop h rest (i + 1) t1 ∧
        t1.m_next_seg_offset = (t.m_next_seg_offset + e.size) % 2 ^ 32 ∧
        t1.m_internal_bss_section
          = (if SECTION_OFF e.file_offset = 0 then i else t.m_internal_bss_section)) := by
  rw [create_sections_loop] at hok ⊢
  by_cases hu : e.file_offset = 0 ∧ e.size = 0
  · left
    simp only [hu, and_self, if_true]
  · right
    refine ⟨hu, ?_⟩
    simp only [hu, if_false] at hok ⊢
    cases ha : h.add_segm t.m_next_seg_offset ((t.m_next_seg_offset + e.size) % 2 ^ 32) with
    | false =>
      by_cases hf : SECTION_OFF e.file_offset = 0
      · simp only [hf, ne_eq, not_true_eq_false, if_false, ha, Bool.not_false, if_true] at hok
        exact absurd hok (by simp)
      · simp only [hf, ne_eq, not_false_eq_true, if_true, ha, Bool.not_false] at hok
        exact absurd hok (by simp)
    | true =>
      refine ⟨rfl, ?_⟩
      by_cases hf : SECTION_OFF e.file_offset = 0
      · simp only [hf, ne_eq, not_true_eq_false, if_false, ha, Bool.not_true,
          Bool.false_eq_true, if_true]
        exact ⟨_, rfl, rfl, rfl⟩
      · simp only [hf, ne_eq, not_false_eq_true, if_true, ha, Bool.not_true,
          Bool.false_eq_true, if_false] at hok ⊢
        cases hb : h.file2base (SECTION_OFF e.file_offset) t.m_next_seg_offset
            ((t.m_next_seg_offset + e.size) % 2 ^ 32) with
        | false =>
          simp only [hb, Bool.not_false, if_true] at hok
          exact absurd hok (by simp)
        | true =>
          simp only [Bool.not_true, Bool.false_eq_true, if_false]
          exact ⟨_, rfl, rfl, rfl⟩


/-- On a host that refuses a range whose end lies below its start, a successful loop of
`create_sections` never passes 2^32: the running address plus the sizes still to be mapped
stays below 2^32. -/
theorem create_sections_loop_fit (h : Host) (hhost : ∀ a b, h.add_segm a b = true → a ≤ b) :
    ∀ (rest : List section_entry) (i : Nat) (t : rel_track),
      t.m_next_seg_offset < 2 ^ 32 → (∀ e ∈ rest, e.size < 2 ^ 32) →
      (create_sections_loop h rest i t).1 = true →
      t.m_next_seg_offset + mapped_size rest < 2 ^ 32 := by
  intro rest
  induction rest with
  | nil => intro i t hlt _ _; rw [mapped_size_nil]; exact hlt
  | cons e rest ih =>
    intro i t hlt hsz hok
    have hrest : ∀ x ∈ rest, x.size < 2 ^ 32 := fun x hx => hsz x (List.mem_cons_of_mem _ hx)
    have he : e.size < 2 ^ 32 := hsz e (List.mem_cons_self _ _)
    rw [mapped_size_cons]
    rcases create_sections_loop_step h e rest i t hok with ⟨hu, heq⟩ | ⟨-, ha, t1, heq, hn, -⟩
    · rw [heq] at hok
      have := ih (i + 1) t hlt hrest hok
      rw [hu.2]
      omega
    · rw [heq] at hok
      have hle := hhost _ _ ha
      have hnw : t.m_next_seg_offset + e.size < 2 ^ 32 := by omega
      have := ih (i + 1) t1 (by rw [hn]; exact Nat.mod_lt _ (by norm_num)) hrest hok
      rw [hn, Nat.mod_eq_of_lt hnw] at this
      omega

/-- On a host that refuses an empty range, a successful loop of `create_sections` over
entries none of which is an uninitialized section (flag-stripped offset 0, size above 0)
leaves the recorded index as it was. -/
theorem create_sections_loop_bss_kept (h : Host)
    (hhost : ∀ a b, h.add_segm a b = true → a < b) :
    ∀ (rest : List section_entry) (i : Nat) (t : rel_track),
      t.m_next_seg_offset < 2 ^ 32 →
      (∀ e ∈ rest, SECTION_OFF e.file_offset = 0 → e.size = 0) →
      (create_sections_loop h rest i t).1 = true →
      (create_sections_loop h rest i t).2.m_internal_bss_section
        = t.m_internal_bss_section := by
  intro rest
  induction rest with
  | nil => intro i t _ _ _; rfl
  | cons e rest ih =>
    intro i t hlt hno hok
    have hrest : ∀ x ∈ rest, SECTION_OFF x.file_offset = 0 → x.size = 0 :=
      fun x hx => hno x (List.mem_cons_of_mem _ hx)
    rcases create_sections_loop_step h e rest i t hok with ⟨-, heq⟩ | ⟨-, ha, t1, heq, hn, hb⟩
    · rw [heq] at hok ⊢
      exact ih (i + 1) t hlt hrest hok
    · rw [heq] at hok ⊢
      have hlt1 : t1.m_next_seg_offset < 2 ^ 32 := by
        rw [hn]; exact Nat.mod_lt _ (by norm_num)
      rw [ih (i + 1) t1 hlt1 hrest hok, hb]
      by_cases hf : SECTION_OFF e.file_offset = 0
      · have hz := hno e (List.mem_cons_self _ _) hf
        have hlt2 := hhost _ _ ha
        rw [hz, Nat.add_zero, Nat.mod_eq_of_lt hlt] at hlt2
        exact absurd hlt2 (Nat.lt_irrefl _)
      · rw [if_neg hf]

/-- On a host that refuses an empty range, a successful loop of `create_sections` over
entries of which exactly the one with index `k` is an uninitialized section records `k`. -/
theorem create_sections_loop_bss (h : Host)
    (hhost : ∀ a b, h.add_segm a b = true → a < b) (k : Nat) :
    ∀ (rest : List section_entry) (i : Nat) (t : rel_track),
      t.m_next_seg_offset < 2 ^ 32 →
      (∃ (j : Nat) (e : section_entry),
        rest[j]? = some e ∧ SECTION_OFF e.file_offset = 0 ∧ 0 < e.size) →
      (∀ (j : Nat) (e : section_entry),
        rest[j]? = some e → SECTION_OFF e.file_offset = 0 → 0 < e.size → i + j = k) →
      (create_sections_loop h rest i t).1 = true →
      (create_sections_loop h rest i t).2.m_internal_bss_section = k := by
  intro rest
  induction rest with
  | nil =>
    intro i t _ hex _ _
    obtain ⟨j, e, hj, -⟩ := hex
    exact absurd hj (by simp)
  | cons e rest ih =>
    intro i t hlt hex honly hok
    have honly1 : ∀ (j : Nat) (x : section_entry), rest[j]? = some x →
        SECTION_OFF x.file_offset = 0 → 0 < x.size → i + 1 + j = k := by
      intro j x hj ho hs
      have := honly (j + 1) x (by simpa using hj) ho hs
      omega
    by_cases hb : SECTION_OFF e.file_offset = 0 ∧ 0 < e.size
    · -- the entry is the uninitialized section
      have hik : i = k := by
        have := honly 0 e (by simp) hb.1 hb.2
        omega
      have hnone : ∀ x ∈ rest, SECTION_OFF x.file_offset = 0 → x.size = 0 := by
        intro x hx ho
        by_contra hs
        obtain ⟨j, hjl, hj⟩ := List.getElem_of_mem hx
        have hj2 : rest[j]? = some x := by
          rw [List.getElem?_eq_getElem hjl, hj]
        have := honly1 j x hj2 ho (by omega)
        omega
      rcases create_sections_loop_step h e rest i t hok with ⟨hu, -⟩ | ⟨-, -, t1, heq, hn, hbs⟩
      · have := hb.2
        rw [hu.2] at this
        exact absurd this (Nat.lt_irrefl _)
      · rw [heq] at hok ⊢
        have hlt1 : t1.m_next_seg_offset < 2 ^ 32 := by
          rw [hn]; exact Nat.mod_lt _ (by norm_num)
        rw [create_sections_loop_bss_kept h hhost rest (i + 1) t1 hlt1 hnone hok, hbs,
          if_pos hb.1, hik]
    · -- the uninitialized section comes later
      have hex1 : ∃ (j : Nat) (x : section_entry),
          rest[j]? = some x ∧ SECTION_OFF x.file_offset = 0 ∧ 0 < x.size := by
        obtain ⟨j, x, hj, ho, hs⟩ := hex
        cases j with
        | zero =>
          simp only [List.getElem?_cons_zero, Option.some.injEq] at hj
          subst hj
          exact absurd ⟨ho, hs⟩ hb
        | succ j =>
          exact ⟨j, x, by simpa using hj, ho, hs⟩
      rcases create_sections_loop_step h e rest i t hok with ⟨-, heq⟩ | ⟨-, -, t1, heq, hn, -⟩
      · rw [heq] at hok ⊢
        exact ih (i + 1) t hlt hex1 honly1 hok
      · rw [heq] at hok ⊢
        have hlt1 : t1.m_next_seg_offset < 2 ^ 32 := by
          rw [hn]; exact Nat.mod_lt _ (by norm_num)
        exact ih (i + 1) t1 hlt1 hex1 honly1 hok


/-- The sections of `file_scenario` have exactly one uninitialized section, the one with
index 2. -/
theorem scenario_one_bss (j : Nat) (ej : section_entry)
    (hj : (rel_track.new stdDecls file_scenario).m_sections[j]? = some ej)
    (ho : SECTION_OFF ej.file_offset = 0) (_hs : 0 < ej.size) : j = 2 := by
  have hsec : (rel_track.new stdDecls file_scenario).m_sections
      = [⟨0x101, 0x40⟩, ⟨0x140, 0x20⟩, ⟨0, 0x10⟩] := by decide
  rw [hsec] at hj
  match j, hj with
  | 0, hj =>
    simp only [List.getElem?_cons_zero, Option.some.injEq] at hj
    subst hj
    exact absurd ho (by decide)
  | 1, hj =>
    simp only [List.getElem?_cons_succ, List.getElem?_cons_zero, Option.some.injEq] at hj
    subst hj
    exact absurd ho (by decide)
  | 2, _ => rfl
  | n + 3, hj => simp at hj

/-- C7. A host creates a segment only for a range whose end is not below its start, `START`
is a 32-bit address and the section sizes are 32-bit values, as every parsed size is. After
`create_sections` succeeds on an object whose address table was empty: section `i` has an
entry iff entry `i` is not unused; the base of such a section is `START` plus the sum of the
sizes of the non-unused sections of smaller index, as an exact sum; the next mapped section
starts at the previous base plus the previous size; the bases are non-decreasing in the
section index; and `START` plus the total mapped size stays below 2^32. -/
theorem create_sections_bases (d : Decls) (h : Host) (t : rel_track)
    (hS : d.START < 2 ^ 32)
    (hsz : ∀ e ∈ t.m_sections, e.size < 2 ^ 32)
    (hhost : ∀ a b, h.add_segm a b = true → a ≤ b)
    (hmap : t.m_segment_address_map = [])
    (hok : (create_sections d h t).1 = true) :
    (∀ i, (∃ b, omap_find (create_sections d h t).2.m_segment_address_map i = some b) ↔
      ∃ e, t.m_sections[i]? = some e ∧ is_unused e = false) ∧
    (∀ i e, t.m_sections[i]? = some e → is_unused e = false →
      omap_find (create_sections d h t).2.m_segment_address_map i
        = some (d.START + mapped_size (t.m_sections.take i))) ∧
    (∀ i j ei ej bi, i < j → t.m_sections[i]? = some ei → is_unused ei = false →
      t.m_sections[j]? = some ej → is_unused ej = false →
      (∀ k ek, i < k → k < j → t.m_sections[k]? = some ek → is_unused ek = true) →
      omap_find (create_sections d h t).2.m_segment_address_map i = some bi →
      omap_find (create_sections d h t).2.m_segment_address_map j = some (bi + ei.size)) ∧
    (∀ i j bi bj, i ≤ j →
      omap_find (create_sections d h t).2.m_segment_address_map i = some bi →
      omap_find (create_sections d h t).2.m_segment_address_map j = some bj →
      bi ≤ bj) ∧
    d.START + mapped_size t.m_sections < 2 ^ 32 := by
  have hfit : d.START + mapped_size t.m_sections < 2 ^ 32 := by
    have := create_sections_loop_fit h hhost t.m_sections 0
      { t with m_next_seg_offset := d.START % 2 ^ 32 } (Nat.mod_lt _ (by norm_num)) hsz hok
    rw [show ({ t with m_next_seg_offset := d.START % 2 ^ 32 } : rel_track).m_next_seg_offset
      = d.START % 2 ^ 32 from rfl, Nat.mod_eq_of_lt hS] at this
    exact this
  obtain ⟨m1, -, m3, m4⟩ := create_sections_bases_mod d h t hmap hok
  obtain ⟨hex, hmono⟩ := m4 hfit
  refine ⟨m1, hex, ?_, hmono, hfit⟩
  intro i j ei ej bi hij hi hui hj huj hgap hbi
  rw [m3 i j ei ej bi hij hi hui hj huj hgap hbi]
  rw [hex i ei hi hui, Option.some.injEq] at hbi
  have h1 := mapped_size_take_adjacent t.m_sections i j ei hij hi hgap
  have h2 := mapped_size_take_le_all t.m_sections j
  rw [Nat.mod_eq_of_lt (by omega)]

/-- Witness of C7: the module `file_scenario` on `strictHost`; its three mapped sections
lie at `START`, `START + 0x40` and `START + 0x60`. -/
theorem create_sections_bases_witness :
    (rel_track.new stdDecls file_scenario).m_sections
      = [⟨0x101, 0x40⟩, ⟨0x140, 0x20⟩, ⟨0, 0x10⟩] ∧
    (create_sections stdDecls strictHost (rel_track.new stdDecls file_scenario)).1 = true ∧
    omap_find (create_sections stdDecls strictHost
      (rel_track.new stdDecls file_scenario)).2.m_segment_address_map 0
        = some (stdDecls.START
          + mapped_size ((rel_track.new stdDecls file_scenario).m_sections.take 0)) ∧
    omap_find (create_sections stdDecls strictHost
      (rel_track.new stdDecls file_scenario)).2.m_segment_address_map 1
        = some (stdDecls.START
          + mapped_size ((rel_track.new stdDecls file_scenario).m_sections.take 1)) ∧
    omap_find (create_sections stdDecls strictHost
      (rel_track.new stdDecls file_scenario)).2.m_segment_address_map 2
        = some (stdDecls.START
          + mapped_size ((rel_track.new stdDecls file_scenario).m_sections.take 2)) ∧
    stdDecls.START + mapped_size ((rel_track.new stdDecls file_scenario).m_sections.take 1)
      = 0x80500040 ∧
    stdDecls.START + mapped_size ((rel_track.new stdDecls file_scenario).m_sections.take 2)
      = 0x80500060 ∧
    stdDecls.START + mapped_size (rel_track.new stdDecls file_scenario).m_sections < 2 ^ 32 :=
  ⟨by decide, by decide,
    (create_sections_bases stdDecls strictHost (rel_track.new stdDecls file_scenario)
      (by decide) (by decide) (fun _ _ hab => Nat.le_of_lt (of_decide_eq_true hab))
      (by decide) (by decide)).2.1 0 ⟨0x101, 0x40⟩ (by decide) (by decide),
    (create_sections_bases stdDecls strictHost (rel_track.new stdDecls file_scenario)
      (by decide) (by decide) (fun _ _ hab => Nat.le_of_lt (of_decide_eq_true hab))
      (by decide) (by decide)).2.1 1 ⟨0x140, 0x20⟩ (by decide) (by decide),
    (create_sections_bases stdDecls strictHost (rel_track.new stdDecls file_scenario)
      (by decide) (by decide) (fun _ _ hab => Nat.le_of_lt (of_decide_eq_true hab))
      (by decide) (by decide)).2.1 2 ⟨0, 0x10⟩ (by decide) (by decide),
    by decide, by decide,
    (create_sections_bases stdDecls strictHost (rel_track.new stdDecls file_scenario)
      (by decide) (by decide) (fun _ _ hab => Nat.le_of_lt (of_decide_eq_true hab))
      (by decide) (by decide)).2.2.2.2⟩

/-- C16. A host creates a segment only for a range whose end lies above its start. The
section list has exactly one uninitialized section (flag-stripped file offset 0, size above
0), the entry with index `k`. After `create_sections` succeeds, the recorded
uninitialized-section index `m_internal_bss_section` is `k`. -/
theorem bss_index_recorded (d : Decls) (h : Host) (t : rel_track) (k : Nat)
    (e : section_entry)
    (hhost : ∀ a b, h.add_segm a b = true → a < b)
    (hk : t.m_sections[k]? = some e)
    (hoff : SECTION_OFF e.file_offset = 0) (hsize : 0 < e.size)
    (honly : ∀ (j : Nat) (ej : section_entry), t.m_sections[j]? = some ej →
      SECTION_OFF ej.file_offset = 0 → 0 < ej.size → j = k)
    (hok : (create_sections d h t).1 = true) :
    (create_sections d h t).2.m_internal_bss_section = k := by
  unfold create_sections at hok ⊢
  exact create_sections_loop_bss h hhost k t.m_sections 0 _ (Nat.mod_lt _ (by norm_num))
    ⟨k, e, hk, hoff, hsize⟩
    (fun j ej hj ho hs => by rw [Nat.zero_add]; exact honly j ej hj ho hs) hok

/-- Witness of C16: the module `file_scenario` on `strictHost`; its uninitialized section
is entry 2. -/
theorem bss_index_recorded_witness :
    (rel_track.new stdDecls file_scenario).m_sections[2]? = some ⟨0, 0x10⟩ ∧
    (create_sections stdDecls strictHost (rel_track.new stdDecls file_scenario)).1 = true ∧
    (create_sections stdDecls strictHost
      (rel_track.new stdDecls file_scenario)).2.m_internal_bss_section = 2 :=
  ⟨by decide, by decide,
    bss_index_recorded stdDecls strictHost (rel_track.new stdDecls file_scenario) 2
      ⟨0, 0x10⟩ (fun _ _ hab => of_decide_eq_true hab) (by decide) (by decide) (by decide)
      scenario_one_bss (by decide)⟩

/-- The second external loop on an effect-producing opcode whose stub is recorded and
nonzero: the cursor takes the delta and the writes are those of `stub_patch`. -/
theorem ext_reloc_effect (d : Decls) (h : Host) (t : rel_track)
    (s : ImportState) (modulename : String) (e : rel_entry) (cs co : Nat) (ev : List Event)
    (a : Nat) (heff : is_effect d e)
    (hstub : stub_of s modulename (import_key d t modulename e) = some a) (ha : a ≠ 0) :
    ext_reloc d h t s modulename e cs co ev
      = some (cs, (co + e.offset) % 2 ^ 32,
          ev ++ stub_patch d h e.type (section_address t cs ((co + e.offset) % 2 ^ 32)) a
            e.addend) := by
  unfold is_effect at heff
  unfold stub_of at hstub
  unfold ext_reloc stub_patch
  simp only [heff, ne_eq, not_false_eq_true, and_self, if_true, hstub, Option.getD_some, ha,
    and_false, if_false]
  split_ifs <;> simp

theorem ext_replay_two_effect (d : Decls) (h : Host) (t : rel_track)
    (s : ImportState) (name : String) (mk e1 e2 : rel_entry) (a : Nat)
    (hmk : mk.type = d.R_DOLPHIN_SECTION)
    (h1 : is_effect d e1) (h2 : is_effect d e2)
    (hs1 : stub_of s name (import_key d t name e1) = some a)
    (hs2 : stub_of s name (import_key d t name e2) = some a) (ha : a ≠ 0) :
    ext_replay d h t s name [mk, e1, e2] 0 0 []
      = (true,
          stub_patch d h e1.type (section_address t mk.sect ((0 + e1.offset) % 2 ^ 32)) a
            e1.addend ++
          stub_patch d h e2.type (section_address t mk.sect
            (((0 + e1.offset) % 2 ^ 32 + e2.offset) % 2 ^ 32)) a e2.addend) := by
  simp only [ext_replay, ext_reloc_marker d h t s name mk _ _ _ hmk,
    ext_reloc_effect d h t s name e1 _ _ _ a h1 hs1 ha,
    ext_reloc_effect d h t s name e2 _ _ _ a h2 hs2 ha, List.nil_append]

/-- The relocation engine on a module whose import table holds one descriptor, that of
another module, with the chain section-marker, `e1`, `e2`, where `e1` and `e2` are
effect-producing opcodes with the same addend and section. -/
theorem apply_relocations_two_effect (d : Decls) (h : Host)
    (t : rel_track) (mid chain_off : Nat) (mk e1 e2 : rel_entry)
    (hseg : ∀ a b, h.add_segm a b = true)
    (hlog : t.m_imports = [])
    (himp : 0 < t.m_import_offset) (hcount : t.m_import_size / sizeof_import_entry = 1)
    (hid : mid ≠ t.m_id)
    (hentry : (qlread t.m_input_file t.m_import_offset sizeof_import_entry).map
      decode_import_entry = some ⟨mid, chain_off⟩)
    (hchain : read_chain d (t.m_input_file.drop chain_off) = (true, [mk, e1, e2]))
    (hmk : mk.type = d.R_DOLPHIN_SECTION)
    (g1 : is_effect d e1) (g2 : is_effect d e2)
    (ha : e1.addend = e2.addend) (hs : e1.sect = e2.sect)
    (hB : t.m_next_seg_offset < 2 ^ 32) (hB0 : t.m_next_seg_offset ≠ 0)
    (hsi : mk.sect % 256 ≠ d.SECTION_IMPORTS) :
    (apply_relocations d h t).1 = true ∧
    (apply_relocations d h t).2.1.m_segment_address_map
      = omap_assign t.m_segment_address_map d.SECTION_IMPORTS t.m_next_seg_offset ∧
    (apply_relocations d h t).2.1.m_next_seg_offset = (t.m_next_seg_offset + 4) % 2 ^ 32 ∧
    (apply_relocations d h t).2.2
      = stub_patch d h e1.type (section_address t mk.sect ((0 + e1.offset) % 2 ^ 32))
          t.m_next_seg_offset e1.addend ++
        stub_patch d h e2.type (section_address t mk.sect
          (((0 + e1.offset) % 2 ^ 32 + e2.offset) % 2 ^ 32)) t.m_next_seg_offset
          e2.addend := by
  obtain ⟨raw, hraw, hdec⟩ : ∃ raw, qlread t.m_input_file t.m_import_offset
      sizeof_import_entry = some raw ∧ decode_import_entry raw = ⟨mid, chain_off⟩ := by
    cases hq : qlread t.m_input_file t.m_import_offset sizeof_import_entry with
    | none => rw [hq] at hentry; simp at hentry
    | some raw => rw [hq] at hentry; exact ⟨raw, rfl, by simpa using hentry⟩
  have f1 : (init_resolvers d h t).m_import_offset = t.m_import_offset := by
    rw [init_resolvers_frame]
  have f2 : (init_resolvers d h t).m_import_size = t.m_import_size := by
    rw [init_resolvers_frame]
  have f3 : (init_resolvers d h t).m_input_file = t.m_input_file := by
    rw [init_resolvers_frame]
  have f4 : (init_resolvers d h t).m_id = t.m_id := by
    rw [init_resolvers_frame]
  have f5 : (init_resolvers d h t).m_imports = t.m_imports := by
    rw [init_resolvers_frame]
  have f6 : (init_resolvers d h t).m_segment_address_map = t.m_segment_address_map := by
    rw [init_resolvers_frame]
  have f7 : (init_resolvers d h t).m_next_seg_offset = t.m_next_seg_offset := by
    rw [init_resolvers_frame]
  have hops := ext_ops_two_same d (module_name_of d (init_resolvers d h t) mid)
    (init_resolvers d h t) mk e1 e2 hmk g1 g2 ha hs (by rw [f5]; exact hlog)
    (by rw [f7]; exact hB)
  have hidn : ¬ mid = t.m_id := hid
  have hloop : import_loop d h 1 0 (init_resolvers d h t) ⟨0, [], []⟩ []
      = (true, { init_resolvers d h t with
            m_imports := [(module_name_of d (init_resolvers d h t) mid, [mk, e1, e2])] },
          ⟨4, [(module_name_of d (init_resolvers d h t) mid,
              [(import_key d (init_resolvers d h t)
                (module_name_of d (init_resolvers d h t) mid) e1, t.m_next_seg_offset)])],
            [(module_name_of d (init_resolvers d h t) mid, t.m_next_seg_offset)]⟩, []) := by
    simp only [import_loop, Nat.zero_mul, Nat.add_zero, f1, f3, f4, hraw, hdec, hidn,
      if_false, ext_scan_eq_ops d _ _ _ (Nat.le_refl _), hchain, hops, f7]
  have hk : ∀ (t3 : rel_track) (e : rel_entry),
      t3.m_external_modules = (init_resolvers d h t).m_external_modules →
      e.addend = e1.addend → e.sect = e1.sect →
      stub_of ⟨4, [(module_name_of d (init_resolvers d h t) mid,
              [(import_key d (init_resolvers d h t)
                (module_name_of d (init_resolvers d h t) mid) e1, t.m_next_seg_offset)])],
            [(module_name_of d (init_resolvers d h t) mid, t.m_next_seg_offset)]⟩
        (module_name_of d (init_resolvers d h t) mid)
        (import_key d t3 (module_name_of d (init_resolvers d h t) mid) e)
        = some t.m_next_seg_offset := by
    intro t3 e ht3 hea hes
    rw [import_key_congr d t3 (init_resolvers d h t) ht3.symm,
      import_key_same d _ _ e e1 hea hes]
    simp [stub_of, omap_find]
  unfold apply_relocations
  simp only [f1, f2, himp, if_true, hcount, hloop, hseg, Bool.not_true, Bool.false_eq_true,
    if_false, f6, f7, ext_pass2, omap_find, Option.getD_some, hB0]
  have hrep := fun (t3 : rel_track)
      (ht3 : t3.m_external_modules = (init_resolvers d h t).m_external_modules) =>
    ext_replay_two_effect d h t3 _ _ mk e1 e2 t.m_next_seg_offset hmk g1 g2
      (hk t3 e1 ht3 rfl rfl) (hk t3 e2 ht3 ha.symm hs.symm) hB0
  rw [hrep]
  · simp only [section_address, omap_find_assign, hsi, if_false, f6]
    exact ⟨trivial, trivial, trivial, trivial⟩
  · rfl

/-- C13 (amended). End-to-end external scenario. A freshly parsed module has the three
sections of the self-relocation scenario (sizes 0x40, 0x20, 0x10) and an import table with
one descriptor, for another module id `mid` (such as 7, known as a sibling or not); the
chain of that descriptor is section-marker(section 0), then two effect-producing opcodes of
any kinds `k1` and `k2` with deltas `x1` and `x2` and the same target section 2 and addend
0x20, then end. On a host whose segment and load services succeed and with `START + 0x74`
below 2^32: `apply_patches` succeeds, and the region of the stubs is the 4 bytes from
`START + 0x70`, the first address after the last section (the address table maps
`SECTION_IMPORTS` to it and the running address ends at `START + 0x74`). The writes are
those of `stub_patch` for the first opcode at offset `x1` of section 0 followed by those for
the second at offset `x1 + x2`, both with the stub address `START + 0x70`: an opcode of one
of the four supported kinds patches its source location from that stub address, an opcode
of any other kind has the stub but writes nothing. -/
theorem scenario_external_relocation (d : Decls) (h : Host)
    (t : rel_track) (mid chain_off x y k1 k2 x1 x2 : Nat)
    (hS : d.START + 0x74 < 2 ^ 32) (hsi : 3 ≤ d.SECTION_IMPORTS)
    (hseg : ∀ a b, h.add_segm a b = true) (hf2b : ∀ p a b, h.file2base p a b = true)
    (hsec : t.m_sections = [⟨0x101, 0x40⟩, ⟨0x140, 0x20⟩, ⟨0, 0x10⟩])
    (hmap : t.m_segment_address_map = []) (hlog : t.m_imports = [])
    (himp : 0 < t.m_import_offset) (hcount : t.m_import_size / sizeof_import_entry = 1)
    (hid : mid ≠ t.m_id)
    (hentry : (qlread t.m_input_file t.m_import_offset sizeof_import_entry).map
      decode_import_entry = some ⟨mid, chain_off⟩)
    (hk1 : k1 ≠ d.R_DOLPHIN_SECTION ∧ k1 ≠ d.R_DOLPHIN_NOP)
    (hk2 : k2 ≠ d.R_DOLPHIN_SECTION ∧ k2 ≠ d.R_DOLPHIN_NOP)
    (hchain : read_chain d (t.m_input_file.drop chain_off)
      = (true, [⟨d.R_DOLPHIN_SECTION, 0, x, y⟩, ⟨k1, 2, x1, 0x20⟩, ⟨k2, 2, x2, 0x20⟩])) :
    (apply_patches d h t).1 = true ∧
    omap_find (apply_patches d h t).2.1.m_segment_address_map d.SECTION_IMPORTS
      = some (d.START + 0x70) ∧
    (apply_patches d h t).2.1.m_next_seg_offset = d.START + 0x74 ∧
    (apply_patches d h t).2.2
      = stub_patch d h k1 ((d.START + x1) % 2 ^ 32) (d.START + 0x70) 0x20 ++
        stub_patch d h k2 ((d.START + x1 + x2) % 2 ^ 32) (d.START + 0x70) 0x20 := by
  have e0 : d.START % 2 ^ 32 = d.START := Nat.mod_eq_of_lt (by omega)
  have e1 : (d.START + 0x40) % 2 ^ 32 = d.START + 0x40 := Nat.mod_eq_of_lt (by omega)
  have e2 : (d.START + 0x40 + 0x20) % 2 ^ 32 = d.START + 0x60 := by
    rw [Nat.mod_eq_of_lt (by omega)]
  have e3 : (d.START + 0x60 + 0x10) % 2 ^ 32 = d.START + 0x70 := by
    rw [Nat.mod_eq_of_lt (by omega)]
  have e4 : (d.START + 0x70 + 4) % 2 ^ 32 = d.START + 0x74 := by
    rw [Nat.mod_eq_of_lt (by omega)]
  have hcs : create_sections d h t = (true, { t with
      m_segment_address_map := [(0, d.START), (1, d.START + 0x40), (2, d.START + 0x60)]
      m_next_seg_offset := d.START + 0x70
      m_internal_bss_section := 2 }) := by
    unfold create_sections
    rw [hsec]
    simp only [create_sections_loop, hseg, hf2b, hmap, e0, e1, e2, e3]
    simp [SECTION_OFF, omap_assign, e1, e2, e3]
  have hsi0 : (0 : Nat) % 256 ≠ d.SECTION_IMPORTS := by omega
  obtain ⟨r1, r2, r3, r4⟩ := apply_relocations_two_effect d h { t with
      m_segment_address_map := [(0, d.START), (1, d.START + 0x40), (2, d.START + 0x60)]
      m_next_seg_offset := d.START + 0x70
      m_internal_bss_section := 2 } mid chain_off ⟨d.R_DOLPHIN_SECTION, 0, x, y⟩
      ⟨k1, 2, x1, 0x20⟩ ⟨k2, 2, x2, 0x20⟩ hseg hlog himp hcount hid
      hentry hchain rfl hk1 hk2 rfl rfl (by show d.START + 0x70 < 2 ^ 32; omega)
      (by show d.START + 0x70 ≠ 0; omega) hsi0
  have hap : apply_patches d h t = (true, (apply_relocations d h { t with
      m_segment_address_map := [(0, d.START), (1, d.START + 0x40), (2, d.START + 0x60)]
      m_next_seg_offset := d.START + 0x70
      m_internal_bss_section := 2 }).2) := by
    unfold apply_patches
    rw [hcs]
    simp only []
    generalize apply_relocations d h _ = r at r1 ⊢
    obtain ⟨ok, t2, ev⟩ := r
    simp only at r1
    subst r1
    rfl
  rw [hap]
  simp only []
  rw [r2, r3, r4]
  refine ⟨trivial, ?_, e4, ?_⟩
  · rw [omap_find_assign]
    simp
  · have w1 : section_address { t with
        m_segment_address_map := [(0, d.START), (1, d.START + 0x40), (2, d.START + 0x60)]
        m_next_seg_offset := d.START + 0x70
        m_internal_bss_section := 2 } 0 ((0 + x1) % 2 ^ 32) = (d.START + x1) % 2 ^ 32 := by
      simp only [section_address, omap_find]
      simp
    have w2 : section_address { t with
        m_segment_address_map := [(0, d.START), (1, d.START + 0x40), (2, d.START + 0x60)]
        m_next_seg_offset := d.START + 0x70
        m_internal_bss_section := 2 } 0 (((0 + x1) % 2 ^ 32 + x2) % 2 ^ 32)
          = (d.START + x1 + x2) % 2 ^ 32 := by
      simp only [section_address, omap_find]
      simp
      omega
    show stub_patch d h k1 (section_address _ 0 ((0 + x1) % 2 ^ 32)) (d.START + 0x70) 0x20 ++
      stub_patch d h k2 (section_address _ 0 (((0 + x1) % 2 ^ 32 + x2) % 2 ^ 32))
        (d.START + 0x70) 0x20 = _
    rw [w1, w2]

/-- Witness of C13 (amended): the module `file_ext_scenario` (descriptor for id 7, chain at
0x168, two 32-bit-absolute opcodes with deltas 4 and 8) with the declarations `stdDecls` on
the host `okHost`; both source words are patched with the stub address 0x80500070. -/
theorem scenario_external_relocation_witness :
    ((apply_patches stdDecls okHost (rel_track.new stdDecls file_ext_scenario)).1 = true ∧
    omap_find (apply_patches stdDecls okHost
      (rel_track.new stdDecls file_ext_scenario)).2.1.m_segment_address_map
        stdDecls.SECTION_IMPORTS = some (stdDecls.START + 0x70) ∧
    (apply_patches stdDecls okHost
      (rel_track.new stdDecls file_ext_scenario)).2.1.m_next_seg_offset
        = stdDecls.START + 0x74 ∧
    (apply_patches stdDecls okHost (rel_track.new stdDecls file_ext_scenario)).2.2
      = stub_patch stdDecls okHost 1 ((stdDecls.START + 4) % 2 ^ 32)
          (stdDecls.START + 0x70) 0x20 ++
        stub_patch stdDecls okHost 1 ((stdDecls.START + 4 + 8) % 2 ^ 32)
          (stdDecls.START + 0x70) 0x20) ∧
    stub_patch stdDecls okHost 1 ((stdDecls.START + 4) % 2 ^ 32)
        (stdDecls.START + 0x70) 0x20 ++
      stub_patch stdDecls okHost 1 ((stdDecls.START + 4 + 8) % 2 ^ 32)
        (stdDecls.START + 0x70) 0x20
      = [Event.patch_dword 0x80500004 0x80500070, Event.put_dword 0x80500070 0x20,
         Event.patch_dword 0x8050000C 0x80500070, Event.put_dword 0x80500070 0x20] :=
  ⟨scenario_external_relocation stdDecls okHost
    (rel_track.new stdDecls file_ext_scenario) 7 0x168 0 0 1 1 4 8 (by decide) (by decide)
    (fun _ _ => rfl) (fun _ _ _ => rfl) (by decide) (by decide) (by decide) (by decide)
    (by decide) (by decide) (by decide) (by decide) (by decide) (by decide), by decide⟩

/-- Counterexample to C13 as stated. The chain of `file_ext_unsupported` for module id 7 has
two opcodes of kind 99, which is neither section-marker nor no-op, with the same addend
0x20 and target section 2. `apply_patches` succeeds on `okHost`, both opcodes are logged and
the region of the stubs is the 4 bytes from 0x80500070, but the `switch` of the second pass
takes its default case for both: no image write is made, so neither source location is
patched. -/
theorem unsupported_pair_not_patched :
    (apply_patches stdDecls okHost (rel_track.new stdDecls file_ext_unsupported)).1 = true ∧
    (apply_patches stdDecls okHost
      (rel_track.new stdDecls file_ext_unsupported)).2.1.m_imports
      = [("module7", [⟨202, 0, 0, 0⟩, ⟨99, 2, 4, 0x20⟩, ⟨99, 2, 8, 0x20⟩])] ∧
    is_effect stdDecls ⟨99, 2, 4, 0x20⟩ ∧
    omap_find (apply_patches stdDecls okHost
      (rel_track.new stdDecls file_ext_unsupported)).2.1.m_segment_address_map
        stdDecls.SECTION_IMPORTS = some 0x80500070 ∧
    (apply_patches stdDecls okHost
      (rel_track.new stdDecls file_ext_unsupported)).2.1.m_next_seg_offset = 0x80500074 ∧
    (apply_patches stdDecls okHost (rel_track.new stdDecls file_ext_unsupported)).2.2
      = [] := by
  decide

theorem read_chain_nop_run (tail : List Nat) :
    ∀ n : Nat, read_chain stdDecls (nop_run n tail)
      = ((read_chain stdDecls tail).1,
          List.replicate n ⟨201, 0, 0xFFFF, 0⟩ ++ (read_chain stdDecls tail).2) := by
  intro n
  induction n with
  | zero => rfl
  | succ n ih =>
    rw [nop_run, read_chain, ih, List.replicate_succ]
    rfl

/-- A run of `n` no-ops with the same delta adds `n` times the delta to the current offset,
modulo 2^32, and writes nothing. -/
theorem self_ops_nops (d : Decls) (hd : d.kinds_distinct) (h : Host) (t : rel_track)
    (nop : rel_entry) (hty : nop.type = d.R_DOLPHIN_NOP) (rest : List rel_entry)
    (cs : Nat) (ev : List Event) :
    ∀ (n co : Nat), co < 2 ^ 32 →
      self_ops d h t (List.replicate n nop ++ rest) cs co ev
        = self_ops d h t rest cs ((co + n * nop.offset) % 2 ^ 32) ev := by
  intro n
  induction n with
  | zero =>
    intro co hco
    rw [List.replicate_zero, List.nil_append, Nat.zero_mul, Nat.add_zero,
      Nat.mod_eq_of_lt hco]
  | succ n ih =>
    intro co hco
    rw [List.replicate_succ, List.cons_append, self_ops, self_reloc_nop d hd h t nop _ _ _ hty]
    simp only []
    rw [ih _ (Nat.mod_lt _ (by norm_num)), Nat.mod_add_mod]
    congr 2
    rw [Nat.succ_mul]
    omega


/-- Counterexample to C9 as stated. In `wrap_chain` the deltas between the section-marker
and the 32-bit-absolute opcode, its own delta included, add up to 0x10001 * 0xFFFF + 1 =
2^32. The current offset is a `uint32_t`, so it is 0 when the opcode is dispatched, and the
one write of the chain goes to 0x80500000, the base of section 0, not to the base plus the
sum of the deltas. -/
theorem self_offset_sum_wraps :
    read_chain stdDecls wrap_chain
      = (true, ⟨202, 0, 0, 0⟩ ::
          (List.replicate 0x10001 ⟨201, 0, 0xFFFF, 0⟩ ++ [⟨1, 1, 1, 0⟩])) ∧
    0x10001 * 0xFFFF + 1 = 2 ^ 32 ∧
    omap_find scenario_state.m_segment_address_map 0 = some 0x80500000 ∧
    omap_find scenario_state.m_segment_address_map 1 = some 0x80500040 ∧
    self_chain stdDecls okHost scenario_state wrap_chain 0 0 []
      = (true, [Event.patch_dword 0x80500000 0x80500040]) ∧
    0x80500000 + (0x10001 * 0xFFFF + 1) ≠ 0x80500000 := by
  have htail : read_chain stdDecls [1, 1, 0, 1, 0, 0, 0, 0, 203, 0, 0, 0, 0, 0, 0, 0]
      = (true, [⟨1, 1, 1, 0⟩]) := by decide
  have hrun := read_chain_nop_run [1, 1, 0, 1, 0, 0, 0, 0, 203, 0, 0, 0, 0, 0, 0, 0] 0x10001
  rw [htail] at hrun
  have hrc : read_chain stdDecls wrap_chain
      = (true, ⟨202, 0, 0, 0⟩ ::
          (List.replicate 0x10001 ⟨201, 0, 0xFFFF, 0⟩ ++ [⟨1, 1, 1, 0⟩])) := by
    unfold wrap_chain
    rw [read_chain, hrun]
    rfl
  have hb0 : omap_find scenario_state.m_segment_address_map 0 = some 0x80500000 := by decide
  have hb1 : omap_find scenario_state.m_segment_address_map 1 = some 0x80500040 := by decide
  refine ⟨hrc, by norm_num, hb0, hb1, ?_, by norm_num⟩
  rw [self_chain_eq_ops stdDecls okHost scenario_state _ wrap_chain (Nat.le_refl _), hrc]
  simp only []
  rw [self_ops, self_reloc_marker stdDecls okHost scenario_state ⟨202, 0, 0, 0⟩ 0 0 [] rfl]
  simp only []
  rw [self_ops_nops stdDecls (by decide) okHost scenario_state ⟨201, 0, 0xFFFF, 0⟩ rfl
    [⟨1, 1, 1, 0⟩] 0 [] 0x10001 0 (by norm_num)]
  rw [self_ops, self_reloc_addr32 stdDecls (by decide) okHost scenario_state ⟨1, 1, 1, 0⟩
    _ _ _ rfl]
  simp only [self_ops]
  rw [section_address_some scenario_state 0 _ 0x80500000 hb0,
    section_address_some scenario_state 1 _ 0x80500040 hb1]
  norm_num

/-- C9 (amended). In a self chain the loop starts at section 0, offset 0. After the opcodes
`pre` the current section is the target of the last section-marker (0 when there is none)
and the current offset is the sum of the deltas since that marker reduced modulo 2^32, the
offset being a `uint32_t`. A 32-bit absolute opcode `r` that follows, with its current and
target section in the address table at bases `bc` and `bt`, adds its delta to the offset,
again modulo 2^32, and when `bc` plus that offset is below 2^32 it makes exactly one write:
the value `(bt + addend) mod 2^32` at the address `bc + offset`, without moving the cursor,
and the loop goes on with the opcodes after `r`. When the plain sum of the deltas since the
marker, with the delta of `r`, is below 2^32, the offset is that plain sum. -/
theorem self_chain_addr32 (d : Decls) (hd : d.kinds_distinct) (h : Host) (t : rel_track)
    (bytes : List Nat) (ok : Bool) (pre post : List rel_entry) (r : rel_entry)
    (ev0 : List Event) (bc bt : Nat)
    (hchain : read_chain d bytes = (ok, pre ++ r :: post))
    (hty : r.type = d.R_PPC_ADDR32)
    (hbc : omap_find t.m_segment_address_map (spec_section d pre % 256) = some bc)
    (hbt : omap_find t.m_segment_address_map (r.sect % 256) = some bt)
    (hfit : bc + (spec_offset d pre + r.offset) % 2 ^ 32 < 2 ^ 32) :
    spec_section d [] = 0 ∧ spec_offset d [] = 0 ∧
    (self_ops d h t pre 0 0 ev0).1 = spec_section d pre ∧
    (self_ops d h t pre 0 0 ev0).2.1 = spec_offset d pre ∧
    self_ops d h t (pre ++ [r]) 0 0 ev0
      = (spec_section d pre, (spec_offset d pre + r.offset) % 2 ^ 32,
          (self_ops d h t pre 0 0 ev0).2.2 ++
            [Event.patch_dword (bc + (spec_offset d pre + r.offset) % 2 ^ 32)
              ((bt + r.addend) % 2 ^ 32)]) ∧
    self_chain d h t bytes 0 0 ev0
      = (ok, (self_ops d h t post (spec_section d pre)
          ((spec_offset d pre + r.offset) % 2 ^ 32)
          ((self_ops d h t pre 0 0 ev0).2.2 ++
            [Event.patch_dword (bc + (spec_offset d pre + r.offset) % 2 ^ 32)
              ((bt + r.addend) % 2 ^ 32)])).2.2) ∧
    (((since_marker d pre).map (fun x => x.offset)).sum + r.offset < 2 ^ 32 →
      (spec_offset d pre + r.offset) % 2 ^ 32
        = ((since_marker d pre).map (fun x => x.offset)).sum + r.offset) := by
  obtain ⟨m1, m2, m3, m4, m5, m6⟩ :=
    self_chain_addr32_mod d hd h t bytes ok pre post r ev0 bc bt hchain hty hbc hbt
  rw [Nat.mod_eq_of_lt hfit] at m5 m6
  refine ⟨m1, m2, m3, m4, m5, m6, ?_⟩
  intro hsum
  unfold spec_offset
  omega

/-- Witness of C9 (amended): on the object of `file_scenario` after `create_sections`, the
chain section-marker(0), no-op(delta 8), 32-bit-absolute(delta 4, section 1, addend 0x10),
end writes the word 0x80500050 at 0x8050000C. -/
theorem self_chain_addr32_witness :
    read_chain stdDecls [202, 0, 0, 0, 0, 0, 0, 0, 201, 0, 0, 8, 0, 0, 0, 0,
        1, 1, 0, 4, 0, 0, 0, 0x10, 203, 0, 0, 0, 0, 0, 0, 0]
      = (true, [⟨202, 0, 0, 0⟩, ⟨201, 0, 8, 0⟩] ++ ⟨1, 1, 4, 0x10⟩ :: []) ∧
    omap_find scenario_state.m_segment_address_map
      (spec_section stdDecls [⟨202, 0, 0, 0⟩, ⟨201, 0, 8, 0⟩] % 256) = some 0x80500000 ∧
    omap_find scenario_state.m_segment_address_map (1 % 256) = some 0x80500040 ∧
    0x80500000 + (spec_offset stdDecls [⟨202, 0, 0, 0⟩, ⟨201, 0, 8, 0⟩] + 4) % 2 ^ 32
      < 2 ^ 32 ∧
    self_chain stdDecls okHost scenario_state [202, 0, 0, 0, 0, 0, 0, 0,
        201, 0, 0, 8, 0, 0, 0, 0, 1, 1, 0, 4, 0, 0, 0, 0x10, 203, 0, 0, 0, 0, 0, 0, 0] 0 0 []
      = (true, [Event.patch_dword 0x8050000C 0x80500050]) :=
  ⟨by decide, by decide, by decide, by decide,
    (self_chain_addr32 stdDecls (by decide) okHost scenario_state
      [202, 0, 0, 0, 0, 0, 0, 0, 201, 0, 0, 8, 0, 0, 0, 0,
        1, 1, 0, 4, 0, 0, 0, 0x10, 203, 0, 0, 0, 0, 0, 0, 0]
      true [⟨202, 0, 0, 0⟩, ⟨201, 0, 8, 0⟩] [] ⟨1, 1, 4, 0x10⟩ [] 0x80500000 0x80500040
      (by decide) (by decide) (by decide) (by decide) (by decide)).2.2.2.2.2.1.trans
      (by decide)⟩

end RelTrack
